import Mathlib

/-!
# The page buffer manager of `buf_XH.C`

A shallow embedding of `BufMgr` (constructor, destructor, `allocBuf`, `readPage`,
`unPinPage`, `allocPage`, `disposePage`, `flushFile`) and the properties of the
clock allocator, the pin protocol and the descriptor/index consistency.

Conventions of the embedding.

* A `File*` is a `FilePtr`: `none` is `NULL`, `some h` a handle of an open file.
* A frame of the pool is addressed by its index; `bufTable` and `bufPool` are
  the two parallel arrays, read as total functions on indices (only indices
  below `numBufs` belong to the arrays).
* The C++ `int` fields `pinCnt` and `pageNo` are integers; a pin counter is
  stepped by one per call and is taken without wrap-around.
* The file collaborator is a parameter (`FileLayer`): every call made to it is
  threaded through the `disk` component and recorded, in order, in `calls`.
* Every call of `advanceClock` records the position it moves the hand to, in
  order, in `advances`; like `calls`, this list is read by no method.
* The index is a map of identities to frames together with the identities it
  refuses to take; the index of a new manager refuses none, and no method
  changes what the index refuses.
* Line 74 of the source (`int count = 0`) lacks its semicolon; it is read as
  the declaration `int count = 0;`.
-/

/-- Modelled from the spec: the outcome kinds of section 7 and success; the
header that declares the status enumeration is not among the sources. -/
inductive Status where
  | OK
  | UNIXERR
  | BUFFEREXCEEDED
  | HASHTBLERROR
  | HASHNOTFOUND
  | PAGENOTPINNED
  | PAGEPINNED
  | BADBUFFER
  deriving DecidableEq, Repr

/-- A `File*`: `none` is the null pointer. -/
abbrev FilePtr := Option Nat

/-- The bytes of one page, read as one number (all-zero memory is `0`). -/
abbrev Page := Nat

/-- One call made to the file collaborator. -/
inductive FileCall where
  | read (file : FilePtr) (pageNo : Int)
  | write (file : FilePtr) (pageNo : Int) (bytes : Page)
  | allocate (file : FilePtr)
  | dispose (file : FilePtr) (pageNo : Int)
  deriving DecidableEq, Repr

/-- Modelled from the spec: the file collaborator of section 6 (class `File` is
not among the sources). Each operation takes the state of stable storage and
returns its status and the new state. `readPage` receives the destination
frame's bytes and returns the bytes it leaves there; `allocatePage` returns the
page number it stores through its reference parameter. -/
structure FileLayer (D : Type) where
  readPage : D → FilePtr → Int → Page → Status × Page × D
  writePage : D → FilePtr → Int → Page → Status × D
  allocatePage : D → FilePtr → Status × Int × D
  disposePage : D → FilePtr → Int → Status × D

/-- Modelled from the spec: the frame descriptor of section 3 (class `BufDesc`
of `buf.h` is not among the sources); `file` and `pageNo` are the owner,
`frameNo` is the field the constructor of `BufMgr` fills. -/
structure BufDesc where
  file : FilePtr
  pageNo : Int
  frameNo : Nat
  pinCnt : Int
  dirty : Bool
  valid : Bool
  refbit : Bool
  deriving DecidableEq, Repr

/-- Modelled from the spec: `BufDesc::Clear`, which returns a descriptor to the
all-invalid state (no owner, unpinned, clean, reference bit off). -/
def BufDesc.Clear (d : BufDesc) : BufDesc :=
  { d with pinCnt := 0, file := none, pageNo := -1, dirty := false, refbit := false,
           valid := false }

/-- Modelled from the spec: `BufDesc::Set`, the initialisation of section 4.2:
owner, `valid := true`, `dirty := false`, `refbit := true`, `pinCount := 1`. -/
def BufDesc.Set (d : BufDesc) (filePtr : FilePtr) (pageNum : Int) : BufDesc :=
  { d with file := filePtr, pageNo := pageNum, pinCnt := 1, dirty := false, refbit := true,
           valid := true }

/-- Modelled from the spec: the page-identity index of section 6 (class
`BufHashTbl` is not among the sources), a finite map from page identities to
frame indices. Section 4.2 lets the insert that follows a miss fail, so the
index also carries `refuses`, the identities for which it cannot make a new
entry (for want of memory, say). -/
structure BufHashTbl where
  map : FilePtr × Int → Option Nat
  refuses : FilePtr × Int → Bool

/-- Modelled from the spec: `lookup(identity) -> frameIndex | not-found`; the
frame number is stored through the reference parameter only on success. -/
def BufHashTbl.lookup (h : BufHashTbl) (file : FilePtr) (pageNo : Int) (frameNo : Nat) :
    Status × Nat :=
  match h.map (file, pageNo) with
  | some f => (Status.OK, f)
  | none => (Status.HASHNOTFOUND, frameNo)

/-- Modelled from the spec: `insert(identity, frameIndex) -> success/failure`;
an identity has one entry, so inserting a present identity fails, and so does
inserting one the index refuses; a failed insert leaves the index as it was. -/
def BufHashTbl.insert (h : BufHashTbl) (file : FilePtr) (pageNo : Int) (frameNo : Nat) :
    Status × BufHashTbl :=
  match h.map (file, pageNo) with
  | some _ => (Status.HASHTBLERROR, h)
  | none =>
    if h.refuses (file, pageNo) = true then (Status.HASHTBLERROR, h)
    else (Status.OK, { h with map := Function.update h.map (file, pageNo) (some frameNo) })

/-- Modelled from the spec: `remove(identity) -> success/failure`; removing an
absent identity is the failure. -/
def BufHashTbl.remove (h : BufHashTbl) (file : FilePtr) (pageNo : Int) :
    Status × BufHashTbl :=
  match h.map (file, pageNo) with
  | some _ => (Status.OK, { h with map := Function.update h.map (file, pageNo) none })
  | none => (Status.HASHTBLERROR, h)

/-- The buffer manager together with the stable storage it talks to: the
members of class `BufMgr`, the state `disk` of the file collaborator, the
list `calls` of the calls made to it so far (oldest first) and the list
`advances` of the positions `advanceClock` has moved the hand to so far
(oldest first). -/
structure BufMgr (D : Type) where
  numBufs : Nat
  bufTable : Nat → BufDesc
  bufPool : Nat → Page
  hashTable : BufHashTbl
  clockHand : Nat
  disk : D
  calls : List FileCall
  advances : List Nat

namespace BufMgr

variable {D : Type}

/-- Constructor `BufMgr::BufMgr(bufs)`: zeroed descriptors carrying their frame
number, all invalid; a zeroed pool; an empty index that refuses no identity;
the hand on the last frame. -/
def new (bufs : Nat) (d : D) : BufMgr D :=
  { numBufs := bufs
    bufTable := fun i =>
      { file := none, pageNo := 0, frameNo := i, pinCnt := 0, dirty := false, valid := false,
        refbit := false }
    bufPool := fun _ => 0
    hashTable := ⟨fun _ => none, fun _ => false⟩
    clockHand := bufs - 1
    disk := d
    calls := []
    advances := [] }

/-- Modelled from the spec: `advanceClock`, the wrap-around step of the clock
cursor (declared in `buf.h`, which is not among the sources); the position
reached is recorded in `advances`. -/
def advanceClock (s : BufMgr D) : BufMgr D :=
  { s with
    clockHand := (s.clockHand + 1) % s.numBufs
    advances := s.advances ++ [(s.clockHand + 1) % s.numBufs] }

/-- Steps 5 to 7 of `allocBuf` on the frame under the hand: remove its owner
from the index, clear the descriptor, return the frame. -/
def allocBufTake (s : BufMgr D) : Status × Nat × BufMgr D :=
  let curr := s.bufTable s.clockHand
  (Status.OK, s.clockHand,
    { s with
      hashTable := (s.hashTable.remove curr.file curr.pageNo).2
      bufTable := Function.update s.bufTable s.clockHand curr.Clear })

/-- The `while (count < numBufs*2)` loop of `allocBuf`; the first argument is
the number of iterations left, `numBufs*2 - count`, and `frame` the current
value of the reference parameter. -/
def allocBufLoop (L : FileLayer D) : Nat → BufMgr D → Nat → Status × Nat × BufMgr D
  | 0, s, frame => (Status.BUFFEREXCEEDED, frame, s)
  | n + 1, s, frame =>
    let s1 := s.advanceClock
    let curr := s1.bufTable s1.clockHand
    if curr.valid = false then (Status.OK, s1.clockHand, s1)
    else if curr.refbit = true then
      allocBufLoop L n
        { s1 with
          bufTable := Function.update s1.bufTable s1.clockHand { curr with refbit := false } }
        frame
    else if curr.pinCnt > 0 then allocBufLoop L n s1 frame
    else if curr.dirty = true then
      let w := L.writePage s1.disk curr.file curr.pageNo (s1.bufPool s1.clockHand)
      let s2 : BufMgr D :=
        { s1 with
          disk := w.2
          calls := s1.calls ++ [FileCall.write curr.file curr.pageNo (s1.bufPool s1.clockHand)] }
      if w.1 ≠ Status.OK then (Status.UNIXERR, frame, s2)
      else
        allocBufTake
          { s2 with
            bufTable := Function.update s2.bufTable s2.clockHand { curr with dirty := false } }
    else allocBufTake s1

/-- The private method `BufMgr::allocBuf(frame)`. -/
def allocBuf (L : FileLayer D) (s : BufMgr D) (frame : Nat) : Status × Nat × BufMgr D :=
  allocBufLoop L (s.numBufs * 2) s frame

/-- The method `BufMgr::readPage(file, PageNo, page)`. The second component is
the frame the returned pointer `page` designates (`none`: `page` not assigned).
The local `frameNo` starts indeterminate; it is read only after being assigned. -/
def readPage (L : FileLayer D) (s : BufMgr D) (file : FilePtr) (PageNo : Int) :
    Status × Option Nat × BufMgr D :=
  let lk := s.hashTable.lookup file PageNo 0
  if lk.1 = Status.HASHNOTFOUND then
    let a := s.allocBuf L lk.2
    if a.1 ≠ Status.OK then (Status.BUFFEREXCEEDED, none, a.2.2)
    else
      let frameNo := a.2.1
      let s1 := a.2.2
      let r := L.readPage s1.disk file PageNo (s1.bufPool frameNo)
      let s2 : BufMgr D :=
        { s1 with
          disk := r.2.2
          bufPool := Function.update s1.bufPool frameNo r.2.1
          calls := s1.calls ++ [FileCall.read file PageNo] }
      if r.1 ≠ Status.OK then (Status.UNIXERR, none, s2)
      else
        let ins := s2.hashTable.insert file PageNo frameNo
        let s3 : BufMgr D := { s2 with hashTable := ins.2 }
        if ins.1 ≠ Status.OK then (Status.HASHTBLERROR, none, s3)
        else
          (Status.OK, some frameNo,
            { s3 with
              bufTable :=
                Function.update s3.bufTable frameNo ((s3.bufTable frameNo).Set file PageNo) })
  else
    let frameNo := lk.2
    let d := s.bufTable frameNo
    (Status.OK, some frameNo,
      { s with
        bufTable := Function.update s.bufTable frameNo
          { d with refbit := true, pinCnt := d.pinCnt + 1 } })

/-- The state of `readPage` after line 162: following an index miss and a
successful `allocBuf` that returned frame `f` in state `s1`, the file has read
the page into frame `f`. -/
def readPageFill (L : FileLayer D) (s1 : BufMgr D) (file : FilePtr) (PageNo : Int) (f : Nat) :
    BufMgr D :=
  { s1 with
    disk := (L.readPage s1.disk file PageNo (s1.bufPool f)).2.2
    bufPool := Function.update s1.bufPool f (L.readPage s1.disk file PageNo (s1.bufPool f)).2.1
    calls := s1.calls ++ [FileCall.read file PageNo] }

/-- The method `BufMgr::unPinPage(file, PageNo, dirty)`. -/
def unPinPage (s : BufMgr D) (file : FilePtr) (PageNo : Int) (dirty : Bool) :
    Status × BufMgr D :=
  let lk := s.hashTable.lookup file PageNo 0
  if lk.1 ≠ Status.OK then (Status.HASHNOTFOUND, s)
  else
    let frameNo := lk.2
    let d := s.bufTable frameNo
    if d.pinCnt = 0 then (Status.PAGENOTPINNED, s)
    else
      let d1 : BufDesc := { d with pinCnt := d.pinCnt - 1 }
      let d2 : BufDesc := if dirty = true then { d1 with dirty := true } else d1
      (Status.OK, { s with bufTable := Function.update s.bufTable frameNo d2 })

/-- The method `BufMgr::allocPage(file, pageNo, page)`. The components of the
result are the status, the value left in `pageNo` by the file's `allocatePage`,
the frame designated by `page` (`none`: not assigned) and the new state. -/
def allocPage (L : FileLayer D) (s : BufMgr D) (file : FilePtr) :
    Status × Int × Option Nat × BufMgr D :=
  let al := L.allocatePage s.disk file
  let pageNo := al.2.1
  let s0 : BufMgr D := { s with disk := al.2.2, calls := s.calls ++ [FileCall.allocate file] }
  if al.1 ≠ Status.OK then (Status.UNIXERR, pageNo, none, s0)
  else
    let a := s0.allocBuf L 0
    if a.1 ≠ Status.OK then (Status.BUFFEREXCEEDED, pageNo, none, a.2.2)
    else
      let frameNo := a.2.1
      let s1 := a.2.2
      let ins := s1.hashTable.insert file pageNo frameNo
      let s2 : BufMgr D := { s1 with hashTable := ins.2 }
      if ins.1 ≠ Status.OK then (Status.HASHTBLERROR, pageNo, none, s2)
      else
        (Status.OK, pageNo, some frameNo,
          { s2 with
            bufTable :=
              Function.update s2.bufTable frameNo ((s2.bufTable frameNo).Set file pageNo) })

/-- The method `BufMgr::disposePage(file, pageNo)`. -/
def disposePage (L : FileLayer D) (s : BufMgr D) (file : FilePtr) (pageNo : Int) :
    Status × BufMgr D :=
  let lk := s.hashTable.lookup file pageNo 0
  let s1 : BufMgr D :=
    if lk.1 = Status.OK then
      { s with bufTable := Function.update s.bufTable lk.2 (s.bufTable lk.2).Clear }
    else s
  let s2 : BufMgr D := { s1 with hashTable := (s1.hashTable.remove file pageNo).2 }
  let dp := L.disposePage s2.disk file pageNo
  (dp.1, { s2 with disk := dp.2, calls := s2.calls ++ [FileCall.dispose file pageNo] })

/-- The tail of `flushFile` for one flushed frame `i`: remove the index entry,
null the owner and invalidate (lines 309 to 313). -/
def flushFileDrop (s : BufMgr D) (file : FilePtr) (i : Nat) : BufMgr D :=
  let tmpbuf := s.bufTable i
  { s with
    hashTable := (s.hashTable.remove file tmpbuf.pageNo).2
    bufTable := Function.update s.bufTable i
      { tmpbuf with file := none, pageNo := -1, valid := false } }

/-- The state with which `flushFile` goes on after flushing frame `i`: the
frame written back if it was dirty, then dropped. -/
def flushFileNext (L : FileLayer D) (s : BufMgr D) (file : FilePtr) (i : Nat) : BufMgr D :=
  if (s.bufTable i).dirty = true then
    flushFileDrop
      { s with
        disk := (L.writePage s.disk (s.bufTable i).file (s.bufTable i).pageNo (s.bufPool i)).2
        calls := s.calls ++
          [FileCall.write (s.bufTable i).file (s.bufTable i).pageNo (s.bufPool i)]
        bufTable := Function.update s.bufTable i { s.bufTable i with dirty := false } }
      file i
  else flushFileDrop s file i

/-- The `for (i = 0; i < numBufs; i++)` loop of `flushFile`; the first argument
is the number of frames left, `numBufs - i`. -/
def flushFileLoop (L : FileLayer D) (file : FilePtr) : Nat → Nat → BufMgr D → Status × BufMgr D
  | 0, _, s => (Status.OK, s)
  | n + 1, i, s =>
    let tmpbuf := s.bufTable i
    if tmpbuf.valid = true ∧ tmpbuf.file = file then
      if tmpbuf.pinCnt > 0 then (Status.PAGEPINNED, s)
      else if tmpbuf.dirty = true then
        let w := L.writePage s.disk tmpbuf.file tmpbuf.pageNo (s.bufPool i)
        let s1 : BufMgr D :=
          { s with
            disk := w.2
            calls := s.calls ++ [FileCall.write tmpbuf.file tmpbuf.pageNo (s.bufPool i)] }
        if w.1 ≠ Status.OK then (w.1, s1)
        else
          flushFileLoop L file n (i + 1)
            (flushFileDrop
              { s1 with bufTable := Function.update s1.bufTable i { tmpbuf with dirty := false } }
              file i)
      else flushFileLoop L file n (i + 1) (flushFileDrop s file i)
    else if tmpbuf.valid = false ∧ tmpbuf.file = file then (Status.BADBUFFER, s)
    else flushFileLoop L file n (i + 1) s

/-- The method `BufMgr::flushFile(file)`. -/
def flushFile (L : FileLayer D) (s : BufMgr D) (file : FilePtr) : Status × BufMgr D :=
  flushFileLoop L file s.numBufs 0 s

/-- The loop of the destructor: write every valid dirty frame, ignoring the
status of the write; the first argument is the number of frames left. -/
def destroyLoop (L : FileLayer D) : Nat → Nat → BufMgr D → BufMgr D
  | 0, _, s => s
  | n + 1, i, s =>
    let tmpbuf := s.bufTable i
    if tmpbuf.valid = true ∧ tmpbuf.dirty = true then
      let w := L.writePage s.disk tmpbuf.file tmpbuf.pageNo (s.bufPool i)
      destroyLoop L n (i + 1)
        { s with
          disk := w.2
          calls := s.calls ++ [FileCall.write tmpbuf.file tmpbuf.pageNo (s.bufPool i)] }
    else destroyLoop L n (i + 1) s

/-- The destructor `BufMgr::~BufMgr()`; what remains after it is stable
storage and the calls made to it. -/
def destroy (L : FileLayer D) (s : BufMgr D) : D × List FileCall :=
  let s1 := destroyLoop L s.numBufs 0 s
  (s1.disk, s1.calls)

/-- A caller stores bytes through the pointer to frame `i` it was given. -/
def pokeFrame (s : BufMgr D) (i : Nat) (bytes : Page) : BufMgr D :=
  { s with bufPool := Function.update s.bufPool i bytes }

/-- The index comes to refuse the identities of `g` (memory for new entries
has run out, say); its entries, and the rest of the manager, are as before. -/
def refusing (s : BufMgr D) (g : FilePtr × Int → Bool) : BufMgr D :=
  { s with hashTable := { s.hashTable with refuses := g } }

/-- The states a manager of at least one frame reaches through its public
methods, callers writing into frames in between. -/
inductive Reachable (L : FileLayer D) : BufMgr D → Prop
  | new (bufs : Nat) (d : D) (h : 1 ≤ bufs) : Reachable L (BufMgr.new bufs d)
  | readPage (s : BufMgr D) (file : FilePtr) (PageNo : Int) :
      Reachable L s → Reachable L (s.readPage L file PageNo).2.2
  | unPinPage (s : BufMgr D) (file : FilePtr) (PageNo : Int) (dirty : Bool) :
      Reachable L s → Reachable L (s.unPinPage file PageNo dirty).2
  | allocPage (s : BufMgr D) (file : FilePtr) :
      Reachable L s → Reachable L (s.allocPage L file).2.2.2
  | disposePage (s : BufMgr D) (file : FilePtr) (pageNo : Int) :
      Reachable L s → Reachable L (s.disposePage L file pageNo).2
  | flushFile (s : BufMgr D) (file : FilePtr) :
      Reachable L s → Reachable L (s.flushFile L file).2
  | pokeFrame (s : BufMgr D) (i : Nat) (bytes : Page) :
      Reachable L s → Reachable L (s.pokeFrame i bytes)

/-- The consistency invariant of a manager state: the index holds exactly the
owners of the valid frames of the pool, pin counts are not negative, an invalid
descriptor has no owner file and no pin, and the hand points into the pool. -/
structure Inv (s : BufMgr D) : Prop where
  index : ∀ (k : FilePtr × Int) (i : Nat), s.hashTable.map k = some i ↔
    (i < s.numBufs ∧ (s.bufTable i).valid = true ∧ (s.bufTable i).file = k.1 ∧
      (s.bufTable i).pageNo = k.2)
  pin_nonneg : ∀ i, 0 ≤ (s.bufTable i).pinCnt
  invalid_clear : ∀ i, (s.bufTable i).valid = false →
    (s.bufTable i).file = none ∧ (s.bufTable i).pinCnt = 0
  hand : s.clockHand < s.numBufs

/-- The state `s1` is `s` after some iterations of the scan of `allocBuf` that
did not return: only the hand moved and reference bits were cleared. -/
structure Scanned (s s1 : BufMgr D) : Prop where
  numBufs : s1.numBufs = s.numBufs
  bufPool : s1.bufPool = s.bufPool
  hashTable : s1.hashTable = s.hashTable
  disk : s1.disk = s.disk
  calls : s1.calls = s.calls
  desc : ∀ i, s1.bufTable i = { s.bufTable i with refbit := (s1.bufTable i).refbit }
  refbit : ∀ i, (s1.bufTable i).refbit = true → (s.bufTable i).refbit = true

/-- The state after the write-back of the frame under the hand (line 106). -/
def wroteBack (L : FileLayer D) (s : BufMgr D) : BufMgr D :=
  let curr := s.bufTable s.clockHand
  { s with
    disk := (L.writePage s.disk curr.file curr.pageNo (s.bufPool s.clockHand)).2
    calls := s.calls ++ [FileCall.write curr.file curr.pageNo (s.bufPool s.clockHand)] }

/-- The ways a call of `allocBuf` ends, seen from the state `s1` of its last
iteration (hand advanced, reference bits of the frames passed cleared). -/
inductive AllocOutcome (L : FileLayer D) (s1 : BufMgr D) (frame : Nat) :
    Status × Nat × BufMgr D → Prop
  | exhausted : AllocOutcome L s1 frame (Status.BUFFEREXCEEDED, frame, s1)
  | free (hv : (s1.bufTable s1.clockHand).valid = false) :
      AllocOutcome L s1 frame (Status.OK, s1.clockHand, s1)
  | writeFailed (hv : (s1.bufTable s1.clockHand).valid = true)
      (hr : (s1.bufTable s1.clockHand).refbit = false)
      (hp : (s1.bufTable s1.clockHand).pinCnt ≤ 0)
      (hd : (s1.bufTable s1.clockHand).dirty = true)
      (hw : (L.writePage s1.disk (s1.bufTable s1.clockHand).file
        (s1.bufTable s1.clockHand).pageNo (s1.bufPool s1.clockHand)).1 ≠ Status.OK) :
      AllocOutcome L s1 frame (Status.UNIXERR, frame, wroteBack L s1)
  | evictClean (hv : (s1.bufTable s1.clockHand).valid = true)
      (hr : (s1.bufTable s1.clockHand).refbit = false)
      (hp : (s1.bufTable s1.clockHand).pinCnt ≤ 0)
      (hd : (s1.bufTable s1.clockHand).dirty = false) :
      AllocOutcome L s1 frame (allocBufTake s1)
  | evictDirty (hv : (s1.bufTable s1.clockHand).valid = true)
      (hr : (s1.bufTable s1.clockHand).refbit = false)
      (hp : (s1.bufTable s1.clockHand).pinCnt ≤ 0)
      (hd : (s1.bufTable s1.clockHand).dirty = true)
      (hw : (L.writePage s1.disk (s1.bufTable s1.clockHand).file
        (s1.bufTable s1.clockHand).pageNo (s1.bufPool s1.clockHand)).1 = Status.OK) :
      AllocOutcome L s1 frame
        (allocBufTake
          { wroteBack L s1 with
            bufTable := Function.update s1.bufTable s1.clockHand
              { s1.bufTable s1.clockHand with dirty := false } })

/-- Frame `i` holds in `t` the page it held in `s`: still valid, same owner,
same dirty flag, same bytes, its owner still mapped to `i` by the index, and
a pin count that is not smaller. -/
def FrameKept (s t : BufMgr D) (i : Nat) : Prop :=
  (t.bufTable i).valid = true ∧ (t.bufTable i).file = (s.bufTable i).file ∧
  (t.bufTable i).pageNo = (s.bufTable i).pageNo ∧
  (t.bufTable i).dirty = (s.bufTable i).dirty ∧ t.bufPool i = s.bufPool i ∧
  t.hashTable.map ((s.bufTable i).file, (s.bufTable i).pageNo) = some i ∧
  (s.bufTable i).pinCnt ≤ (t.bufTable i).pinCnt

/-- The write the destructor issues for frame `i`: for a valid dirty frame, a
`writePage` to the owning file of the owner page number with the frame's
bytes; for any other frame, none. -/
def frameWrite (s : BufMgr D) (i : Nat) : Option FileCall :=
  if (s.bufTable i).valid = true ∧ (s.bufTable i).dirty = true then
    some (FileCall.write (s.bufTable i).file (s.bufTable i).pageNo (s.bufPool i))
  else none

/-- The writes of the valid dirty frames of the pool, in frame order. -/
def dirtyFrameWrites (s : BufMgr D) : List FileCall :=
  (List.range s.numBufs).filterMap (frameWrite s)
/-- The write `flushFile(file)` issues for frame `i`: for a valid dirty frame
owned by `file`, a `writePage` of its page number with the frame's bytes; for
any other frame, none. -/
def flushWrite (s : BufMgr D) (file : FilePtr) (i : Nat) : Option FileCall :=
  if (s.bufTable i).valid = true ∧ (s.bufTable i).file = file ∧ (s.bufTable i).dirty = true then
    some (FileCall.write file (s.bufTable i).pageNo (s.bufPool i))
  else none

/-- The writes of the valid dirty frames of `file`, in frame order. -/
def flushWrites (s : BufMgr D) (file : FilePtr) : List FileCall :=
  (List.range s.numBufs).filterMap (flushWrite s file)

/-- Fetch the pages of a list one after the other with `readPage`, never
unpinning; `none` as soon as a fetch does not return `OK`. -/
def fetchAll (L : FileLayer D) : BufMgr D → List (FilePtr × Int) → Option (BufMgr D)
  | s, [] => some s
  | s, p :: ps =>
    if (s.readPage L p.1 p.2).1 = Status.OK then fetchAll L (s.readPage L p.1 p.2).2.2 ps
    else none

/-- On a fresh manager of `bufs` frames: `readPage(F, p1)`, then
`unPinPage(F, p1, true)`, then the fetches of the pages `ps`; `none` as soon
as a call does not return `OK`. -/
def dirtyThenFill (L : FileLayer D) (bufs : Nat) (d : D) (F : FilePtr) (p1 : Int)
    (ps : List (FilePtr × Int)) : Option (BufMgr D) :=
  if ((BufMgr.new bufs d).readPage L F p1).1 = Status.OK then
    if (((BufMgr.new bufs d).readPage L F p1).2.2.unPinPage F p1 true).1 = Status.OK then
      fetchAll L (((BufMgr.new bufs d).readPage L F p1).2.2.unPinPage F p1 true).2 ps
    else none
  else none

/-- The pool is filled up to frame `k`: the frames below `k` are valid, those
from `j0` on among them pinned, the frames from `k` on invalid, the hand just
before frame `k`, and every resident page is in the list `done`. -/
structure Filled (s : BufMgr D) (j0 k : Nat) (done : List (FilePtr × Int)) : Prop where
  next : (s.clockHand + 1) % s.numBufs = k % s.numBufs
  valid_lt : ∀ i, i < k → (s.bufTable i).valid = true
  pinned : ∀ i, j0 ≤ i → i < k → 0 < (s.bufTable i).pinCnt
  invalid_ge : ∀ i, k ≤ i → (s.bufTable i).valid = false
  resident : ∀ key i, s.hashTable.map key = some i → key ∈ done
  roomy : ∀ key, s.hashTable.refuses key = false

end BufMgr

/-- The file behaves as a map from page identities to page bytes, `view`
giving the map held by a storage state: reads succeed and deliver the stored
bytes without changing storage, writes succeed and store the bytes written. -/
structure MapFile {D : Type} (L : FileLayer D) (view : D → FilePtr × Int → Page) : Prop where
  read : ∀ d file pageNo old, L.readPage d file pageNo old = (Status.OK, view d (file, pageNo), d)
  write_ok : ∀ d file pageNo bytes, (L.writePage d file pageNo bytes).1 = Status.OK
  write_view : ∀ d file pageNo bytes,
    view (L.writePage d file pageNo bytes).2 = Function.update (view d) (file, pageNo) bytes

/-- A file collaborator kept in memory: the bytes of every page and the number
of pages allocated in every file. -/
structure MemDisk where
  pages : FilePtr × Int → Page
  size : FilePtr → Int

/-- The in-memory file collaborator: reads return the stored bytes, writes
store them when `writeStatus` is `OK` and otherwise fail with `writeStatus`
leaving storage as it is, `allocatePage` hands out the next page number. -/
def memFile (writeStatus : Status) : FileLayer MemDisk where
  readPage := fun d file pageNo _ => (Status.OK, d.pages (file, pageNo), d)
  writePage := fun d file pageNo bytes =>
    if writeStatus = Status.OK then
      (Status.OK, { d with pages := Function.update d.pages (file, pageNo) bytes })
    else (writeStatus, d)
  allocatePage := fun d file =>
    (Status.OK, d.size file, { d with size := Function.update d.size file (d.size file + 1) })
  disposePage := fun d _ _ => (Status.OK, d)

/-- Storage with every page zeroed and no page allocated. -/
def emptyDisk : MemDisk := ⟨fun _ => 0, fun _ => 0⟩

/-- A pool of one frame after `readPage(F, 1)` and `unPinPage(F, 1, true)` on
the in-memory file whose writes have status `w`: page 1 is resident in frame
0, unpinned and dirty. -/
def oneDirtyFrame (w : Status) : BufMgr MemDisk :=
  (((BufMgr.new 1 emptyDisk).readPage (memFile w) (some 1) 1).2.2.unPinPage (some 1) 1 true).2

/-- The in-memory file whose writes succeed. -/
abbrev okFile : FileLayer MemDisk := memFile Status.OK

/-- The in-memory file whose writes fail with `UNIXERR`. -/
abbrev brokenFile : FileLayer MemDisk := memFile Status.UNIXERR

/-- A pool of two frames after `readPage(F, 1)` and `readPage(F, 2)`: both
pages resident and pinned once. -/
def twoPinnedFrames : BufMgr MemDisk :=
  (((BufMgr.new 2 emptyDisk).readPage (memFile Status.OK) (some 1) 1).2.2.readPage
    (memFile Status.OK) (some 1) 2).2.2

/-- The state `twoPinnedFrames` after `unPinPage(F, 2, true)`: page 1 pinned in
frame 0, page 2 unpinned and dirty in frame 1. -/
def pinnedThenDirty : BufMgr MemDisk := (twoPinnedFrames.unPinPage (some 1) 2 true).2

/-- The state `twoPinnedFrames` after `unPinPage(F, 1, false)`: page 1 unpinned
and clean in frame 0, page 2 pinned in frame 1. -/
def cleanThenPinned : BufMgr MemDisk := (twoPinnedFrames.unPinPage (some 1) 1 false).2

/-- The state `twoPinnedFrames` after `unPinPage(F, 1, true)`: page 1 unpinned
and dirty in frame 0, page 2 pinned in frame 1. -/
def dirtyThenPinned : BufMgr MemDisk := (twoPinnedFrames.unPinPage (some 1) 1 true).2

/-- A file that stores what is written and yet reports `UNIXERR` for every
write. -/
def storesButFails : FileLayer MemDisk :=
  { okFile with
    writePage := fun d file pageNo bytes =>
      (Status.UNIXERR, { d with pages := Function.update d.pages (file, pageNo) bytes }) }

/-- A file whose reads fail with `UNIXERR`, leaving the frame as it is. -/
def unreadableFile : FileLayer MemDisk :=
  { okFile with readPage := fun d _ _ old => (Status.UNIXERR, old, d) }

/-! ## The index -/

namespace BufHashTbl

theorem remove_map (h : BufHashTbl) (file : FilePtr) (pageNo : Int) (k : FilePtr × Int) :
    (h.remove file pageNo).2.map k = if k = (file, pageNo) then none else h.map k := by
  unfold BufHashTbl.remove
  cases hm : h.map (file, pageNo) with
  | none =>
    by_cases hk : k = (file, pageNo)
    · simp [hk, hm]
    · simp [hk]
  | some f =>
    by_cases hk : k = (file, pageNo)
    · subst hk
      simp
    · simp [hk, Function.update_noteq hk]

theorem remove_refuses (h : BufHashTbl) (file : FilePtr) (pageNo : Int) :
    (h.remove file pageNo).2.refuses = h.refuses := by
  unfold BufHashTbl.remove
  cases h.map (file, pageNo) <;> rfl

theorem insert_absent (h : BufHashTbl) (file : FilePtr) (pageNo : Int) (f : Nat)
    (hm : h.map (file, pageNo) = none) (hr : h.refuses (file, pageNo) = false) :
    h.insert file pageNo f =
      (Status.OK, { h with map := Function.update h.map (file, pageNo) (some f) }) := by
  unfold BufHashTbl.insert
  rw [hm]
  simp [hr]

theorem insert_present (h : BufHashTbl) (file : FilePtr) (pageNo : Int) (f g : Nat)
    (hm : h.map (file, pageNo) = some g) :
    h.insert file pageNo f = (Status.HASHTBLERROR, h) := by
  unfold BufHashTbl.insert
  rw [hm]

theorem insert_refused (h : BufHashTbl) (file : FilePtr) (pageNo : Int) (f : Nat)
    (hr : h.refuses (file, pageNo) = true) :
    h.insert file pageNo f = (Status.HASHTBLERROR, h) := by
  unfold BufHashTbl.insert
  cases h.map (file, pageNo) with
  | none => simp [hr]
  | some g => rfl

theorem insert_ok (h : BufHashTbl) (file : FilePtr) (pageNo : Int) (f : Nat)
    (hok : (h.insert file pageNo f).1 = Status.OK) :
    h.map (file, pageNo) = none ∧
    (h.insert file pageNo f).2.map = Function.update h.map (file, pageNo) (some f) := by
  cases hm : h.map (file, pageNo) with
  | none =>
    cases hr : h.refuses (file, pageNo) with
    | false =>
      rw [insert_absent _ _ _ _ hm hr]
      exact ⟨rfl, rfl⟩
    | true =>
      rw [insert_refused _ _ _ _ hr] at hok
      cases hok
  | some g =>
    rw [insert_present _ _ _ _ g hm] at hok
    cases hok

theorem insert_failed (h : BufHashTbl) (file : FilePtr) (pageNo : Int) (f : Nat)
    (hno : (h.insert file pageNo f).1 ≠ Status.OK) :
    h.insert file pageNo f = (Status.HASHTBLERROR, h) := by
  cases hm : h.map (file, pageNo) with
  | none =>
    cases hr : h.refuses (file, pageNo) with
    | false =>
      rw [insert_absent _ _ _ _ hm hr] at hno
      exact absurd rfl hno
    | true => exact insert_refused _ _ _ _ hr
  | some g => exact insert_present _ _ _ _ g hm

theorem insert_refuses (h : BufHashTbl) (file : FilePtr) (pageNo : Int) (f : Nat) :
    (h.insert file pageNo f).2.refuses = h.refuses := by
  by_cases hok : (h.insert file pageNo f).1 = Status.OK
  · cases hm : h.map (file, pageNo) with
    | none =>
      cases hr : h.refuses (file, pageNo) with
      | false => rw [insert_absent _ _ _ _ hm hr]
      | true => rw [insert_refused _ _ _ _ hr]
    | some g => rw [insert_present _ _ _ _ g hm]
  · rw [insert_failed _ _ _ _ hok]

theorem lookup_absent (h : BufHashTbl) (file : FilePtr) (pageNo : Int) (f : Nat)
    (hm : h.map (file, pageNo) = none) :
    h.lookup file pageNo f = (Status.HASHNOTFOUND, f) := by
  unfold BufHashTbl.lookup
  rw [hm]

theorem lookup_present (h : BufHashTbl) (file : FilePtr) (pageNo : Int) (f g : Nat)
    (hm : h.map (file, pageNo) = some g) :
    h.lookup file pageNo f = (Status.OK, g) := by
  unfold BufHashTbl.lookup
  rw [hm]

end BufHashTbl

namespace BufMgr

variable {D : Type}

/-! ## Preservation of the invariant by the elementary updates -/

theorem Inv.new (bufs : Nat) (d : D) (h : 1 ≤ bufs) : Inv (BufMgr.new bufs d) where
  index := fun k i => by simp [BufMgr.new]
  pin_nonneg := fun i => by simp [BufMgr.new]
  invalid_clear := fun i _ => by simp [BufMgr.new]
  hand := by
    show bufs - 1 < bufs
    omega

/-- Two valid frames of the pool with the same owner are the same frame. -/
theorem Inv.unique {s : BufMgr D} (hs : Inv s) {i j : Nat} (hi : i < s.numBufs)
    (hj : j < s.numBufs) (hvi : (s.bufTable i).valid = true) (hvj : (s.bufTable j).valid = true)
    (hf : (s.bufTable i).file = (s.bufTable j).file)
    (hp : (s.bufTable i).pageNo = (s.bufTable j).pageNo) : i = j := by
  have h1 := (hs.index ((s.bufTable j).file, (s.bufTable j).pageNo) i).2 ⟨hi, hvi, hf, hp⟩
  have h2 := (hs.index ((s.bufTable j).file, (s.bufTable j).pageNo) j).2 ⟨hj, hvj, rfl, rfl⟩
  rw [h1] at h2
  exact Option.some.inj h2

/-- The invariant does not see the pool bytes, stable storage or the calls. -/
theorem Inv.congr {s t : BufMgr D} (hs : Inv s) (hN : t.numBufs = s.numBufs)
    (hT : t.bufTable = s.bufTable) (hH : t.hashTable = s.hashTable)
    (hC : t.clockHand = s.clockHand) : Inv t where
  index := fun k i => by
    rw [hN, hT, hH]
    exact hs.index k i
  pin_nonneg := fun i => by
    rw [hT]
    exact hs.pin_nonneg i
  invalid_clear := fun i => by
    rw [hT]
    exact hs.invalid_clear i
  hand := by
    rw [hN, hC]
    exact hs.hand

/-- What the index refuses does not matter to the invariant. -/
theorem Inv.refusing {s : BufMgr D} (hs : Inv s) (g : FilePtr × Int → Bool) :
    Inv (s.refusing g) :=
  ⟨hs.index, hs.pin_nonneg, hs.invalid_clear, hs.hand⟩

/-- Changing, in every descriptor, fields other than the owner and `valid`
keeps the invariant, as long as pin counts stay legal. -/
theorem Inv.keep {s t : BufMgr D} (hs : Inv s) (hN : t.numBufs = s.numBufs)
    (hH : t.hashTable = s.hashTable) (hC : t.clockHand < t.numBufs)
    (hv : ∀ i, (t.bufTable i).valid = (s.bufTable i).valid)
    (hf : ∀ i, (t.bufTable i).file = (s.bufTable i).file)
    (hp : ∀ i, (t.bufTable i).pageNo = (s.bufTable i).pageNo)
    (hpin : ∀ i, 0 ≤ (t.bufTable i).pinCnt)
    (hclr : ∀ i, (t.bufTable i).valid = false → (t.bufTable i).pinCnt = 0) : Inv t where
  index := fun k i => by
    rw [hN, hH, hv, hf, hp]
    exact hs.index k i
  pin_nonneg := hpin
  invalid_clear := fun i h => by
    refine ⟨?_, hclr i h⟩
    rw [hf]
    rw [hv] at h
    exact (hs.invalid_clear i h).1
  hand := hC

theorem Inv.scanned {s s1 : BufMgr D} (hs : Inv s) (h : Scanned s s1)
    (hC : s1.clockHand < s.numBufs) : Inv s1 := by
  have hd := h.desc
  refine hs.keep h.numBufs h.hashTable (by rw [h.numBufs]; exact hC) ?_ ?_ ?_ ?_ ?_
  · intro i
    rw [hd i]
  · intro i
    rw [hd i]
  · intro i
    rw [hd i]
  · intro i
    rw [hd i]
    exact hs.pin_nonneg i
  · intro i hv
    rw [hd i] at hv ⊢
    exact (hs.invalid_clear i hv).2

/-- Replacing one descriptor by one with the same owner and validity keeps the
invariant, as long as its pin count stays legal. -/
theorem Inv.update_desc {s : BufMgr D} (hs : Inv s) (g : Nat) (d : BufDesc)
    (hv : d.valid = (s.bufTable g).valid) (hf : d.file = (s.bufTable g).file)
    (hp : d.pageNo = (s.bufTable g).pageNo) (hpin : 0 ≤ d.pinCnt)
    (hclr : d.valid = false → d.pinCnt = 0) :
    Inv { s with bufTable := Function.update s.bufTable g d } := by
  refine hs.keep rfl rfl hs.hand ?_ ?_ ?_ ?_ ?_ <;> intro i <;> by_cases hi : i = g
  · subst hi
    simpa using hv
  · simp [Function.update_noteq hi]
  · subst hi
    simpa using hf
  · simp [Function.update_noteq hi]
  · subst hi
    simpa using hp
  · simp [Function.update_noteq hi]
  · subst hi
    simpa using hpin
  · simpa [Function.update_noteq hi] using hs.pin_nonneg i
  · subst hi
    simpa using hclr
  · simpa [Function.update_noteq hi] using fun h => (hs.invalid_clear i h).2

/-- Frame `j` of the pool gives up its page: its owner leaves the index and its
descriptor becomes an invalid one without owner file and pin. -/
theorem Inv.release {s t : BufMgr D} (hs : Inv s) (j : Nat) (hj : j < s.numBufs)
    (hvj : (s.bufTable j).valid = true) (hN : t.numBufs = s.numBufs)
    (hC : t.clockHand < t.numBufs)
    (hm : ∀ k, t.hashTable.map k =
      if k = ((s.bufTable j).file, (s.bufTable j).pageNo) then none else s.hashTable.map k)
    (ht : ∀ i, i ≠ j → t.bufTable i = s.bufTable i)
    (hd : (t.bufTable j).valid = false ∧ (t.bufTable j).file = none ∧
      (t.bufTable j).pinCnt = 0) : Inv t where
  index := fun k i => by
    rw [hm k, hN]
    by_cases hk : k = ((s.bufTable j).file, (s.bufTable j).pageNo)
    · rw [if_pos hk]
      constructor
      · intro h
        cases h
      · rintro ⟨hi, hv, hf, hp⟩
        exfalso
        by_cases hij : i = j
        · subst hij
          rw [hd.1] at hv
          cases hv
        · rw [ht i hij] at hv hf hp
          apply hij
          apply hs.unique hi hj hv hvj
          · rw [hf, hk]
          · rw [hp, hk]
    · rw [if_neg hk]
      by_cases hij : i = j
      · subst hij
        constructor
        · intro h
          exfalso
          apply hk
          have := (hs.index k i).1 h
          exact Prod.ext this.2.2.1.symm this.2.2.2.symm
        · rintro ⟨_, hv, _, _⟩
          rw [hd.1] at hv
          cases hv
      · rw [ht i hij]
        exact hs.index k i
  pin_nonneg := fun i => by
    by_cases hij : i = j
    · subst hij
      rw [hd.2.2]
    · rw [ht i hij]
      exact hs.pin_nonneg i
  invalid_clear := fun i h => by
    by_cases hij : i = j
    · subst hij
      exact hd.2
    · rw [ht i hij] at h ⊢
      exact hs.invalid_clear i h
  hand := hC

/-- An invalid frame `f` of the pool receives a page that is not resident: the
identity enters the index and the descriptor is `Set`. -/
theorem Inv.install {s t : BufMgr D} (hs : Inv s) (f : Nat) (hf : f < s.numBufs)
    (hvf : (s.bufTable f).valid = false) (file : FilePtr) (pageNo : Int)
    (habs : s.hashTable.map (file, pageNo) = none) (hN : t.numBufs = s.numBufs)
    (hC : t.clockHand < t.numBufs)
    (hm : t.hashTable.map = Function.update s.hashTable.map (file, pageNo) (some f))
    (ht : t.bufTable = Function.update s.bufTable f ((s.bufTable f).Set file pageNo)) :
    Inv t where
  index := fun k i => by
    rw [hm, ht, hN]
    by_cases hk : k = (file, pageNo)
    · subst hk
      rw [Function.update_same]
      by_cases hif : i = f
      · subst hif
        simp [BufDesc.Set, hf]
      · rw [Function.update_noteq hif]
        constructor
        · intro h
          exact absurd (Option.some.inj h).symm hif
        · intro h
          have := (hs.index (file, pageNo) i).2 h
          rw [habs] at this
          cases this
    · rw [Function.update_noteq hk]
      by_cases hif : i = f
      · subst hif
        rw [Function.update_same]
        constructor
        · intro h
          have := ((hs.index k i).1 h).2.1
          rw [hvf] at this
          cases this
        · rintro ⟨_, _, h1, h2⟩
          exfalso
          apply hk
          exact Prod.ext h1.symm h2.symm
      · rw [Function.update_noteq hif]
        exact hs.index k i
  pin_nonneg := fun i => by
    rw [ht]
    by_cases hif : i = f
    · subst hif
      simp [BufDesc.Set]
    · rw [Function.update_noteq hif]
      exact hs.pin_nonneg i
  invalid_clear := fun i => by
    rw [ht]
    by_cases hif : i = f
    · subst hif
      simp [BufDesc.Set]
    · rw [Function.update_noteq hif]
      exact hs.invalid_clear i
  hand := hC

/-! ## The scan of `allocBuf` -/

theorem Scanned.refl (s : BufMgr D) : Scanned s s :=
  ⟨rfl, rfl, rfl, rfl, rfl, fun _ => rfl, fun _ h => h⟩

theorem Scanned.trans {s s1 s2 : BufMgr D} (h1 : Scanned s s1) (h2 : Scanned s1 s2) :
    Scanned s s2 where
  numBufs := h2.numBufs.trans h1.numBufs
  bufPool := h2.bufPool.trans h1.bufPool
  hashTable := h2.hashTable.trans h1.hashTable
  disk := h2.disk.trans h1.disk
  calls := h2.calls.trans h1.calls
  desc := fun i => by
    rw [h2.desc i]
    rw [h1.desc i]
  refbit := fun i h => h1.refbit i (h2.refbit i h)

theorem Scanned.advance (s : BufMgr D) : Scanned s s.advanceClock :=
  ⟨rfl, rfl, rfl, rfl, rfl, fun _ => rfl, fun _ h => h⟩

theorem Scanned.clearRef (s : BufMgr D) (j : Nat) :
    Scanned s { s with bufTable := (Function.update s.bufTable j
      { s.bufTable j with refbit := false }) } where
  numBufs := rfl
  bufPool := rfl
  hashTable := rfl
  disk := rfl
  calls := rfl
  desc := fun i => by
    by_cases h : i = j
    · subst h
      simp
    · simp [Function.update_noteq h]
  refbit := fun i => by
    by_cases h : i = j
    · subst h
      simp
    · simp [Function.update_noteq h]

/-- Every call of the loop of `allocBuf` returns, and it ends in one of the
five ways of `AllocOutcome`, after a scan that only cleared reference bits. -/
theorem allocBufLoop_outcome (L : FileLayer D) (n : Nat) (s : BufMgr D) (frame : Nat) :
    ∃ s1, Scanned s s1 ∧ (s.clockHand < s.numBufs → s1.clockHand < s.numBufs) ∧
      AllocOutcome L s1 frame (allocBufLoop L n s frame) := by
  induction n generalizing s with
  | zero => exact ⟨s, Scanned.refl s, fun h => h, AllocOutcome.exhausted⟩
  | succ n ih =>
    have hhand : s.clockHand < s.numBufs → s.advanceClock.clockHand < s.numBufs :=
      fun h => Nat.mod_lt _ (Nat.lt_of_le_of_lt (Nat.zero_le _) h)
    unfold allocBufLoop
    simp only []
    split_ifs with hv hr hp hd hw
    · exact ⟨s.advanceClock, Scanned.advance s, hhand, AllocOutcome.free hv⟩
    · obtain ⟨s1, hs1, hh, ho⟩ := ih
        { s.advanceClock with bufTable := (Function.update s.advanceClock.bufTable
            s.advanceClock.clockHand
            { s.advanceClock.bufTable s.advanceClock.clockHand with refbit := false }) }
      exact ⟨s1, ((Scanned.advance s).trans (Scanned.clearRef _ _)).trans hs1,
        fun h => hh (hhand h), ho⟩
    · obtain ⟨s1, hs1, hh, ho⟩ := ih s.advanceClock
      exact ⟨s1, (Scanned.advance s).trans hs1, fun h => hh (hhand h), ho⟩
    · refine ⟨s.advanceClock, Scanned.advance s, hhand, ?_⟩
      exact AllocOutcome.writeFailed (by simpa using hv) (by simpa using hr)
        (not_lt.mp hp) hd hw
    · refine ⟨s.advanceClock, Scanned.advance s, hhand, ?_⟩
      exact AllocOutcome.evictDirty (by simpa using hv) (by simpa using hr)
        (not_lt.mp hp) hd (not_not.mp hw)
    · refine ⟨s.advanceClock, Scanned.advance s, hhand, ?_⟩
      exact AllocOutcome.evictClean (by simpa using hv) (by simpa using hr)
        (not_lt.mp hp) (by simpa using hd)

/-- Taking the valid frame under the hand keeps the invariant. -/
theorem Inv.take {s : BufMgr D} (hs : Inv s)
    (hv : (s.bufTable s.clockHand).valid = true) : Inv (allocBufTake s).2.2 := by
  refine hs.release s.clockHand hs.hand hv rfl hs.hand ?_ ?_ ?_
  · intro k
    exact BufHashTbl.remove_map _ _ _ k
  · intro i hi
    show Function.update s.bufTable s.clockHand _ i = _
    rw [Function.update_noteq hi]
  · simp [allocBufTake, BufDesc.Clear]

theorem AllocOutcome.keeps_inv {L : FileLayer D} {s1 : BufMgr D} {frame : Nat}
    {r : Status × Nat × BufMgr D} (h1 : Inv s1) (ho : AllocOutcome L s1 frame r) :
    Inv r.2.2 := by
  cases ho with
  | exhausted => exact h1
  | free hv => exact h1
  | writeFailed hv hr hp hd hw => exact h1.congr rfl rfl rfl rfl
  | evictClean hv hr hp hd => exact h1.take hv
  | evictDirty hv hr hp hd hw =>
    apply Inv.take
    · exact (h1.update_desc s1.clockHand { s1.bufTable s1.clockHand with dirty := false }
        rfl rfl rfl (h1.pin_nonneg _) (fun h => (h1.invalid_clear _ h).2)).congr
        rfl rfl rfl rfl
    · show (Function.update s1.bufTable s1.clockHand _ s1.clockHand).valid = true
      rw [Function.update_same]
      exact hv

/-- The scan of `allocBuf` keeps the invariant, whatever status it returns. -/
theorem allocBufLoop_inv (L : FileLayer D) (n : Nat) {s : BufMgr D} (hs : Inv s) (frame : Nat) :
    Inv (allocBufLoop L n s frame).2.2 := by
  obtain ⟨s1, hs1, hh, ho⟩ := allocBufLoop_outcome L n s frame
  exact ho.keeps_inv (hs.scanned hs1 (hh hs.hand))

/-- What a call of the loop of `allocBuf` does to the descriptors, the pool and
the index: the pool bytes stay; a descriptor keeps every field but `refbit`,
or it is the frame returned with `OK`, which was valid and unpinned and is
cleared; an index entry stays, or it is the entry of the frame returned. -/
theorem allocBufLoop_effect (L : FileLayer D) (n : Nat) (s : BufMgr D) (frame : Nat) :
    (allocBufLoop L n s frame).2.2.numBufs = s.numBufs ∧
    (allocBufLoop L n s frame).2.2.bufPool = s.bufPool ∧
    (∀ i, (allocBufLoop L n s frame).2.2.bufTable i =
        { s.bufTable i with refbit := ((allocBufLoop L n s frame).2.2.bufTable i).refbit } ∨
      ((allocBufLoop L n s frame).1 = Status.OK ∧ i = (allocBufLoop L n s frame).2.1 ∧
        (s.bufTable i).valid = true ∧ (s.bufTable i).pinCnt ≤ 0 ∧
        (allocBufLoop L n s frame).2.2.bufTable i = (s.bufTable i).Clear)) ∧
    (∀ k, (allocBufLoop L n s frame).2.2.hashTable.map k = s.hashTable.map k ∨
      ((allocBufLoop L n s frame).1 = Status.OK ∧
        k = ((s.bufTable (allocBufLoop L n s frame).2.1).file,
          (s.bufTable (allocBufLoop L n s frame).2.1).pageNo) ∧
        (s.bufTable (allocBufLoop L n s frame).2.1).valid = true ∧
        (s.bufTable (allocBufLoop L n s frame).2.1).pinCnt ≤ 0 ∧
        (allocBufLoop L n s frame).2.2.hashTable.map k = none)) := by
  obtain ⟨s1, hs1, -, ho⟩ := allocBufLoop_outcome L n s frame
  have hd := hs1.desc
  have hfile : ∀ i, (s1.bufTable i).file = (s.bufTable i).file := fun i => by rw [hd i]
  have hpage : ∀ i, (s1.bufTable i).pageNo = (s.bufTable i).pageNo := fun i => by rw [hd i]
  have hval : ∀ i, (s1.bufTable i).valid = (s.bufTable i).valid := fun i => by rw [hd i]
  have hpin : ∀ i, (s1.bufTable i).pinCnt = (s.bufTable i).pinCnt := fun i => by rw [hd i]
  have hclr : ∀ i, (s1.bufTable i).Clear = (s.bufTable i).Clear := fun i => by
    rw [hd i]
    rfl
  -- the two evicting outcomes share their effect
  have evict : ∀ (t : BufMgr D), t.numBufs = s1.numBufs → t.bufPool = s1.bufPool →
      (∀ k, t.hashTable.map k =
        if k = ((s1.bufTable s1.clockHand).file, (s1.bufTable s1.clockHand).pageNo) then none
        else s1.hashTable.map k) →
      t.bufTable = Function.update s1.bufTable s1.clockHand (s1.bufTable s1.clockHand).Clear →
      (s1.bufTable s1.clockHand).valid = true → (s1.bufTable s1.clockHand).pinCnt ≤ 0 →
      t.numBufs = s.numBufs ∧ t.bufPool = s.bufPool ∧
      (∀ i, t.bufTable i = { s.bufTable i with refbit := (t.bufTable i).refbit } ∨
        (Status.OK = Status.OK ∧ i = s1.clockHand ∧
          (s.bufTable i).valid = true ∧ (s.bufTable i).pinCnt ≤ 0 ∧
          t.bufTable i = (s.bufTable i).Clear)) ∧
      (∀ k, t.hashTable.map k = s.hashTable.map k ∨
        (Status.OK = Status.OK ∧
          k = ((s.bufTable s1.clockHand).file, (s.bufTable s1.clockHand).pageNo) ∧
          (s.bufTable s1.clockHand).valid = true ∧ (s.bufTable s1.clockHand).pinCnt ≤ 0 ∧
          t.hashTable.map k = none)) := by
    intro t hN hP hM hT hv hp
    refine ⟨hN.trans hs1.numBufs, hP.trans hs1.bufPool, ?_, ?_⟩
    · intro i
      by_cases hi : i = s1.clockHand
      · right
        subst hi
        refine ⟨rfl, rfl, by rw [← hval]; exact hv, by rw [← hpin]; exact hp, ?_⟩
        rw [hT, Function.update_same, hclr]
      · left
        rw [hT, Function.update_noteq hi]
        exact hd i
    · intro k
      rw [hM k, hs1.hashTable]
      by_cases hk : k = ((s1.bufTable s1.clockHand).file, (s1.bufTable s1.clockHand).pageNo)
      · right
        rw [if_pos hk]
        refine ⟨rfl, ?_, by rw [← hval]; exact hv, by rw [← hpin]; exact hp, rfl⟩
        rw [hk, hfile, hpage]
      · left
        rw [if_neg hk]
  generalize allocBufLoop L n s frame = r at ho ⊢
  cases ho with
  | exhausted =>
    refine ⟨hs1.numBufs, hs1.bufPool, fun i => Or.inl (hd i), fun k => Or.inl ?_⟩
    rw [hs1.hashTable]
  | free hv =>
    refine ⟨hs1.numBufs, hs1.bufPool, fun i => Or.inl (hd i), fun k => Or.inl ?_⟩
    rw [hs1.hashTable]
  | writeFailed hv hr hp hd2 hw =>
    refine ⟨hs1.numBufs, hs1.bufPool, fun i => Or.inl (hd i), fun k => Or.inl ?_⟩
    show s1.hashTable.map k = _
    rw [hs1.hashTable]
  | evictClean hv hr hp hd2 =>
    exact evict (allocBufTake s1).2.2 rfl rfl (fun k => BufHashTbl.remove_map _ _ _ k) rfl hv hp
  | evictDirty hv hr hp hd2 hw =>
    refine evict _ rfl rfl (fun k => ?_) ?_ hv hp
    · show ((s1.hashTable.remove
        (Function.update s1.bufTable s1.clockHand _ s1.clockHand).file
        (Function.update s1.bufTable s1.clockHand _ s1.clockHand).pageNo).2).map k = _
      rw [BufHashTbl.remove_map, Function.update_same]
    · show Function.update (Function.update s1.bufTable s1.clockHand _) s1.clockHand
        (Function.update s1.bufTable s1.clockHand _ s1.clockHand).Clear = _
      rw [Function.update_same, Function.update_idem]
      rfl

/-- When `allocBuf` returns `OK`, the frame it returns is a frame of the pool
and its descriptor is invalid. -/
theorem allocBufLoop_ok (L : FileLayer D) (n : Nat) (s : BufMgr D) (frame : Nat)
    (hh : s.clockHand < s.numBufs) (hok : (allocBufLoop L n s frame).1 = Status.OK) :
    (allocBufLoop L n s frame).2.1 < s.numBufs ∧
    ((allocBufLoop L n s frame).2.2.bufTable (allocBufLoop L n s frame).2.1).valid = false := by
  obtain ⟨s1, hs1, hc, ho⟩ := allocBufLoop_outcome L n s frame
  generalize allocBufLoop L n s frame = r at ho hok ⊢
  cases ho with
  | exhausted => cases hok
  | free hv => exact ⟨hc hh, hv⟩
  | writeFailed hv hr hp hd hw => cases hok
  | evictClean hv hr hp hd => exact ⟨hc hh, by simp [allocBufTake, BufDesc.Clear]⟩
  | evictDirty hv hr hp hd hw => exact ⟨hc hh, by simp [allocBufTake, BufDesc.Clear]⟩

/-- The calls `allocBuf` makes to the file: none, or one `writePage` of a frame
that was valid, dirty and unpinned, with its owner and bytes; the status is
`OK` with that frame returned when the write succeeded and `UNIXERR` when it
failed. -/
theorem allocBufLoop_io (L : FileLayer D) (n : Nat) (s : BufMgr D) (frame : Nat) :
    ((allocBufLoop L n s frame).2.2.disk = s.disk ∧
      (allocBufLoop L n s frame).2.2.calls = s.calls ∧
      (allocBufLoop L n s frame).1 ≠ Status.UNIXERR) ∨
    (∃ i, (s.clockHand < s.numBufs → i < s.numBufs) ∧
      (s.bufTable i).valid = true ∧ (s.bufTable i).dirty = true ∧
      (s.bufTable i).pinCnt ≤ 0 ∧
      (allocBufLoop L n s frame).2.2.disk =
        (L.writePage s.disk (s.bufTable i).file (s.bufTable i).pageNo (s.bufPool i)).2 ∧
      (allocBufLoop L n s frame).2.2.calls =
        s.calls ++ [FileCall.write (s.bufTable i).file (s.bufTable i).pageNo (s.bufPool i)] ∧
      (((L.writePage s.disk (s.bufTable i).file (s.bufTable i).pageNo (s.bufPool i)).1
          = Status.OK ∧ (allocBufLoop L n s frame).1 = Status.OK ∧
          (allocBufLoop L n s frame).2.1 = i) ∨
        ((L.writePage s.disk (s.bufTable i).file (s.bufTable i).pageNo (s.bufPool i)).1
          ≠ Status.OK ∧ (allocBufLoop L n s frame).1 = Status.UNIXERR))) := by
  obtain ⟨s1, hs1, hc, ho⟩ := allocBufLoop_outcome L n s frame
  have hd := hs1.desc
  have hfile : ∀ i, (s1.bufTable i).file = (s.bufTable i).file := fun i => by rw [hd i]
  have hpage : ∀ i, (s1.bufTable i).pageNo = (s.bufTable i).pageNo := fun i => by rw [hd i]
  have hval : ∀ i, (s1.bufTable i).valid = (s.bufTable i).valid := fun i => by rw [hd i]
  have hpin : ∀ i, (s1.bufTable i).pinCnt = (s.bufTable i).pinCnt := fun i => by rw [hd i]
  have hdirty : ∀ i, (s1.bufTable i).dirty = (s.bufTable i).dirty := fun i => by rw [hd i]
  generalize allocBufLoop L n s frame = r at ho ⊢
  cases ho with
  | exhausted => exact Or.inl ⟨hs1.disk, hs1.calls, fun h => Status.noConfusion h⟩
  | free hv => exact Or.inl ⟨hs1.disk, hs1.calls, fun h => Status.noConfusion h⟩
  | evictClean hv hr hp hd2 => exact Or.inl ⟨hs1.disk, hs1.calls, fun h => Status.noConfusion h⟩
  | writeFailed hv hr hp hd2 hw =>
    refine Or.inr ⟨s1.clockHand, hc, by rw [← hval]; exact hv, by rw [← hdirty]; exact hd2,
      by rw [← hpin]; exact hp, ?_, ?_, Or.inr ⟨?_, rfl⟩⟩
    · show (L.writePage s1.disk _ _ _).2 = _
      rw [hs1.disk, hfile, hpage, hs1.bufPool]
    · show s1.calls ++ _ = _
      rw [hs1.calls, hfile, hpage, hs1.bufPool]
    · rw [← hs1.disk, ← hfile, ← hpage, ← hs1.bufPool]
      exact hw
  | evictDirty hv hr hp hd2 hw =>
    refine Or.inr ⟨s1.clockHand, hc, by rw [← hval]; exact hv, by rw [← hdirty]; exact hd2,
      by rw [← hpin]; exact hp, ?_, ?_, Or.inl ⟨?_, rfl, rfl⟩⟩
    · show (L.writePage s1.disk _ _ _).2 = _
      rw [hs1.disk, hfile, hpage, hs1.bufPool]
    · show s1.calls ++ _ = _
      rw [hs1.calls, hfile, hpage, hs1.bufPool]
    · rw [← hs1.disk, ← hfile, ← hpage, ← hs1.bufPool]
      exact hw

/-- The statuses of `allocBuf`. -/
theorem allocBufLoop_status (L : FileLayer D) (n : Nat) (s : BufMgr D) (frame : Nat) :
    (allocBufLoop L n s frame).1 = Status.OK ∨
    (allocBufLoop L n s frame).1 = Status.BUFFEREXCEEDED ∨
    (allocBufLoop L n s frame).1 = Status.UNIXERR := by
  obtain ⟨s1, -, -, ho⟩ := allocBufLoop_outcome L n s frame
  generalize allocBufLoop L n s frame = r at ho ⊢
  cases ho with
  | exhausted => exact Or.inr (Or.inl rfl)
  | free hv => exact Or.inl rfl
  | writeFailed hv hr hp hd hw => exact Or.inr (Or.inr rfl)
  | evictClean hv hr hp hd => exact Or.inl rfl
  | evictDirty hv hr hp hd hw => exact Or.inl rfl

/-- When the scan gives up after `n` iterations, the `n` frames that follow
the hand were all valid. -/
theorem allocBufLoop_exhausted (L : FileLayer D) (n : Nat) :
    ∀ (s : BufMgr D) (frame : Nat), (allocBufLoop L n s frame).1 = Status.BUFFEREXCEEDED →
      ∀ j, 1 ≤ j → j ≤ n → (s.bufTable ((s.clockHand + j) % s.numBufs)).valid = true := by
  induction n with
  | zero =>
    intro s frame _ j h1 h2
    omega
  | succ n ih =>
    intro s frame hst j h1 h2
    have hmod : ∀ j, (s.advanceClock.clockHand + j) % s.numBufs =
        (s.clockHand + (j + 1)) % s.numBufs := by
      intro j
      show ((s.clockHand + 1) % s.numBufs + j) % s.numBufs = _
      rw [Nat.add_mod, Nat.mod_mod, ← Nat.add_mod]
      congr 1
      omega
    unfold allocBufLoop at hst
    simp only [] at hst
    have hj : 1 < j → (s.advanceClock.clockHand + (j - 1)) % s.numBufs =
        (s.clockHand + j) % s.numBufs := by
      intro h
      rw [hmod]
      congr 2
      omega
    split_ifs at hst with hv hr hp hd hw
    · rcases Nat.eq_or_lt_of_le h1 with h | h
      · subst h
        simpa using hv
      · have key : ((Function.update s.advanceClock.bufTable s.advanceClock.clockHand
            { s.advanceClock.bufTable s.advanceClock.clockHand with refbit := false })
            ((s.advanceClock.clockHand + (j - 1)) % s.numBufs)).valid = true :=
          ih _ frame hst (j - 1) (by omega) (by omega)
        rw [hj h] at key
        by_cases hx : (s.clockHand + j) % s.numBufs = s.advanceClock.clockHand
        · rw [hx]
          simpa using hv
        · rw [Function.update_noteq hx] at key
          exact key
    · rcases Nat.eq_or_lt_of_le h1 with h | h
      · subst h
        simpa using hv
      · have key : (s.advanceClock.bufTable
            ((s.advanceClock.clockHand + (j - 1)) % s.numBufs)).valid = true :=
          ih _ frame hst (j - 1) (by omega) (by omega)
        rw [hj h] at key
        exact key
    · exact Status.noConfusion hst
    · exact Status.noConfusion hst

/-- With an invalid frame in the pool and writes that succeed, `allocBuf`
returns `OK`. -/
theorem allocBuf_ok_of_invalid (L : FileLayer D) {s : BufMgr D} (hs : Inv s) (frame f : Nat)
    (hf : f < s.numBufs) (hv : (s.bufTable f).valid = false)
    (hw : ∀ d file pageNo bytes, (L.writePage d file pageNo bytes).1 = Status.OK) :
    (s.allocBuf L frame).1 = Status.OK := by
  rcases allocBufLoop_status L (s.numBufs * 2) s frame with h | h | h
  · exact h
  · exfalso
    have hh := hs.hand
    have := allocBufLoop_exhausted L (s.numBufs * 2) s frame h (f + s.numBufs - s.clockHand)
      (by omega) (by omega)
    have hmod : (s.clockHand + (f + s.numBufs - s.clockHand)) % s.numBufs = f := by
      rw [show s.clockHand + (f + s.numBufs - s.clockHand) = f + s.numBufs by omega,
        Nat.add_mod_right, Nat.mod_eq_of_lt hf]
    rw [hmod, hv] at this
    cases this
  · exfalso
    rcases allocBufLoop_io L (s.numBufs * 2) s frame with hio | ⟨i, hio⟩
    · exact hio.2.2 h
    · rcases hio.2.2.2.2.2.2 with h2 | h2
      · rw [h2.2.1] at h
        cases h
      · exact h2.1 (hw _ _ _ _)

/-! ## The public methods keep the invariant -/

theorem readPage_hit (L : FileLayer D) (s : BufMgr D) (file : FilePtr) (PageNo : Int) (g : Nat)
    (h : s.hashTable.map (file, PageNo) = some g) :
    s.readPage L file PageNo = (Status.OK, some g,
      { s with bufTable := (Function.update s.bufTable g
          { s.bufTable g with refbit := true, pinCnt := (s.bufTable g).pinCnt + 1 }) }) := by
  unfold readPage
  rw [BufHashTbl.lookup_present _ _ _ _ g h]
  simp

theorem readPage_miss (L : FileLayer D) (s : BufMgr D) (file : FilePtr) (PageNo : Int)
    (h : s.hashTable.map (file, PageNo) = none) :
    s.readPage L file PageNo =
      if (s.allocBuf L 0).1 ≠ Status.OK then (Status.BUFFEREXCEEDED, none, (s.allocBuf L 0).2.2)
      else if (L.readPage (s.allocBuf L 0).2.2.disk file PageNo
          ((s.allocBuf L 0).2.2.bufPool (s.allocBuf L 0).2.1)).1 ≠ Status.OK then
        (Status.UNIXERR, none, readPageFill L (s.allocBuf L 0).2.2 file PageNo (s.allocBuf L 0).2.1)
      else if ((s.allocBuf L 0).2.2.hashTable.insert file PageNo (s.allocBuf L 0).2.1).1
          ≠ Status.OK then
        (Status.HASHTBLERROR, none,
          { readPageFill L (s.allocBuf L 0).2.2 file PageNo (s.allocBuf L 0).2.1 with
            hashTable :=
              ((s.allocBuf L 0).2.2.hashTable.insert file PageNo (s.allocBuf L 0).2.1).2 })
      else
        (Status.OK, some (s.allocBuf L 0).2.1,
          { readPageFill L (s.allocBuf L 0).2.2 file PageNo (s.allocBuf L 0).2.1 with
            hashTable :=
              ((s.allocBuf L 0).2.2.hashTable.insert file PageNo (s.allocBuf L 0).2.1).2
            bufTable := Function.update (s.allocBuf L 0).2.2.bufTable (s.allocBuf L 0).2.1
              (((s.allocBuf L 0).2.2.bufTable (s.allocBuf L 0).2.1).Set file PageNo) }) := by
  unfold readPage
  rw [BufHashTbl.lookup_absent _ _ _ _ h]
  rfl

theorem readPage_inv (L : FileLayer D) {s : BufMgr D} (hs : Inv s) (file : FilePtr)
    (PageNo : Int) : Inv (s.readPage L file PageNo).2.2 := by
  cases hm : s.hashTable.map (file, PageNo) with
  | some g =>
    rw [readPage_hit L s file PageNo g hm]
    have hg := (hs.index (file, PageNo) g).1 hm
    refine hs.update_desc g _ rfl rfl rfl ?_ ?_
    · have := hs.pin_nonneg g
      show 0 ≤ (s.bufTable g).pinCnt + 1
      omega
    · intro h
      have hv : (s.bufTable g).valid = false := h
      rw [hg.2.1] at hv
      cases hv
  | none =>
    rw [readPage_miss L s file PageNo hm]
    have ha : Inv (s.allocBuf L 0).2.2 := allocBufLoop_inv L _ hs 0
    have he := allocBufLoop_effect L (s.numBufs * 2) s 0
    have hN : (s.allocBuf L 0).2.2.numBufs = s.numBufs := he.1
    have habs : (s.allocBuf L 0).2.2.hashTable.map (file, PageNo) = none := by
      rcases he.2.2.2 (file, PageNo) with h | h
      · exact h.trans hm
      · exact h.2.2.2.2
    split_ifs with h1 h2 h3
    · exact ha
    · exact ha.congr rfl rfl rfl rfl
    · refine ha.congr rfl rfl ?_ rfl
      show ((s.allocBuf L 0).2.2.hashTable.insert file PageNo (s.allocBuf L 0).2.1).2 = _
      rw [BufHashTbl.insert_failed _ _ _ _ h3]
    · have hok := allocBufLoop_ok L (s.numBufs * 2) s 0 hs.hand (not_not.mp h1)
      refine ha.install (s.allocBuf L 0).2.1 (by rw [hN]; exact hok.1) hok.2 file PageNo habs
        rfl ha.hand ?_ rfl
      exact (BufHashTbl.insert_ok _ _ _ _ (not_not.mp h3)).2

theorem unPinPage_inv {s : BufMgr D} (hs : Inv s) (file : FilePtr) (PageNo : Int)
    (dirty : Bool) : Inv (s.unPinPage file PageNo dirty).2 := by
  unfold unPinPage
  cases hm : s.hashTable.map (file, PageNo) with
  | none =>
    rw [BufHashTbl.lookup_absent _ _ _ _ hm]
    exact hs
  | some g =>
    rw [BufHashTbl.lookup_present _ _ _ _ g hm]
    have hg := (hs.index (file, PageNo) g).1 hm
    have hpin := hs.pin_nonneg g
    simp only [ne_eq, not_true_eq_false, if_false]
    by_cases h0 : (s.bufTable g).pinCnt = 0
    · rw [if_pos h0]
      exact hs
    · rw [if_neg h0]
      refine hs.update_desc g _ ?_ ?_ ?_ ?_ ?_
      · cases dirty <;> simp
      · cases dirty <;> simp
      · cases dirty <;> simp
      · cases dirty <;> simp <;> omega
      · cases dirty <;> simp [hg.2.1]

theorem allocPage_inv (L : FileLayer D) {s : BufMgr D} (hs : Inv s) (file : FilePtr) :
    Inv (s.allocPage L file).2.2.2 := by
  have key : ∀ (s0 : BufMgr D) (pageNo : Int), Inv s0 →
      Inv (if (s0.allocBuf L 0).1 ≠ Status.OK then
          (Status.BUFFEREXCEEDED, pageNo, (none : Option Nat), (s0.allocBuf L 0).2.2)
        else if ((s0.allocBuf L 0).2.2.hashTable.insert file pageNo (s0.allocBuf L 0).2.1).1
            ≠ Status.OK then
          (Status.HASHTBLERROR, pageNo, none,
            { (s0.allocBuf L 0).2.2 with
              hashTable :=
                ((s0.allocBuf L 0).2.2.hashTable.insert file pageNo (s0.allocBuf L 0).2.1).2 })
        else
          (Status.OK, pageNo, some (s0.allocBuf L 0).2.1,
            { (s0.allocBuf L 0).2.2 with
              hashTable :=
                ((s0.allocBuf L 0).2.2.hashTable.insert file pageNo (s0.allocBuf L 0).2.1).2
              bufTable := Function.update (s0.allocBuf L 0).2.2.bufTable (s0.allocBuf L 0).2.1
                (((s0.allocBuf L 0).2.2.bufTable (s0.allocBuf L 0).2.1).Set file pageNo)
                })).2.2.2 := by
    intro s0 pageNo h0
    have ha : Inv (s0.allocBuf L 0).2.2 := allocBufLoop_inv L _ h0 0
    have he := allocBufLoop_effect L (s0.numBufs * 2) s0 0
    have hN : (s0.allocBuf L 0).2.2.numBufs = s0.numBufs := he.1
    split_ifs with h2 h3
    · exact ha
    · rw [BufHashTbl.insert_failed _ _ _ _ h3]
      exact ha
    · have hins := BufHashTbl.insert_ok _ _ _ _ (not_not.mp h3)
      have hok := allocBufLoop_ok L (s0.numBufs * 2) s0 0 h0.hand (not_not.mp h2)
      exact ha.install (s0.allocBuf L 0).2.1 (by rw [hN]; exact hok.1) hok.2 file _ hins.1
        rfl ha.hand hins.2 rfl
  unfold allocPage
  simp only []
  by_cases h1 : (L.allocatePage s.disk file).1 ≠ Status.OK
  · rw [if_pos h1]
    exact hs.congr rfl rfl rfl rfl
  · rw [if_neg h1]
    exact key _ _ (hs.congr rfl rfl rfl rfl)

theorem disposePage_inv (L : FileLayer D) {s : BufMgr D} (hs : Inv s) (file : FilePtr)
    (pageNo : Int) : Inv (s.disposePage L file pageNo).2 := by
  unfold disposePage
  cases hm : s.hashTable.map (file, pageNo) with
  | none =>
    rw [BufHashTbl.lookup_absent _ _ _ _ hm]
    refine hs.congr rfl rfl ?_ rfl
    show (s.hashTable.remove file pageNo).2 = s.hashTable
    unfold BufHashTbl.remove
    rw [hm]
  | some g =>
    rw [BufHashTbl.lookup_present _ _ _ _ g hm]
    have hg := (hs.index (file, pageNo) g).1 hm
    refine hs.release g hg.1 hg.2.1 rfl hs.hand ?_ ?_ ?_
    · intro k
      show (s.hashTable.remove file pageNo).2.map k = _
      rw [BufHashTbl.remove_map, hg.2.2.1, hg.2.2.2]
    · intro i hi
      show Function.update s.bufTable g _ i = _
      rw [Function.update_noteq hi]
    · simp [BufDesc.Clear]

/-- Dropping a valid unpinned frame of `file` in `flushFile` keeps the invariant. -/
theorem Inv.flushDrop {t : BufMgr D} (ht : Inv t) (file : FilePtr) (i : Nat)
    (hi : i < t.numBufs) (hv : (t.bufTable i).valid = true) (hf : (t.bufTable i).file = file)
    (hp : ¬ (t.bufTable i).pinCnt > 0) : Inv (flushFileDrop t file i) := by
  refine ht.release i hi hv rfl ht.hand ?_ ?_ ?_
  · intro k
    show (t.hashTable.remove file (t.bufTable i).pageNo).2.map k = _
    rw [BufHashTbl.remove_map, hf]
  · intro j hj
    show Function.update t.bufTable i _ j = _
    rw [Function.update_noteq hj]
  · have := ht.pin_nonneg i
    simp [flushFileDrop]
    omega

theorem flushFileLoop_inv (L : FileLayer D) (file : FilePtr) (n : Nat) :
    ∀ (i : Nat) (s : BufMgr D), Inv s → i + n = s.numBufs →
      Inv (flushFileLoop L file n i s).2 := by
  induction n with
  | zero =>
    intro i s hs _
    exact hs
  | succ n ih =>
    intro i s hs hn
    have drop : ∀ t : BufMgr D, Inv t → t.numBufs = s.numBufs →
        (t.bufTable i).valid = true → (t.bufTable i).file = file →
        ¬ (t.bufTable i).pinCnt > 0 → Inv (flushFileDrop t file i) := by
      intro t ht hN hv hf hp
      refine ht.release i (by omega) hv rfl ht.hand ?_ ?_ ?_
      · intro k
        show (t.hashTable.remove file (t.bufTable i).pageNo).2.map k = _
        rw [BufHashTbl.remove_map, hf]
      · intro j hj
        show Function.update t.bufTable i _ j = _
        rw [Function.update_noteq hj]
      · have := ht.pin_nonneg i
        simp [flushFileDrop]
        omega
    unfold flushFileLoop
    simp only []
    split_ifs with h1 h2 h3 h4 h5
    · exact hs
    · exact hs.congr rfl rfl rfl rfl
    · apply ih
      · refine drop _ ?_ rfl ?_ ?_ ?_
        rotate_left
        · simpa using h1.1
        · simpa using h1.2
        · simpa using h2
        · exact (hs.update_desc i { s.bufTable i with dirty := false } rfl rfl rfl
            (hs.pin_nonneg _) (fun h => (hs.invalid_clear _ h).2)).congr rfl rfl rfl rfl
      · show i + 1 + n = s.numBufs
        omega
    · apply ih
      · exact drop s hs rfl h1.1 h1.2 h2
      · show i + 1 + n = s.numBufs
        omega
    · exact hs
    · exact ih (i + 1) s hs (by omega)

theorem flushFile_inv (L : FileLayer D) {s : BufMgr D} (hs : Inv s) (file : FilePtr) :
    Inv (s.flushFile L file).2 :=
  flushFileLoop_inv L file s.numBufs 0 s hs (by omega)

/-! ## One iteration of `flushFile` -/

theorem flushFileNext_bufTable (L : FileLayer D) (s : BufMgr D) (file : FilePtr) (i : Nat) :
    (flushFileNext L s file i).bufTable = Function.update s.bufTable i
      { s.bufTable i with file := none, pageNo := -1, valid := false, dirty := false } := by
  unfold flushFileNext
  split_ifs with hd
  · simp [flushFileDrop]
  · have hd2 : (s.bufTable i).dirty = false := by simpa using hd
    simp only [flushFileDrop]
    rw [← hd2]

theorem flushFileNext_map (L : FileLayer D) (s : BufMgr D) (file : FilePtr) (i : Nat)
    (k : FilePtr × Int) :
    (flushFileNext L s file i).hashTable.map k =
      if k = (file, (s.bufTable i).pageNo) then none else s.hashTable.map k := by
  unfold flushFileNext
  split_ifs with hd hk hk
  · simp [flushFileDrop, BufHashTbl.remove_map, hk]
  · simp [flushFileDrop, BufHashTbl.remove_map, hk]
  · simp [flushFileDrop, BufHashTbl.remove_map, hk]
  · simp [flushFileDrop, BufHashTbl.remove_map, hk]

theorem flushFileNext_frame (L : FileLayer D) (s : BufMgr D) (file : FilePtr) (i : Nat) :
    (flushFileNext L s file i).numBufs = s.numBufs ∧
    (flushFileNext L s file i).bufPool = s.bufPool ∧
    (flushFileNext L s file i).clockHand = s.clockHand := by
  unfold flushFileNext
  split_ifs <;> exact ⟨rfl, rfl, rfl⟩

theorem flushFileNext_io (L : FileLayer D) (s : BufMgr D) (file : FilePtr) (i : Nat) :
    ((s.bufTable i).dirty = true →
      (flushFileNext L s file i).disk =
        (L.writePage s.disk (s.bufTable i).file (s.bufTable i).pageNo (s.bufPool i)).2 ∧
      (flushFileNext L s file i).calls = s.calls ++
        [FileCall.write (s.bufTable i).file (s.bufTable i).pageNo (s.bufPool i)]) ∧
    ((s.bufTable i).dirty = false →
      (flushFileNext L s file i).disk = s.disk ∧ (flushFileNext L s file i).calls = s.calls) := by
  unfold flushFileNext
  constructor
  · intro hd
    rw [if_pos hd]
    exact ⟨rfl, rfl⟩
  · intro hd
    rw [if_neg (by simp [hd])]
    exact ⟨rfl, rfl⟩

theorem Inv.flushNext (L : FileLayer D) {s : BufMgr D} (hs : Inv s) (file : FilePtr) (i : Nat)
    (hi : i < s.numBufs) (hv : (s.bufTable i).valid = true) (hf : (s.bufTable i).file = file)
    (hp : ¬ (s.bufTable i).pinCnt > 0) : Inv (flushFileNext L s file i) := by
  unfold flushFileNext
  split_ifs with hd
  · refine Inv.flushDrop ?_ file i hi ?_ ?_ ?_
    · exact (hs.update_desc i { s.bufTable i with dirty := false } rfl rfl rfl
        (hs.pin_nonneg _) (fun h => (hs.invalid_clear _ h).2)).congr rfl rfl rfl rfl
    · simpa using hv
    · simpa using hf
    · simpa using hp
  · exact Inv.flushDrop hs file i hi hv hf hp

/-- One iteration of the loop of `flushFile`, by cases on frame `i`. -/
theorem flushFileLoop_succ (L : FileLayer D) (file : FilePtr) (n i : Nat) (s : BufMgr D) :
    flushFileLoop L file (n + 1) i s =
      if (s.bufTable i).valid = true ∧ (s.bufTable i).file = file then
        if (s.bufTable i).pinCnt > 0 then (Status.PAGEPINNED, s)
        else if (s.bufTable i).dirty = true ∧
            (L.writePage s.disk (s.bufTable i).file (s.bufTable i).pageNo (s.bufPool i)).1
              ≠ Status.OK then
          ((L.writePage s.disk (s.bufTable i).file (s.bufTable i).pageNo (s.bufPool i)).1,
            { s with
              disk :=
                (L.writePage s.disk (s.bufTable i).file (s.bufTable i).pageNo (s.bufPool i)).2
              calls := s.calls ++
                [FileCall.write (s.bufTable i).file (s.bufTable i).pageNo (s.bufPool i)] })
        else flushFileLoop L file n (i + 1) (flushFileNext L s file i)
      else if (s.bufTable i).valid = false ∧ (s.bufTable i).file = file then
        (Status.BADBUFFER, s)
      else flushFileLoop L file n (i + 1) s := by
  conv_lhs => unfold flushFileLoop
  simp only []
  unfold flushFileNext
  by_cases h1 : (s.bufTable i).valid = true ∧ (s.bufTable i).file = file
  · rw [if_pos h1, if_pos h1]
    by_cases h2 : (s.bufTable i).pinCnt > 0
    · rw [if_pos h2, if_pos h2]
    · rw [if_neg h2, if_neg h2]
      by_cases h3 : (s.bufTable i).dirty = true
      · rw [if_pos h3]
        by_cases h4 : (L.writePage s.disk (s.bufTable i).file (s.bufTable i).pageNo
            (s.bufPool i)).1 ≠ Status.OK
        · rw [if_pos h4, if_pos ⟨h3, h4⟩]
        · rw [if_neg h4, if_neg (fun h => h4 h.2), if_pos h3]
      · rw [if_neg h3, if_neg (fun h => h3 h.1), if_neg h3]
  · rw [if_neg h1, if_neg h1]

/-- What the loop of `flushFile` does to the frames: the pool bytes and the
hand stay; a descriptor stays, or it belonged to a valid unpinned frame of
`file` and is now invalid, clean and without owner; an index entry stays or
is gone. -/
theorem flushFileLoop_effect (L : FileLayer D) (file : FilePtr) (n : Nat) :
    ∀ (i : Nat) (s : BufMgr D),
      (flushFileLoop L file n i s).2.numBufs = s.numBufs ∧
      (flushFileLoop L file n i s).2.bufPool = s.bufPool ∧
      (flushFileLoop L file n i s).2.clockHand = s.clockHand ∧
      (∀ m, (flushFileLoop L file n i s).2.bufTable m = s.bufTable m ∨
        (i ≤ m ∧ m < i + n ∧ (s.bufTable m).valid = true ∧ (s.bufTable m).file = file ∧
          (s.bufTable m).pinCnt ≤ 0 ∧
          (flushFileLoop L file n i s).2.bufTable m =
            { s.bufTable m with file := none, pageNo := -1, valid := false, dirty := false })) ∧
      (∀ k, (flushFileLoop L file n i s).2.hashTable.map k = s.hashTable.map k ∨
        (flushFileLoop L file n i s).2.hashTable.map k = none) := by
  induction n with
  | zero =>
    intro i s
    exact ⟨rfl, rfl, rfl, fun m => Or.inl rfl, fun k => Or.inl rfl⟩
  | succ n ih =>
    intro i s
    rw [flushFileLoop_succ]
    split_ifs with h1 h2 h3 h4
    · exact ⟨rfl, rfl, rfl, fun m => Or.inl rfl, fun k => Or.inl rfl⟩
    · exact ⟨rfl, rfl, rfl, fun m => Or.inl rfl, fun k => Or.inl rfl⟩
    · obtain ⟨e1, e2, e3, e4, e5⟩ := ih (i + 1) (flushFileNext L s file i)
      have hf := flushFileNext_frame L s file i
      refine ⟨e1.trans hf.1, e2.trans hf.2.1, e3.trans hf.2.2, ?_, ?_⟩
      · intro m
        by_cases hm : m = i
        · subst hm
          right
          refine ⟨le_refl _, by omega, h1.1, h1.2, not_lt.mp h2, ?_⟩
          rcases e4 m with h | h
          · rw [h, flushFileNext_bufTable, Function.update_same]
          · omega
        · rcases e4 m with h | h
          · left
            rw [h, flushFileNext_bufTable, Function.update_noteq hm]
          · right
            rw [flushFileNext_bufTable, Function.update_noteq hm] at h
            exact ⟨by omega, by omega, h.2.2.1, h.2.2.2.1, h.2.2.2.2.1, h.2.2.2.2.2⟩
      · intro k
        rcases e5 k with h | h
        · rw [h, flushFileNext_map]
          split_ifs
          · exact Or.inr rfl
          · exact Or.inl rfl
        · exact Or.inr h
    · exact ⟨rfl, rfl, rfl, fun m => Or.inl rfl, fun k => Or.inl rfl⟩
    · obtain ⟨e1, e2, e3, e4, e5⟩ := ih (i + 1) s
      refine ⟨e1, e2, e3, ?_, e5⟩
      intro m
      rcases e4 m with h | h
      · exact Or.inl h
      · exact Or.inr ⟨by omega, by omega, h.2.2.1, h.2.2.2.1, h.2.2.2.2.1, h.2.2.2.2.2⟩

/-- When a frame of a non-null file is pinned and the writes of the file
succeed, the loop of `flushFile`, started at or before the first pinned frame
`j` of the file, returns `PAGEPINNED` there: frames from `j` on are untouched
and the frames of the file before `j` have been invalidated. -/
theorem flushFileLoop_pinned (L : FileLayer D) (h : Nat)
    (hw : ∀ d file pageNo bytes, (L.writePage d file pageNo bytes).1 = Status.OK) (n : Nat) :
    ∀ (i : Nat) (s : BufMgr D), Inv s → i + n = s.numBufs → ∀ j, i ≤ j → j < s.numBufs →
      (s.bufTable j).valid = true → (s.bufTable j).file = some h → 0 < (s.bufTable j).pinCnt →
      (∀ m, i ≤ m → m < j → ¬ ((s.bufTable m).valid = true ∧ (s.bufTable m).file = some h ∧
        0 < (s.bufTable m).pinCnt)) →
      (flushFileLoop L (some h) n i s).1 = Status.PAGEPINNED ∧
      (∀ m, j ≤ m → (flushFileLoop L (some h) n i s).2.bufTable m = s.bufTable m) ∧
      (∀ m, i ≤ m → m < j → (s.bufTable m).valid = true → (s.bufTable m).file = some h →
        ((flushFileLoop L (some h) n i s).2.bufTable m).valid = false) := by
  induction n with
  | zero =>
    intro i s _ hn j hij hj
    omega
  | succ n ih =>
    intro i s hs hn j hij hj hvj hfj hpj hfirst
    rw [flushFileLoop_succ]
    rcases Nat.eq_or_lt_of_le hij with heq | hlt
    · subst heq
      rw [if_pos ⟨hvj, hfj⟩, if_pos hpj]
      exact ⟨rfl, fun m _ => rfl, fun m h1 h2 => by omega⟩
    · by_cases h1 : (s.bufTable i).valid = true ∧ (s.bufTable i).file = some h
      · have h2 : ¬ (s.bufTable i).pinCnt > 0 := fun hp =>
          hfirst i (le_refl _) hlt ⟨h1.1, h1.2, hp⟩
        rw [if_pos h1, if_neg h2, if_neg (fun hc => hc.2 (hw _ _ _ _))]
        have hnext := flushFileNext_bufTable L s (some h) i
        have hfr := flushFileNext_frame L s (some h) i
        have hne : ∀ m, m ≠ i → (flushFileNext L s (some h) i).bufTable m = s.bufTable m :=
          fun m hm => by rw [hnext, Function.update_noteq hm]
        obtain ⟨r1, r2, r3⟩ := ih (i + 1) (flushFileNext L s (some h) i)
          (hs.flushNext L (some h) i (by omega) h1.1 h1.2 h2) (by rw [hfr.1]; omega) j hlt
          (by rw [hfr.1]; exact hj) (by rw [hne j (by omega)]; exact hvj)
          (by rw [hne j (by omega)]; exact hfj) (by rw [hne j (by omega)]; exact hpj)
          (fun m hm1 hm2 => by rw [hne m (by omega)]; exact hfirst m (by omega) hm2)
        refine ⟨r1, fun m hm => ?_, fun m hm1 hm2 hv hf => ?_⟩
        · rw [r2 m hm, hne m (by omega)]
        · by_cases hmi : m = i
          · subst hmi
            rcases (flushFileLoop_effect L (some h) n (m + 1)
              (flushFileNext L s (some h) m)).2.2.2.1 m with e | e
            · rw [e, hnext, Function.update_same]
            · omega
          · exact r3 m (by omega) hm2 (by rw [hne m hmi]; exact hv)
              (by rw [hne m hmi]; exact hf)
      · have h3 : ¬ ((s.bufTable i).valid = false ∧ (s.bufTable i).file = some h) := by
          rintro ⟨hv, hf⟩
          rw [(hs.invalid_clear i hv).1] at hf
          cases hf
        rw [if_neg h1, if_neg h3]
        obtain ⟨r1, r2, r3⟩ := ih (i + 1) s hs (by omega) j hlt hj hvj hfj hpj
          (fun m hm1 hm2 => hfirst m (by omega) hm2)
        refine ⟨r1, r2, fun m hm1 hm2 hv hf => ?_⟩
        by_cases hmi : m = i
        · subst hmi
          exact absurd ⟨hv, hf⟩ h1
        · exact r3 m (by omega) hm2 hv hf

/-- A `flushFile` loop that returns `OK` over a file that is a map: every
frame of `file` from `i` on has been invalidated; the page of each such dirty
frame now holds the frame's bytes in storage; any other page of storage is as
before. -/
theorem flushFileLoop_ok_written (L : FileLayer D) (view : D → FilePtr × Int → Page)
    (hL : MapFile L view) (file : FilePtr) (n : Nat) :
    ∀ (i : Nat) (s : BufMgr D), Inv s → i + n = s.numBufs →
      (flushFileLoop L file n i s).1 = Status.OK →
      (∀ m, i ≤ m → m < s.numBufs → (s.bufTable m).valid = true → (s.bufTable m).file = file →
        ((flushFileLoop L file n i s).2.bufTable m).valid = false) ∧
      (∀ m, i ≤ m → m < s.numBufs → (s.bufTable m).valid = true → (s.bufTable m).file = file →
        (s.bufTable m).dirty = true →
        view (flushFileLoop L file n i s).2.disk (file, (s.bufTable m).pageNo) = s.bufPool m) ∧
      (∀ k, view (flushFileLoop L file n i s).2.disk k = view s.disk k ∨
        ∃ m, i ≤ m ∧ m < s.numBufs ∧ (s.bufTable m).valid = true ∧
          (s.bufTable m).file = file ∧ (s.bufTable m).dirty = true ∧
          k = (file, (s.bufTable m).pageNo)) := by
  induction n with
  | zero =>
    intro i s _ hn _
    exact ⟨fun m h1 h2 => by omega, fun m h1 h2 => by omega, fun k => Or.inl rfl⟩
  | succ n ih =>
    intro i s hs hn hok
    rw [flushFileLoop_succ] at hok ⊢
    by_cases h1 : (s.bufTable i).valid = true ∧ (s.bufTable i).file = file
    · rw [if_pos h1] at hok ⊢
      by_cases h2 : (s.bufTable i).pinCnt > 0
      · rw [if_pos h2] at hok
        exact Status.noConfusion hok
      · rw [if_neg h2, if_neg (fun hc => hc.2 (hL.write_ok _ _ _ _))] at hok ⊢
        have hnext := flushFileNext_bufTable L s file i
        have hfr := flushFileNext_frame L s file i
        have hio := flushFileNext_io L s file i
        have hne : ∀ m, m ≠ i → (flushFileNext L s file i).bufTable m = s.bufTable m :=
          fun m hm => by rw [hnext, Function.update_noteq hm]
        obtain ⟨a, b, c⟩ := ih (i + 1) (flushFileNext L s file i)
          (hs.flushNext L file i (by omega) h1.1 h1.2 h2) (by rw [hfr.1]; omega) hok
        rw [hfr.1] at a b c
        -- storage after the write-back of frame `i`
        have hdisk : ∀ k, view (flushFileNext L s file i).disk k = view s.disk k ∨
            ((s.bufTable i).dirty = true ∧ k = (file, (s.bufTable i).pageNo) ∧
              view (flushFileNext L s file i).disk k = s.bufPool i) := by
          intro k
          cases hd : (s.bufTable i).dirty with
          | false =>
            left
            rw [(hio.2 hd).1]
          | true =>
            rw [(hio.1 hd).1, hL.write_view, h1.2]
            by_cases hk : k = (file, (s.bufTable i).pageNo)
            · right
              rw [hk, Function.update_same]
              exact ⟨rfl, rfl, rfl⟩
            · left
              rw [Function.update_noteq hk]
        -- the page of frame `i` is not written again
        have hlater : ∀ k, k = (file, (s.bufTable i).pageNo) →
            view (flushFileLoop L file n (i + 1) (flushFileNext L s file i)).2.disk k =
              view (flushFileNext L s file i).disk k := by
          intro k hk
          rcases c k with h | ⟨m, hm1, hm2, hm3, hm4, -, hm6⟩
          · exact h
          · exfalso
            rw [hne m (by omega)] at hm3 hm4 hm6
            have := hs.unique hm2 (show i < s.numBufs by omega) hm3 h1.1 (hm4.trans h1.2.symm)
              (by
                rw [hk] at hm6
                exact (congrArg Prod.snd hm6).symm)
            omega
        refine ⟨fun m hm1 hm2 hv hf => ?_, fun m hm1 hm2 hv hf hd => ?_, fun k => ?_⟩
        · by_cases hmi : m = i
          · subst hmi
            rcases (flushFileLoop_effect L file n (m + 1)
              (flushFileNext L s file m)).2.2.2.1 m with e | e
            · rw [e, hnext, Function.update_same]
            · omega
          · exact a m (by omega) hm2 (by rw [hne m hmi]; exact hv) (by rw [hne m hmi]; exact hf)
        · by_cases hmi : m = i
          · subst hmi
            rw [hlater _ rfl, (hio.1 hd).1, hL.write_view, h1.2, Function.update_same]
          · have := b m (by omega) hm2 (by rw [hne m hmi]; exact hv)
              (by rw [hne m hmi]; exact hf) (by rw [hne m hmi]; exact hd)
            rw [hne m hmi, hfr.2.1] at this
            exact this
        · rcases c k with h | ⟨m, hm1, hm2, hm3, hm4, hm5, hm6⟩
          · rw [h]
            rcases hdisk k with h5 | h5
            · exact Or.inl h5
            · exact Or.inr ⟨i, le_refl _, by omega, h1.1, h1.2, h5.1, h5.2.1⟩
          · rw [hne m (by omega)] at hm3 hm4 hm5 hm6
            exact Or.inr ⟨m, by omega, hm2, hm3, hm4, hm5, hm6⟩
    · rw [if_neg h1] at hok ⊢
      by_cases h3 : (s.bufTable i).valid = false ∧ (s.bufTable i).file = file
      · rw [if_pos h3] at hok
        exact Status.noConfusion hok
      · rw [if_neg h3] at hok ⊢
        obtain ⟨a, b, c⟩ := ih (i + 1) s hs (by omega) hok
        refine ⟨fun m hm1 hm2 hv hf => ?_, fun m hm1 hm2 hv hf hd => ?_, fun k => ?_⟩
        · by_cases hmi : m = i
          · subst hmi
            exact absurd ⟨hv, hf⟩ h1
          · exact a m (by omega) hm2 hv hf
        · by_cases hmi : m = i
          · subst hmi
            exact absurd ⟨hv, hf⟩ h1
          · exact b m (by omega) hm2 hv hf hd
        · rcases c k with h | ⟨m, hm1, hm2, hm3, hm4, hm5, hm6⟩
          · exact Or.inl h
          · exact Or.inr ⟨m, by omega, hm2, hm3, hm4, hm5, hm6⟩

/-- Every reachable state satisfies the invariant. -/
theorem Reachable.invariant {L : FileLayer D} {s : BufMgr D} (h : Reachable L s) : Inv s := by
  induction h with
  | new bufs d h => exact Inv.new bufs d h
  | readPage s file PageNo _ ih => exact readPage_inv L ih file PageNo
  | unPinPage s file PageNo dirty _ ih => exact unPinPage_inv ih file PageNo dirty
  | allocPage s file _ ih => exact allocPage_inv L ih file
  | disposePage s file pageNo _ ih => exact disposePage_inv L ih file pageNo
  | flushFile s file _ ih => exact flushFile_inv L ih file
  | pokeFrame s i bytes _ ih => exact ih.congr rfl rfl rfl rfl

/-! ## The refusals of the index -/

theorem allocBufLoop_refuses (L : FileLayer D) (n : Nat) (s : BufMgr D) (frame : Nat) :
    (allocBufLoop L n s frame).2.2.hashTable.refuses = s.hashTable.refuses := by
  obtain ⟨s1, hs1, -, ho⟩ := allocBufLoop_outcome L n s frame
  generalize allocBufLoop L n s frame = r at ho ⊢
  cases ho with
  | exhausted =>
    show s1.hashTable.refuses = _
    rw [hs1.hashTable]
  | free hv =>
    show s1.hashTable.refuses = _
    rw [hs1.hashTable]
  | writeFailed hv hr hp hd2 hw =>
    show s1.hashTable.refuses = _
    rw [hs1.hashTable]
  | evictClean hv hr hp hd2 =>
    show (s1.hashTable.remove _ _).2.refuses = _
    rw [BufHashTbl.remove_refuses, hs1.hashTable]
  | evictDirty hv hr hp hd2 hw =>
    show (s1.hashTable.remove _ _).2.refuses = _
    rw [BufHashTbl.remove_refuses, hs1.hashTable]

theorem readPage_refuses (L : FileLayer D) (s : BufMgr D) (file : FilePtr) (PageNo : Int) :
    (s.readPage L file PageNo).2.2.hashTable.refuses = s.hashTable.refuses := by
  have ha : (s.allocBuf L 0).2.2.hashTable.refuses = s.hashTable.refuses :=
    allocBufLoop_refuses L (s.numBufs * 2) s 0
  cases hm : s.hashTable.map (file, PageNo) with
  | some g => rw [readPage_hit L s file PageNo g hm]
  | none =>
    rw [readPage_miss L s file PageNo hm]
    split_ifs
    · exact ha
    · exact ha
    · show (BufHashTbl.insert _ _ _ _).2.refuses = _
      rw [BufHashTbl.insert_refuses]
      exact ha
    · show (BufHashTbl.insert _ _ _ _).2.refuses = _
      rw [BufHashTbl.insert_refuses]
      exact ha

theorem unPinPage_refuses (s : BufMgr D) (file : FilePtr) (PageNo : Int) (dirty : Bool) :
    (s.unPinPage file PageNo dirty).2.hashTable.refuses = s.hashTable.refuses := by
  unfold unPinPage
  simp only []
  split_ifs <;> rfl

theorem allocPage_refuses (L : FileLayer D) (s : BufMgr D) (file : FilePtr) :
    (s.allocPage L file).2.2.2.hashTable.refuses = s.hashTable.refuses := by
  unfold allocPage
  simp only []
  split_ifs
  · rfl
  · exact allocBufLoop_refuses L _ _ 0
  · show (BufHashTbl.insert _ _ _ _).2.refuses = _
    rw [BufHashTbl.insert_refuses]
    exact allocBufLoop_refuses L _ _ 0
  · show (BufHashTbl.insert _ _ _ _).2.refuses = _
    rw [BufHashTbl.insert_refuses]
    exact allocBufLoop_refuses L _ _ 0

theorem disposePage_refuses (L : FileLayer D) (s : BufMgr D) (file : FilePtr) (pageNo : Int) :
    (s.disposePage L file pageNo).2.hashTable.refuses = s.hashTable.refuses := by
  unfold disposePage
  simp only []
  rw [BufHashTbl.remove_refuses]
  split_ifs <;> rfl

theorem flushFileNext_refuses (L : FileLayer D) (s : BufMgr D) (file : FilePtr) (i : Nat) :
    (flushFileNext L s file i).hashTable.refuses = s.hashTable.refuses := by
  unfold flushFileNext
  split_ifs
  · show (BufHashTbl.remove _ _ _).2.refuses = _
    rw [BufHashTbl.remove_refuses]
  · show (BufHashTbl.remove _ _ _).2.refuses = _
    rw [BufHashTbl.remove_refuses]

theorem flushFileLoop_refuses (L : FileLayer D) (file : FilePtr) (n : Nat) :
    ∀ (i : Nat) (s : BufMgr D),
      (flushFileLoop L file n i s).2.hashTable.refuses = s.hashTable.refuses := by
  induction n with
  | zero =>
    intro i s
    rfl
  | succ n ih =>
    intro i s
    rw [flushFileLoop_succ]
    split_ifs
    · rfl
    · rfl
    · rw [ih, flushFileNext_refuses]
    · rfl
    · exact ih _ _

/-- The index of a reachable state refuses no identity. -/
theorem Reachable.roomy {L : FileLayer D} {s : BufMgr D} (h : Reachable L s) :
    ∀ k, s.hashTable.refuses k = false := by
  induction h with
  | new bufs d h => exact fun _ => rfl
  | readPage s file PageNo _ ih =>
    intro k
    rw [readPage_refuses]
    exact ih k
  | unPinPage s file PageNo dirty _ ih =>
    intro k
    rw [unPinPage_refuses]
    exact ih k
  | allocPage s file _ ih =>
    intro k
    rw [allocPage_refuses]
    exact ih k
  | disposePage s file pageNo _ ih =>
    intro k
    rw [disposePage_refuses]
    exact ih k
  | flushFile s file _ ih =>
    intro k
    have := flushFileLoop_refuses L file s.numBufs 0 s
    exact (congrFun this k).trans (ih k)
  | pokeFrame s i bytes _ ih => exact ih

end BufMgr

/-- The in-memory file whose writes succeed is a map. -/
theorem okFile_mapFile : MapFile okFile (fun d => d.pages) where
  read := fun _ _ _ _ => rfl
  write_ok := fun _ _ _ _ => rfl
  write_view := fun _ _ _ _ => rfl

open BufMgr

/-- A pinned frame of the pool survives a call of `allocBuf`: only its
reference bit may change, its bytes and index entry stay, and it is not the
frame returned. -/
theorem BufMgr.allocBuf_pinned {D : Type} (L : FileLayer D) {s : BufMgr D} (hs : Inv s)
    (frame i : Nat) (hi : i < s.numBufs) (hv : (s.bufTable i).valid = true)
    (hp : 0 < (s.bufTable i).pinCnt) :
    (s.allocBuf L frame).2.2.bufTable i =
      { s.bufTable i with refbit := ((s.allocBuf L frame).2.2.bufTable i).refbit } ∧
    (s.allocBuf L frame).2.2.bufPool = s.bufPool ∧
    (s.allocBuf L frame).2.2.hashTable.map ((s.bufTable i).file, (s.bufTable i).pageNo)
      = some i ∧
    ((s.allocBuf L frame).1 = Status.OK → i ≠ (s.allocBuf L frame).2.1) := by
  have he := allocBufLoop_effect L (s.numBufs * 2) s frame
  have hidx := (hs.index ((s.bufTable i).file, (s.bufTable i).pageNo) i).2 ⟨hi, hv, rfl, rfl⟩
  have hkeep : (s.allocBuf L frame).2.2.bufTable i =
      { s.bufTable i with refbit := ((s.allocBuf L frame).2.2.bufTable i).refbit } := by
    rcases he.2.2.1 i with h | h
    · exact h
    · have := h.2.2.2.1
      omega
  refine ⟨hkeep, he.2.1, ?_, ?_⟩
  · rcases he.2.2.2 ((s.bufTable i).file, (s.bufTable i).pageNo) with h | h
    · exact h.trans hidx
    · exfalso
      have hok := allocBufLoop_ok L (s.numBufs * 2) s frame hs.hand h.1
      have hij := hs.unique hi hok.1 hv h.2.2.1 (congrArg Prod.fst h.2.1)
        (congrArg Prod.snd h.2.1)
      have := h.2.2.2.1
      rw [← hij] at this
      omega
  · intro hok hij
    have h2 := (allocBufLoop_ok L (s.numBufs * 2) s frame hs.hand hok).2
    have h3 : ((s.allocBuf L frame).2.2.bufTable i).valid = false := by
      rw [hij]
      exact h2
    rw [hkeep] at h3
    rw [hv] at h3
    cases h3

namespace BufMgr

variable {D : Type}

/-! ## The destructor, disposal, and the scan in detail -/

theorem destroyLoop_calls (L : FileLayer D) (n : Nat) :
    ∀ (i : Nat) (s : BufMgr D),
      (destroyLoop L n i s).calls = s.calls ++ (List.range' i n).filterMap (frameWrite s) := by
  induction n with
  | zero =>
    intro i s
    simp [destroyLoop]
  | succ n ih =>
    intro i s
    unfold destroyLoop
    simp only []
    rw [List.range'_succ, List.filterMap_cons]
    split_ifs with h
    · rw [ih]
      have hw : frameWrite s i = some (FileCall.write (s.bufTable i).file (s.bufTable i).pageNo
          (s.bufPool i)) := by
        unfold frameWrite
        rw [if_pos h]
      rw [hw]
      simp only [List.append_assoc, List.singleton_append]
      rfl
    · rw [ih]
      have hw : frameWrite s i = none := by
        unfold frameWrite
        rw [if_neg h]
      rw [hw]

/-- The result of the destructor depends on the files only through the effect
of their writes on storage, not through the statuses the writes return. -/
theorem destroyLoop_status_blind (L1 L2 : FileLayer D)
    (heff : ∀ d file pageNo bytes,
      (L1.writePage d file pageNo bytes).2 = (L2.writePage d file pageNo bytes).2) (n : Nat) :
    ∀ (i : Nat) (s : BufMgr D), destroyLoop L1 n i s = destroyLoop L2 n i s := by
  induction n with
  | zero =>
    intro i s
    rfl
  | succ n ih =>
    intro i s
    unfold destroyLoop
    simp only []
    split_ifs with h
    · rw [heff, ih]
    · rw [ih]

theorem flushFileLoop_no_badbuffer (L : FileLayer D) (h : Nat)
    (hw : ∀ d file pageNo bytes, (L.writePage d file pageNo bytes).1 ≠ Status.BADBUFFER)
    (n : Nat) :
    ∀ (i : Nat) (s : BufMgr D), Inv s → i + n = s.numBufs →
      (flushFileLoop L (some h) n i s).1 ≠ Status.BADBUFFER := by
  induction n with
  | zero =>
    intro i s _ _ hc
    exact Status.noConfusion hc
  | succ n ih =>
    intro i s hs hn
    rw [flushFileLoop_succ]
    split_ifs with h1 h2 h3 h4
    · exact fun hc => Status.noConfusion hc
    · exact hw _ _ _ _
    · exact ih (i + 1) _ (hs.flushNext L (some h) i (by omega) h1.1 h1.2 h2)
        (by rw [(flushFileNext_frame L s (some h) i).1]; omega)
    · exfalso
      rw [(hs.invalid_clear i h4.1).1] at h4
      cases h4.2
    · exact ih (i + 1) s hs (by omega)

/-- An iteration of `allocBuf` that meets a valid, unpinned, dirty frame with
a cleared reference bit whose write-back fails returns `UNIXERR` at once. -/
theorem allocBufLoop_write_failed (L : FileLayer D) (n : Nat) (t : BufMgr D) (frame : Nat)
    (hv : (t.bufTable t.advanceClock.clockHand).valid = true)
    (hr : (t.bufTable t.advanceClock.clockHand).refbit = false)
    (hp : (t.bufTable t.advanceClock.clockHand).pinCnt ≤ 0)
    (hd : (t.bufTable t.advanceClock.clockHand).dirty = true)
    (hw : (L.writePage t.disk (t.bufTable t.advanceClock.clockHand).file
      (t.bufTable t.advanceClock.clockHand).pageNo (t.bufPool t.advanceClock.clockHand)).1
        ≠ Status.OK) :
    allocBufLoop L (n + 1) t frame = (Status.UNIXERR, frame, wroteBack L t.advanceClock) := by
  have hv1 : (t.advanceClock.bufTable t.advanceClock.clockHand).valid = true := hv
  have hr1 : (t.advanceClock.bufTable t.advanceClock.clockHand).refbit = false := hr
  have hp1 : ¬ (t.advanceClock.bufTable t.advanceClock.clockHand).pinCnt > 0 := not_lt.mpr hp
  have hd1 : (t.advanceClock.bufTable t.advanceClock.clockHand).dirty = true := hd
  have hw1 : (L.writePage t.advanceClock.disk (t.advanceClock.bufTable
      t.advanceClock.clockHand).file (t.advanceClock.bufTable t.advanceClock.clockHand).pageNo
      (t.advanceClock.bufPool t.advanceClock.clockHand)).1 ≠ Status.OK := hw
  unfold allocBufLoop
  simp only []
  rw [if_neg (by simp [hv1]), if_neg (by simp [hr1]), if_neg hp1, if_pos hd1, if_pos hw1]
  rfl

/-- A call of `allocBuf` that returns `UNIXERR` stopped on a frame that was
valid, unpinned and dirty and whose write-back failed; apart from the hand,
cleared reference bits and the file call, the state is the one before. -/
theorem allocBufLoop_unixerr (L : FileLayer D) (n : Nat) (s : BufMgr D) (frame : Nat)
    (hst : (allocBufLoop L n s frame).1 = Status.UNIXERR) :
    (s.clockHand < s.numBufs → (allocBufLoop L n s frame).2.2.clockHand < s.numBufs) ∧
    Scanned { s with
        disk := (allocBufLoop L n s frame).2.2.disk
        calls := (allocBufLoop L n s frame).2.2.calls }
      (allocBufLoop L n s frame).2.2 ∧
    (s.bufTable (allocBufLoop L n s frame).2.2.clockHand).valid = true ∧
    (s.bufTable (allocBufLoop L n s frame).2.2.clockHand).dirty = true ∧
    (s.bufTable (allocBufLoop L n s frame).2.2.clockHand).pinCnt ≤ 0 ∧
    ((allocBufLoop L n s frame).2.2.bufTable (allocBufLoop L n s frame).2.2.clockHand).refbit
      = false ∧
    (L.writePage s.disk (s.bufTable (allocBufLoop L n s frame).2.2.clockHand).file
      (s.bufTable (allocBufLoop L n s frame).2.2.clockHand).pageNo
      (s.bufPool (allocBufLoop L n s frame).2.2.clockHand)).1 ≠ Status.OK ∧
    (allocBufLoop L n s frame).2.2.calls = s.calls ++
      [FileCall.write (s.bufTable (allocBufLoop L n s frame).2.2.clockHand).file
        (s.bufTable (allocBufLoop L n s frame).2.2.clockHand).pageNo
        (s.bufPool (allocBufLoop L n s frame).2.2.clockHand)] := by
  obtain ⟨s1, hs1, hc, ho⟩ := allocBufLoop_outcome L n s frame
  have hd := hs1.desc
  have hfile : ∀ i, (s1.bufTable i).file = (s.bufTable i).file := fun i => by rw [hd i]
  have hpage : ∀ i, (s1.bufTable i).pageNo = (s.bufTable i).pageNo := fun i => by rw [hd i]
  have hval : ∀ i, (s1.bufTable i).valid = (s.bufTable i).valid := fun i => by rw [hd i]
  have hpin : ∀ i, (s1.bufTable i).pinCnt = (s.bufTable i).pinCnt := fun i => by rw [hd i]
  have hdirty : ∀ i, (s1.bufTable i).dirty = (s.bufTable i).dirty := fun i => by rw [hd i]
  generalize allocBufLoop L n s frame = r at ho hst ⊢
  cases ho with
  | exhausted => exact Status.noConfusion hst
  | free hv => exact Status.noConfusion hst
  | evictClean hv hr hp hd2 => exact Status.noConfusion hst
  | evictDirty hv hr hp hd2 hw => exact Status.noConfusion hst
  | writeFailed hv hr hp hd2 hw =>
    refine ⟨hc, ?_, by rw [← hval]; exact hv, by rw [← hdirty]; exact hd2,
      by rw [← hpin]; exact hp, hr, ?_, ?_⟩
    · exact ⟨hs1.numBufs, hs1.bufPool, hs1.hashTable, rfl, rfl, hs1.desc, hs1.refbit⟩
    · rw [← hs1.disk, ← hfile, ← hpage, ← hs1.bufPool]
      exact hw
    · show s1.calls ++ _ = _
      rw [hs1.calls, hfile, hpage, hs1.bufPool]
      rfl

/-- The calls of a `flushFile` loop that stops at the pinned frame `j`: one
write per valid dirty frame of the file before `j`, in frame order. -/
theorem flushFileLoop_pinned_calls (L : FileLayer D) (h : Nat)
    (hw : ∀ d file pageNo bytes, (L.writePage d file pageNo bytes).1 = Status.OK) (n : Nat) :
    ∀ (i : Nat) (s : BufMgr D), Inv s → i + n = s.numBufs → ∀ j, i ≤ j → j < s.numBufs →
      (s.bufTable j).valid = true → (s.bufTable j).file = some h → 0 < (s.bufTable j).pinCnt →
      (∀ m, i ≤ m → m < j → ¬ ((s.bufTable m).valid = true ∧ (s.bufTable m).file = some h ∧
        0 < (s.bufTable m).pinCnt)) →
      (flushFileLoop L (some h) n i s).2.calls =
        s.calls ++ (List.range' i (j - i)).filterMap (flushWrite s (some h)) := by
  induction n with
  | zero =>
    intro i s _ hn j hij hj
    omega
  | succ n ih =>
    intro i s hs hn j hij hj hvj hfj hpj hfirst
    rw [flushFileLoop_succ]
    rcases Nat.eq_or_lt_of_le hij with heq | hlt
    · subst heq
      rw [if_pos ⟨hvj, hfj⟩, if_pos hpj]
      simp
    · rw [show j - i = (j - (i + 1)) + 1 by omega, List.range'_succ, List.filterMap_cons]
      by_cases h1 : (s.bufTable i).valid = true ∧ (s.bufTable i).file = some h
      · have h2 : ¬ (s.bufTable i).pinCnt > 0 := fun hp =>
          hfirst i (le_refl _) hlt ⟨h1.1, h1.2, hp⟩
        rw [if_pos h1, if_neg h2, if_neg (fun hc => hc.2 (hw _ _ _ _))]
        have hnext := flushFileNext_bufTable L s (some h) i
        have hfr := flushFileNext_frame L s (some h) i
        have hio := flushFileNext_io L s (some h) i
        have hne : ∀ m, m ≠ i → (flushFileNext L s (some h) i).bufTable m = s.bufTable m :=
          fun m hm => by rw [hnext, Function.update_noteq hm]
        have r := ih (i + 1) (flushFileNext L s (some h) i)
          (hs.flushNext L (some h) i (by omega) h1.1 h1.2 h2) (by rw [hfr.1]; omega) j hlt
          (by rw [hfr.1]; exact hj) (by rw [hne j (by omega)]; exact hvj)
          (by rw [hne j (by omega)]; exact hfj) (by rw [hne j (by omega)]; exact hpj)
          (fun m hm1 hm2 => by rw [hne m (by omega)]; exact hfirst m (by omega) hm2)
        have hcongr : (List.range' (i + 1) (j - (i + 1))).filterMap
            (flushWrite (flushFileNext L s (some h) i) (some h)) =
            (List.range' (i + 1) (j - (i + 1))).filterMap (flushWrite s (some h)) := by
          apply List.filterMap_congr
          intro m hm
          have hmi : m ≠ i := by
            have := (List.mem_range'_1.mp hm).1
            omega
          unfold flushWrite
          rw [hne m hmi, hfr.2.1]
        rw [r, hcongr]
        cases hd : (s.bufTable i).dirty with
        | true =>
          have hwr : flushWrite s (some h) i =
              some (FileCall.write (some h) (s.bufTable i).pageNo (s.bufPool i)) := by
            unfold flushWrite
            rw [if_pos ⟨h1.1, h1.2, hd⟩]
          rw [hwr, (hio.1 hd).2, h1.2]
          simp
        | false =>
          have hwr : flushWrite s (some h) i = none := by
            unfold flushWrite
            rw [if_neg (by simp [hd])]
          rw [hwr, (hio.2 hd).2]
      · have h3 : ¬ ((s.bufTable i).valid = false ∧ (s.bufTable i).file = some h) := by
          rintro ⟨hv, hf⟩
          rw [(hs.invalid_clear i hv).1] at hf
          cases hf
        rw [if_neg h1, if_neg h3]
        have hwr : flushWrite s (some h) i = none := by
          unfold flushWrite
          rw [if_neg (fun hc => h1 ⟨hc.1, hc.2.1⟩)]
        rw [hwr]
        exact ih (i + 1) s hs (by omega) j hlt hj hvj hfj hpj
          (fun m hm1 hm2 => hfirst m (by omega) hm2)

/-- The index entries of the pages of other files are not touched by the loop
of `flushFile`. -/
theorem flushFileLoop_map_other (L : FileLayer D) (file : FilePtr) (n : Nat) :
    ∀ (i : Nat) (s : BufMgr D) (k : FilePtr × Int), k.1 ≠ file →
      (flushFileLoop L file n i s).2.hashTable.map k = s.hashTable.map k := by
  induction n with
  | zero =>
    intro i s k _
    rfl
  | succ n ih =>
    intro i s k hk
    rw [flushFileLoop_succ]
    split_ifs with h1 h2 h3 h4
    · rfl
    · rfl
    · rw [ih _ _ k hk, flushFileNext_map, if_neg]
      intro hc
      exact hk (congrArg Prod.fst hc)
    · rfl
    · exact ih _ _ k hk

/-- A loop of `flushFile` that returns `OK` has written exactly the valid
dirty frames of `file` among those it scanned, in order, and has invalidated
every valid frame of `file` among them. -/
theorem flushFileLoop_ok_calls (L : FileLayer D) (file : FilePtr) (n : Nat) :
    ∀ (i : Nat) (s : BufMgr D), (flushFileLoop L file n i s).1 = Status.OK →
      (flushFileLoop L file n i s).2.calls =
        s.calls ++ (List.range' i n).filterMap (flushWrite s file) ∧
      (∀ m, i ≤ m → m < i + n → (s.bufTable m).valid = true →
        (s.bufTable m).file = file →
        ((flushFileLoop L file n i s).2.bufTable m).valid = false) := by
  induction n with
  | zero =>
    intro i s _
    exact ⟨by simp [flushFileLoop], fun m h1 h2 => by omega⟩
  | succ n ih =>
    intro i s hok
    rw [flushFileLoop_succ] at hok ⊢
    rw [List.range'_succ, List.filterMap_cons]
    by_cases h1 : (s.bufTable i).valid = true ∧ (s.bufTable i).file = file
    · rw [if_pos h1] at hok ⊢
      by_cases h2 : (s.bufTable i).pinCnt > 0
      · rw [if_pos h2] at hok
        exact Status.noConfusion hok
      · rw [if_neg h2] at hok ⊢
        by_cases h3 : (s.bufTable i).dirty = true ∧
            (L.writePage s.disk (s.bufTable i).file (s.bufTable i).pageNo (s.bufPool i)).1
              ≠ Status.OK
        · rw [if_pos h3] at hok
          exact absurd hok h3.2
        · rw [if_neg h3] at hok ⊢
          have hnext := flushFileNext_bufTable L s file i
          have hfr := flushFileNext_frame L s file i
          have hio := flushFileNext_io L s file i
          have hne : ∀ m, m ≠ i → (flushFileNext L s file i).bufTable m = s.bufTable m :=
            fun m hm => by rw [hnext, Function.update_noteq hm]
          obtain ⟨c1, c2⟩ := ih (i + 1) (flushFileNext L s file i) hok
          have hcongr : (List.range' (i + 1) n).filterMap
              (flushWrite (flushFileNext L s file i) file) =
              (List.range' (i + 1) n).filterMap (flushWrite s file) := by
            apply List.filterMap_congr
            intro m hm
            have hmi : m ≠ i := by
              have := (List.mem_range'_1.mp hm).1
              omega
            unfold flushWrite
            rw [hne m hmi, hfr.2.1]
          refine ⟨?_, fun m hm1 hm2 hv hf => ?_⟩
          · rw [c1, hcongr]
            cases hd : (s.bufTable i).dirty with
            | true =>
              have hwr : flushWrite s file i =
                  some (FileCall.write file (s.bufTable i).pageNo (s.bufPool i)) := by
                unfold flushWrite
                rw [if_pos ⟨h1.1, h1.2, hd⟩]
              rw [hwr, (hio.1 hd).2, h1.2]
              simp
            | false =>
              have hwr : flushWrite s file i = none := by
                unfold flushWrite
                rw [if_neg (by simp [hd])]
              rw [hwr, (hio.2 hd).2]
          · by_cases hmi : m = i
            · subst hmi
              rcases (flushFileLoop_effect L file n (m + 1)
                (flushFileNext L s file m)).2.2.2.1 m with e | e
              · rw [e, hnext, Function.update_same]
              · omega
            · exact c2 m (by omega) (by omega) (by rw [hne m hmi]; exact hv)
                (by rw [hne m hmi]; exact hf)
    · rw [if_neg h1] at hok ⊢
      by_cases h4 : (s.bufTable i).valid = false ∧ (s.bufTable i).file = file
      · rw [if_pos h4] at hok
        exact Status.noConfusion hok
      · rw [if_neg h4] at hok ⊢
        obtain ⟨c1, c2⟩ := ih (i + 1) s hok
        have hwr : flushWrite s file i = none := by
          unfold flushWrite
          rw [if_neg (fun hc => h1 ⟨hc.1, hc.2.1⟩)]
        refine ⟨by rw [c1, hwr], fun m hm1 hm2 hv hf => ?_⟩
        by_cases hmi : m = i
        · subst hmi
          exact absurd ⟨hv, hf⟩ h1
        · exact c2 m (by omega) (by omega) hv hf

/-- The positions a run of the scan of `allocBuf` adds to `advances`, with `n`
iterations left: `k` of them, at most `n` and `n` when the scan gives up, the
`j`-th being `(hand + j) mod N`. -/
theorem allocBufLoop_advances (L : FileLayer D) (n : Nat) :
    ∀ (s : BufMgr D) (frame : Nat), ∃ k, k ≤ n ∧ (0 < n → 1 ≤ k) ∧
      (allocBufLoop L n s frame).2.2.advances =
        s.advances ++ (List.range k).map (fun j => (s.clockHand + (j + 1)) % s.numBufs) ∧
      ((allocBufLoop L n s frame).1 = Status.BUFFEREXCEEDED → k = n) ∧
      (0 < n → (allocBufLoop L n s frame).2.2.clockHand = (s.clockHand + k) % s.numBufs) := by
  induction n with
  | zero =>
    intro s frame
    exact ⟨0, le_refl _, fun h => absurd h (lt_irrefl _), by simp [allocBufLoop],
      fun _ => rfl, fun h => absurd h (lt_irrefl _)⟩
  | succ n ih =>
    intro s frame
    have hmod : ∀ j, (s.advanceClock.clockHand + j) % s.numBufs =
        (s.clockHand + (j + 1)) % s.numBufs := by
      intro j
      show ((s.clockHand + 1) % s.numBufs + j) % s.numBufs = _
      rw [Nat.add_mod, Nat.mod_mod, ← Nat.add_mod]
      congr 1
      omega
    have hone : s.advanceClock.advances = s.advances ++ (List.range 1).map
        (fun j => (s.clockHand + (j + 1)) % s.numBufs) := rfl
    -- the two branches in which the loop goes on
    have goOn : ∀ t : BufMgr D, t.clockHand = s.advanceClock.clockHand →
        t.numBufs = s.numBufs → t.advances = s.advanceClock.advances →
        ∃ k, k ≤ n + 1 ∧ (0 < n + 1 → 1 ≤ k) ∧
          (allocBufLoop L n t frame).2.2.advances =
            s.advances ++ (List.range k).map (fun j => (s.clockHand + (j + 1)) % s.numBufs) ∧
          ((allocBufLoop L n t frame).1 = Status.BUFFEREXCEEDED → k = n + 1) ∧
          (0 < n + 1 → (allocBufLoop L n t frame).2.2.clockHand =
            (s.clockHand + k) % s.numBufs) := by
      intro t hc hN hA
      obtain ⟨k, a, b, c, d, e⟩ := ih t frame
      refine ⟨k + 1, by omega, fun _ => by omega, ?_, fun h => by rw [d h], fun _ => ?_⟩
      · rw [c, hA, List.range_succ_eq_map, List.map_cons, List.map_map]
        show s.advances ++ [s.advanceClock.clockHand] ++ _ = s.advances ++ (_ :: _)
        rw [List.append_assoc, List.singleton_append]
        refine congrArg (fun l => s.advances ++ l) ?_
        refine congrArg₂ List.cons rfl ?_
        apply List.map_congr_left
        intro j _
        show (t.clockHand + (j + 1)) % t.numBufs = (s.clockHand + (j + 1 + 1)) % s.numBufs
        rw [hc, hN, hmod]
      · rcases Nat.eq_zero_or_pos n with h0 | hpos
        · subst h0
          have hk : k = 0 := by omega
          subst hk
          show t.clockHand = _
          rw [hc]
          rfl
        · rw [e hpos, hc, hN, hmod]
    unfold allocBufLoop
    simp only []
    split_ifs with hv hr hp hd hw
    · exact ⟨1, by omega, fun _ => le_refl _, hone, fun h => h.elim, fun _ => rfl⟩
    · exact goOn _ rfl rfl rfl
    · exact goOn _ rfl rfl rfl
    · exact ⟨1, by omega, fun _ => le_refl _, hone, fun h => h.elim, fun _ => rfl⟩
    · exact ⟨1, by omega, fun _ => le_refl _, hone, fun h => Status.noConfusion h, fun _ => rfl⟩
    · exact ⟨1, by omega, fun _ => le_refl _, hone, fun h => Status.noConfusion h, fun _ => rfl⟩

/-- When every frame of the pool is valid and pinned, the scan gives up. -/
theorem allocBufLoop_all_pinned (L : FileLayer D) (n : Nat) :
    ∀ (s : BufMgr D) (frame : Nat), 0 < s.numBufs →
      (∀ i, i < s.numBufs → (s.bufTable i).valid = true ∧ 0 < (s.bufTable i).pinCnt) →
      (allocBufLoop L n s frame).1 = Status.BUFFEREXCEEDED := by
  induction n with
  | zero =>
    intro s frame _ _
    rfl
  | succ n ih =>
    intro s frame hN hall
    have hx : s.advanceClock.clockHand < s.numBufs := Nat.mod_lt _ hN
    have hcur := hall _ hx
    unfold allocBufLoop
    simp only []
    rw [if_neg (by
      show ¬ (s.bufTable s.advanceClock.clockHand).valid = false
      simp [hcur.1])]
    by_cases hr : (s.advanceClock.bufTable s.advanceClock.clockHand).refbit = true
    · rw [if_pos hr]
      refine ih _ frame (show 0 < s.numBufs from hN) ?_
      intro i hi
      show (Function.update s.bufTable s.advanceClock.clockHand _ i).valid = true ∧
        0 < (Function.update s.bufTable s.advanceClock.clockHand _ i).pinCnt
      by_cases hie : i = s.advanceClock.clockHand
      · subst hie
        rw [Function.update_same]
        exact hcur
      · rw [Function.update_noteq hie]
        exact hall i hi
    · rw [if_neg hr, if_pos (show (s.advanceClock.bufTable s.advanceClock.clockHand).pinCnt > 0
        from hcur.2)]
      exact ih _ frame (show 0 < s.numBufs from hN) hall

/-- When the scan gives up after `n` iterations, each of the `n` frames that
follow the hand is valid, and it is pinned if its reference bit was clear or
if the scan had passed it before. -/
theorem allocBufLoop_exhausted_pinned (L : FileLayer D) (n : Nat) :
    ∀ (s : BufMgr D) (frame : Nat), (allocBufLoop L n s frame).1 = Status.BUFFEREXCEEDED →
      ∀ j, 1 ≤ j → j ≤ n →
        ((s.bufTable ((s.clockHand + j) % s.numBufs)).refbit = false ∨
          (∃ j1, 1 ≤ j1 ∧ j1 < j ∧
            (s.clockHand + j1) % s.numBufs = (s.clockHand + j) % s.numBufs)) →
        0 < (s.bufTable ((s.clockHand + j) % s.numBufs)).pinCnt := by
  induction n with
  | zero =>
    intro s frame _ j h1 h2
    omega
  | succ n ih =>
    intro s frame hst j h1 h2 hprem
    have hmod : ∀ j, (s.advanceClock.clockHand + j) % s.numBufs =
        (s.clockHand + (j + 1)) % s.numBufs := by
      intro j
      show ((s.clockHand + 1) % s.numBufs + j) % s.numBufs = _
      rw [Nat.add_mod, Nat.mod_mod, ← Nat.add_mod]
      congr 1
      omega
    have hjg : ∀ x, 1 ≤ x → (s.advanceClock.clockHand + (x - 1)) % s.numBufs =
        (s.clockHand + x) % s.numBufs := by
      intro x h
      rw [hmod]
      congr 2
      omega
    have hj : 1 < j → (s.advanceClock.clockHand + (j - 1)) % s.numBufs =
        (s.clockHand + j) % s.numBufs := fun h => hjg j (by omega)
    have h1eq : (s.clockHand + 1) % s.numBufs = s.advanceClock.clockHand := rfl
    unfold allocBufLoop at hst
    simp only [] at hst
    split_ifs at hst with hv hr hp hd hw
    · -- the frame under the hand had its reference bit set
      rcases Nat.eq_or_lt_of_le h1 with h | h
      · subst h
        exfalso
        rcases hprem with hf | ⟨j1, a, b, -⟩
        · rw [h1eq] at hf
          have hr2 : (s.bufTable s.advanceClock.clockHand).refbit = true := hr
          rw [hr2] at hf
          cases hf
        · omega
      · have key := ih _ frame hst (j - 1) (by omega) (by omega)
        have key2 : ((Function.update s.bufTable s.advanceClock.clockHand
              { s.bufTable s.advanceClock.clockHand with refbit := false })
              ((s.advanceClock.clockHand + (j - 1)) % s.numBufs)).refbit = false ∨
            (∃ j1, 1 ≤ j1 ∧ j1 < j - 1 ∧
              (s.advanceClock.clockHand + j1) % s.numBufs =
                (s.advanceClock.clockHand + (j - 1)) % s.numBufs) →
            0 < ((Function.update s.bufTable s.advanceClock.clockHand
              { s.bufTable s.advanceClock.clockHand with refbit := false })
              ((s.advanceClock.clockHand + (j - 1)) % s.numBufs)).pinCnt := key
        rw [hj h] at key2
        by_cases hx : (s.clockHand + j) % s.numBufs = s.advanceClock.clockHand
        · rw [hx, Function.update_same] at key2
          rw [hx]
          exact key2 (Or.inl rfl)
        · rw [Function.update_noteq hx] at key2
          apply key2
          rcases hprem with hf | ⟨j1, a, b, c⟩
          · exact Or.inl hf
          · right
            rcases Nat.eq_or_lt_of_le a with e | e
            · subst e
              exact absurd c.symm hx
            · exact ⟨j1 - 1, by omega, by omega, by rw [hjg j1 a, c]⟩
    · -- the frame under the hand is pinned
      rcases Nat.eq_or_lt_of_le h1 with h | h
      · subst h
        rw [h1eq]
        exact hp
      · have key := ih _ frame hst (j - 1) (by omega) (by omega)
        have key2 : (s.bufTable ((s.advanceClock.clockHand + (j - 1)) % s.numBufs)).refbit
              = false ∨
            (∃ j1, 1 ≤ j1 ∧ j1 < j - 1 ∧
              (s.advanceClock.clockHand + j1) % s.numBufs =
                (s.advanceClock.clockHand + (j - 1)) % s.numBufs) →
            0 < (s.bufTable ((s.advanceClock.clockHand + (j - 1)) % s.numBufs)).pinCnt := key
        rw [hj h] at key2
        apply key2
        rcases hprem with hf | ⟨j1, a, b, c⟩
        · exact Or.inl hf
        · rcases Nat.eq_or_lt_of_le a with e | e
          · subst e
            left
            rw [← c, h1eq]
            simpa using hr
          · exact Or.inr ⟨j1 - 1, by omega, by omega, by rw [hjg j1 a, c]⟩
    · exact Status.noConfusion hst
    · exact Status.noConfusion hst

/-- When `allocBuf` gives up, every frame of the pool is valid and pinned. -/
theorem allocBuf_exhausted_all_pinned (L : FileLayer D) (s : BufMgr D) (frame : Nat)
    (hh : s.clockHand < s.numBufs)
    (hst : (s.allocBuf L frame).1 = Status.BUFFEREXCEEDED) :
    ∀ i, i < s.numBufs → (s.bufTable i).valid = true ∧ 0 < (s.bufTable i).pinCnt := by
  intro i hi
  -- the first visit of frame `i`
  have hj1 : ∃ j1, 1 ≤ j1 ∧ j1 ≤ s.numBufs ∧ (s.clockHand + j1) % s.numBufs = i := by
    by_cases hc : s.clockHand < i
    · refine ⟨i - s.clockHand, by omega, by omega, ?_⟩
      rw [show s.clockHand + (i - s.clockHand) = i by omega, Nat.mod_eq_of_lt hi]
    · refine ⟨i + s.numBufs - s.clockHand, by omega, by omega, ?_⟩
      rw [show s.clockHand + (i + s.numBufs - s.clockHand) = i + s.numBufs by omega,
        Nat.add_mod_right, Nat.mod_eq_of_lt hi]
  obtain ⟨j1, a, b, c⟩ := hj1
  have c2 : (s.clockHand + (j1 + s.numBufs)) % s.numBufs = i := by
    rw [← Nat.add_assoc, Nat.add_mod_right, c]
  constructor
  · have := allocBufLoop_exhausted L (s.numBufs * 2) s frame hst j1 a (by omega)
    rw [c] at this
    exact this
  · have := allocBufLoop_exhausted_pinned L (s.numBufs * 2) s frame hst (j1 + s.numBufs)
      (by omega) (by omega) (Or.inr ⟨j1, a, by omega, by rw [c, c2]⟩)
    rw [c2] at this
    exact this

/-- How a call of `allocBuf` that returns `OK` obtained its frame: the frame
was invalid; or it was valid, unpinned and clean and no file call was made; or
it was valid, unpinned and dirty and exactly its page was written. -/
theorem allocBufLoop_ok_frame (L : FileLayer D) (n : Nat) (s : BufMgr D) (frame : Nat)
    (hok : (allocBufLoop L n s frame).1 = Status.OK) :
    ((s.bufTable (allocBufLoop L n s frame).2.1).valid = false ∧
      (allocBufLoop L n s frame).2.2.calls = s.calls ∧
      (allocBufLoop L n s frame).2.2.disk = s.disk) ∨
    ((s.bufTable (allocBufLoop L n s frame).2.1).valid = true ∧
      (s.bufTable (allocBufLoop L n s frame).2.1).pinCnt ≤ 0 ∧
      (s.bufTable (allocBufLoop L n s frame).2.1).dirty = false ∧
      (allocBufLoop L n s frame).2.2.calls = s.calls ∧
      (allocBufLoop L n s frame).2.2.disk = s.disk) ∨
    ((s.bufTable (allocBufLoop L n s frame).2.1).valid = true ∧
      (s.bufTable (allocBufLoop L n s frame).2.1).pinCnt ≤ 0 ∧
      (s.bufTable (allocBufLoop L n s frame).2.1).dirty = true ∧
      (allocBufLoop L n s frame).2.2.calls = s.calls ++
        [FileCall.write (s.bufTable (allocBufLoop L n s frame).2.1).file
          (s.bufTable (allocBufLoop L n s frame).2.1).pageNo
          (s.bufPool (allocBufLoop L n s frame).2.1)] ∧
      (allocBufLoop L n s frame).2.2.disk =
        (L.writePage s.disk (s.bufTable (allocBufLoop L n s frame).2.1).file
          (s.bufTable (allocBufLoop L n s frame).2.1).pageNo
          (s.bufPool (allocBufLoop L n s frame).2.1)).2) := by
  obtain ⟨s1, hs1, hc, ho⟩ := allocBufLoop_outcome L n s frame
  have hd := hs1.desc
  have hfile : ∀ i, (s1.bufTable i).file = (s.bufTable i).file := fun i => by rw [hd i]
  have hpage : ∀ i, (s1.bufTable i).pageNo = (s.bufTable i).pageNo := fun i => by rw [hd i]
  have hval : ∀ i, (s1.bufTable i).valid = (s.bufTable i).valid := fun i => by rw [hd i]
  have hpin : ∀ i, (s1.bufTable i).pinCnt = (s.bufTable i).pinCnt := fun i => by rw [hd i]
  have hdirty : ∀ i, (s1.bufTable i).dirty = (s.bufTable i).dirty := fun i => by rw [hd i]
  generalize allocBufLoop L n s frame = r at ho hok ⊢
  cases ho with
  | exhausted => exact Status.noConfusion hok
  | writeFailed hv hr hp hd2 hw => exact Status.noConfusion hok
  | free hv =>
    exact Or.inl ⟨by rw [← hval]; exact hv, hs1.calls, hs1.disk⟩
  | evictClean hv hr hp hd2 =>
    exact Or.inr (Or.inl ⟨by rw [← hval]; exact hv, by rw [← hpin]; exact hp,
      by rw [← hdirty]; exact hd2, hs1.calls, hs1.disk⟩)
  | evictDirty hv hr hp hd2 hw =>
    refine Or.inr (Or.inr ⟨by rw [← hval]; exact hv, by rw [← hpin]; exact hp,
      by rw [← hdirty]; exact hd2, ?_, ?_⟩)
    · show s1.calls ++ _ = _
      rw [hs1.calls, hfile, hpage, hs1.bufPool]
      rfl
    · show (L.writePage s1.disk _ _ _).2 = _
      rw [hs1.disk, hfile, hpage, hs1.bufPool]
      rfl

/-- When the frame after the hand is invalid, `allocBuf` returns it at once. -/
theorem allocBuf_next_invalid (L : FileLayer D) (s : BufMgr D) (frame : Nat)
    (hN : 0 < s.numBufs)
    (hv : (s.bufTable ((s.clockHand + 1) % s.numBufs)).valid = false) :
    s.allocBuf L frame = (Status.OK, (s.clockHand + 1) % s.numBufs, s.advanceClock) := by
  unfold allocBuf
  obtain ⟨m, hm⟩ : ∃ m, s.numBufs * 2 = m + 1 := ⟨s.numBufs * 2 - 1, by omega⟩
  rw [hm]
  unfold allocBufLoop
  simp only []
  rw [if_pos (show (s.advanceClock.bufTable s.advanceClock.clockHand).valid = false from hv)]
  rfl

/-- A fetch of a page that is not resident, when the frame after the hand is
invalid: the page goes into that frame if the file's read succeeds, and the
call returns `UNIXERR` otherwise. -/
theorem readPage_next_invalid (L : FileLayer D) (s : BufMgr D) (file : FilePtr) (PageNo : Int)
    (hN : 0 < s.numBufs) (hm : s.hashTable.map (file, PageNo) = none)
    (hrf : s.hashTable.refuses (file, PageNo) = false)
    (hv : (s.bufTable ((s.clockHand + 1) % s.numBufs)).valid = false) :
    s.readPage L file PageNo =
      if (L.readPage s.disk file PageNo (s.bufPool ((s.clockHand + 1) % s.numBufs))).1
          ≠ Status.OK then
        (Status.UNIXERR, none,
          readPageFill L s.advanceClock file PageNo ((s.clockHand + 1) % s.numBufs))
      else
        (Status.OK, some ((s.clockHand + 1) % s.numBufs),
          { readPageFill L s.advanceClock file PageNo ((s.clockHand + 1) % s.numBufs) with
            hashTable :=
              { s.hashTable with
                map := Function.update s.hashTable.map (file, PageNo)
                  (some ((s.clockHand + 1) % s.numBufs)) }
            bufTable := Function.update s.bufTable ((s.clockHand + 1) % s.numBufs)
              ((s.bufTable ((s.clockHand + 1) % s.numBufs)).Set file PageNo) }) := by
  have hm2 : s.advanceClock.hashTable.map (file, PageNo) = none := hm
  have hrf2 : s.advanceClock.hashTable.refuses (file, PageNo) = false := hrf
  rw [readPage_miss L s file PageNo hm, allocBuf_next_invalid L s 0 hN hv]
  simp only [ne_eq, not_true_eq_false, if_false]
  rw [BufHashTbl.insert_absent _ _ _ _ hm2 hrf2]
  simp only [not_true_eq_false, if_false]
  rfl

/-- One more page fetched into a pool filled up to frame `k`. -/
theorem Filled.fetch (L : FileLayer D) {s : BufMgr D} {j0 k : Nat}
    {done : List (FilePtr × Int)} (hF : Filled s j0 k done) (hk : k < s.numBufs)
    (p : FilePtr × Int) (hp : p ∉ done)
    (hok : (s.readPage L p.1 p.2).1 = Status.OK) :
    Filled (s.readPage L p.1 p.2).2.2 j0 (k + 1) (done ++ [p]) ∧
    (s.readPage L p.1 p.2).2.2.numBufs = s.numBufs ∧
    (∀ i, i ≠ k → (s.readPage L p.1 p.2).2.2.bufTable i = s.bufTable i) := by
  have hN : 0 < s.numBufs := by omega
  have hx : (s.clockHand + 1) % s.numBufs = k := by
    rw [hF.next, Nat.mod_eq_of_lt hk]
  have hm : s.hashTable.map (p.1, p.2) = none := by
    cases hq : s.hashTable.map (p.1, p.2) with
    | none => rfl
    | some g => exact absurd (hF.resident _ g hq) hp
  have hv : (s.bufTable ((s.clockHand + 1) % s.numBufs)).valid = false := by
    rw [hx]
    exact hF.invalid_ge k (le_refl _)
  have heq := readPage_next_invalid L s p.1 p.2 hN hm (hF.roomy _) hv
  rw [hx] at heq
  by_cases hr : (L.readPage s.disk p.1 p.2 (s.bufPool k)).1 ≠ Status.OK
  · rw [if_pos hr] at heq
    rw [heq] at hok
    exact Status.noConfusion hok
  · rw [if_neg hr] at heq
    rw [heq]
    refine ⟨⟨?_, ?_, ?_, ?_, ?_, fun key => hF.roomy key⟩, rfl, fun i hi => ?_⟩
    · show ((s.clockHand + 1) % s.numBufs + 1) % s.numBufs = (k + 1) % s.numBufs
      rw [hx]
    · intro i hi
      show (Function.update s.bufTable k _ i).valid = true
      by_cases hik : i = k
      · subst hik
        rw [Function.update_same]
        rfl
      · rw [Function.update_noteq hik]
        exact hF.valid_lt i (by omega)
    · intro i h1 h2
      show 0 < (Function.update s.bufTable k _ i).pinCnt
      by_cases hik : i = k
      · subst hik
        rw [Function.update_same]
        show (0 : Int) < 1
        decide
      · rw [Function.update_noteq hik]
        exact hF.pinned i h1 (by omega)
    · intro i hi
      show (Function.update s.bufTable k _ i).valid = false
      rw [Function.update_noteq (by omega)]
      exact hF.invalid_ge i (by omega)
    · intro key i hki
      have hki2 : Function.update s.hashTable.map (p.1, p.2) (some k) key = some i := hki
      by_cases hkp : key = (p.1, p.2)
      · rw [hkp]
        simp
      · rw [Function.update_noteq hkp] at hki2
        exact List.mem_append_left _ (hF.resident key i hki2)
    · show Function.update s.bufTable k _ i = _
      rw [Function.update_noteq hi]

/-- The pages of a list fetched one after the other into a pool filled up to
frame `k`, as long as there is room. -/
theorem Filled.fetchAll (L : FileLayer D) {j0 : Nat} (ps : List (FilePtr × Int)) :
    ∀ (s t : BufMgr D) (k : Nat) (done : List (FilePtr × Int)), Filled s j0 k done →
      k + ps.length ≤ s.numBufs → ps.Nodup → (∀ p ∈ ps, p ∉ done) →
      BufMgr.fetchAll L s ps = some t →
      Filled t j0 (k + ps.length) (done ++ ps) ∧ t.numBufs = s.numBufs ∧
      (∀ i, i < k → t.bufTable i = s.bufTable i) ∧ (Reachable L s → Reachable L t) := by
  induction ps with
  | nil =>
    intro s t k done hF _ _ _ hfa
    have : s = t := Option.some.inj hfa
    subst this
    exact ⟨by simpa using hF, rfl, fun _ _ => rfl, fun h => h⟩
  | cons p ps ih =>
    intro s t k done hF hlen hnd hnot hfa
    unfold BufMgr.fetchAll at hfa
    by_cases hok : (s.readPage L p.1 p.2).1 = Status.OK
    · rw [if_pos hok] at hfa
      rw [List.length_cons] at hlen
      obtain ⟨f1, f2, f3⟩ := hF.fetch L (by omega) p (hnot p (List.mem_cons_self _ _)) hok
      have hnd2 := List.nodup_cons.mp hnd
      obtain ⟨g1, g2, g3, g4⟩ := ih (s.readPage L p.1 p.2).2.2 t (k + 1) (done ++ [p]) f1
        (by rw [f2]; omega) hnd2.2
        (fun q hq hc => by
          rcases List.mem_append.mp hc with h | h
          · exact hnot q (List.mem_cons_of_mem _ hq) h
          · rw [List.mem_singleton] at h
            subst h
            exact hnd2.1 hq)
        hfa
      refine ⟨?_, g2.trans f2, fun i hi => ?_, fun hr => g4 (Reachable.readPage s p.1 p.2 hr)⟩
      · rw [List.length_cons, show k + (ps.length + 1) = k + 1 + ps.length by omega,
          show done ++ p :: ps = done ++ [p] ++ ps by simp]
        exact g1
      · rw [g3 i (by omega), f3 i (by omega)]
    · rw [if_neg hok] at hfa
      cases hfa

/-- When the reads of the file succeed, the fetches of `fetchAll` into a pool
with room all succeed. -/
theorem Filled.fetchAll_some (L : FileLayer D) {j0 : Nat}
    (hr : ∀ d file pageNo old, (L.readPage d file pageNo old).1 = Status.OK)
    (ps : List (FilePtr × Int)) :
    ∀ (s : BufMgr D) (k : Nat) (done : List (FilePtr × Int)), Filled s j0 k done →
      k + ps.length ≤ s.numBufs → ps.Nodup → (∀ p ∈ ps, p ∉ done) →
      ∃ t, BufMgr.fetchAll L s ps = some t := by
  induction ps with
  | nil =>
    intro s k done _ _ _ _
    exact ⟨s, rfl⟩
  | cons p ps ih =>
    intro s k done hF hlen hnd hnot
    rw [List.length_cons] at hlen
    have hk : k < s.numBufs := by omega
    have hN : 0 < s.numBufs := by omega
    have hx : (s.clockHand + 1) % s.numBufs = k := by
      rw [hF.next, Nat.mod_eq_of_lt hk]
    have hm : s.hashTable.map (p.1, p.2) = none := by
      cases hq : s.hashTable.map (p.1, p.2) with
      | none => rfl
      | some g => exact absurd (hF.resident _ g hq) (hnot p (List.mem_cons_self _ _))
    have hv : (s.bufTable ((s.clockHand + 1) % s.numBufs)).valid = false := by
      rw [hx]
      exact hF.invalid_ge k (le_refl _)
    have hok : (s.readPage L p.1 p.2).1 = Status.OK := by
      rw [readPage_next_invalid L s p.1 p.2 hN hm (hF.roomy _) hv,
        if_neg (fun h => h (hr _ _ _ _))]
    obtain ⟨f1, f2, -⟩ := hF.fetch L hk p (hnot p (List.mem_cons_self _ _)) hok
    have hnd2 := List.nodup_cons.mp hnd
    obtain ⟨t, ht⟩ := ih (s.readPage L p.1 p.2).2.2 (k + 1) (done ++ [p]) f1
      (by rw [f2]; omega) hnd2.2
      (fun q hq hc => by
        rcases List.mem_append.mp hc with h | h
        · exact hnot q (List.mem_cons_of_mem _ hq) h
        · rw [List.mem_singleton] at h
          subst h
          exact hnd2.1 hq)
    refine ⟨t, ?_⟩
    unfold BufMgr.fetchAll
    rw [if_pos hok]
    exact ht

/-- A fresh manager is filled up to frame 0. -/
theorem Filled.fresh (bufs : Nat) (d : D) (h : 1 ≤ bufs) (j0 : Nat) :
    Filled (BufMgr.new bufs d) j0 0 [] where
  next := by
    show (bufs - 1 + 1) % bufs = 0 % bufs
    rw [show bufs - 1 + 1 = bufs by omega, Nat.mod_self, Nat.zero_mod]
  valid_lt := fun i hi => by omega
  pinned := fun i _ hi => by omega
  invalid_ge := fun i _ => rfl
  resident := fun key i hki => by
    have : (none : Option Nat) = some i := hki
    cases this
  roomy := fun _ => rfl

/-- When the writes of the file succeed, `allocBuf` does not return `UNIXERR`. -/
theorem allocBuf_not_unixerr (L : FileLayer D) (s : BufMgr D) (frame : Nat)
    (hw : ∀ d file pageNo bytes, (L.writePage d file pageNo bytes).1 = Status.OK) :
    (s.allocBuf L frame).1 ≠ Status.UNIXERR := by
  intro h
  rcases allocBufLoop_io L (s.numBufs * 2) s frame with hio | ⟨i, hio⟩
  · exact hio.2.2 h
  · rcases hio.2.2.2.2.2.2 with h2 | h2
    · have h3 : (s.allocBuf L frame).1 = Status.OK := h2.2.1
      rw [h3] at h
      cases h
    · exact h2.1 (hw _ _ _ _)

/-- After an index miss, `readPage` returns `BUFFEREXCEEDED` exactly when
`allocBuf` did not return `OK`. -/
theorem readPage_miss_exceeded (L : FileLayer D) (s : BufMgr D) (file : FilePtr) (PageNo : Int)
    (hm : s.hashTable.map (file, PageNo) = none) :
    (s.readPage L file PageNo).1 = Status.BUFFEREXCEEDED ↔ (s.allocBuf L 0).1 ≠ Status.OK := by
  rw [readPage_miss L s file PageNo hm]
  constructor
  · intro h hok
    rw [if_neg (fun hc => hc hok)] at h
    split_ifs at h
  · intro h
    rw [if_pos h]

end BufMgr

/-! ## The claims -/

/-- C1: in a state reachable by the public methods (`allocBuf` is called by
`readPage` on such a state and by `allocPage` after the file allocated a page,
hence the arbitrary storage state and call list), whenever `allocBuf` returns
`OK` with frame `f`, `f` is a frame of the pool, and after the call descriptor
`f` is invalid, has `pinCnt = 0`, and no index entry maps to `f`. -/
theorem C1_allocBuf_frame_free {D : Type} (L : FileLayer D) (s : BufMgr D)
    (hs : Reachable L s) (d : D) (tr : List FileCall) (frame f : Nat) (t : BufMgr D)
    (h : ({ s with disk := d, calls := tr } : BufMgr D).allocBuf L frame = (Status.OK, f, t)) :
    f < s.numBufs ∧ (t.bufTable f).valid = false ∧ (t.bufTable f).pinCnt = 0 ∧
      ∀ k, t.hashTable.map k ≠ some f := by
  have h0 : Inv ({ s with disk := d, calls := tr } : BufMgr D) := hs.invariant.congr rfl rfl rfl rfl
  have ht : Inv t := by
    have := allocBufLoop_inv L (s.numBufs * 2) h0 frame
    rw [show allocBufLoop L (s.numBufs * 2) _ frame = (Status.OK, f, t) from h] at this
    exact this
  have hok := allocBufLoop_ok L (s.numBufs * 2) _ frame h0.hand
    (by rw [show allocBufLoop L (s.numBufs * 2) _ frame = (Status.OK, f, t) from h])
  rw [show allocBufLoop L (s.numBufs * 2) _ frame = (Status.OK, f, t) from h] at hok
  refine ⟨hok.1, hok.2, (ht.invalid_clear f hok.2).2, ?_⟩
  intro k hk
  have := ((ht.index k f).1 hk).2.1
  rw [hok.2] at this
  cases this

/-- C1 at a pool of one frame whose only page is resident, unpinned and dirty:
`allocBuf` evicts it and returns frame 0, invalid, unpinned and unindexed. -/
theorem C1_allocBuf_frame_free_witness :
    (0 : Nat) < (oneDirtyFrame Status.OK).numBufs ∧
    (((oneDirtyFrame Status.OK).allocBuf (memFile Status.OK) 0).2.2.bufTable 0).valid = false ∧
    (((oneDirtyFrame Status.OK).allocBuf (memFile Status.OK) 0).2.2.bufTable 0).pinCnt = 0 ∧
    ∀ k, ((oneDirtyFrame Status.OK).allocBuf (memFile Status.OK) 0).2.2.hashTable.map k
      ≠ some 0 :=
  C1_allocBuf_frame_free (memFile Status.OK) (oneDirtyFrame Status.OK)
    (Reachable.unPinPage _ _ _ _ (Reachable.readPage _ _ _ (Reachable.new 1 emptyDisk
      (Nat.le_refl 1))))
    (oneDirtyFrame Status.OK).disk (oneDirtyFrame Status.OK).calls 0 0 _ rfl

/-- C2: in every state reached from a fresh manager by calls of the public
methods, whatever their status, frame `i` of the pool is valid with owner
`(file, pageNo)` exactly when the index maps `(file, pageNo)` to `i`; so no two
valid frames of the pool hold the same page identity. -/
theorem C2_index_descriptor_consistency {D : Type} (L : FileLayer D) (s : BufMgr D)
    (hs : Reachable L s) :
    (∀ (file : FilePtr) (pageNo : Int) (i : Nat),
      (i < s.numBufs ∧ (s.bufTable i).valid = true ∧ (s.bufTable i).file = file ∧
        (s.bufTable i).pageNo = pageNo) ↔ s.hashTable.map (file, pageNo) = some i) ∧
    (∀ i j : Nat, i < s.numBufs → j < s.numBufs → (s.bufTable i).valid = true →
      (s.bufTable j).valid = true → (s.bufTable i).file = (s.bufTable j).file →
      (s.bufTable i).pageNo = (s.bufTable j).pageNo → i = j) :=
  ⟨fun file pageNo i => (hs.invariant.index (file, pageNo) i).symm,
    fun _ _ hi hj hvi hvj hf hp => hs.invariant.unique hi hj hvi hvj hf hp⟩

/-- C2 after two fetches into a pool of two frames: page 2 of file 1 sits in
frame 1 and the index says so. -/
theorem C2_index_descriptor_consistency_witness :
    twoPinnedFrames.hashTable.map (some 1, 2) = some 1 :=
  ((C2_index_descriptor_consistency (memFile Status.OK) twoPinnedFrames
    (Reachable.readPage _ (some 1) 2 (Reachable.readPage _ (some 1) 1
      (Reachable.new 2 emptyDisk (by decide))))).1 (some 1) 2 1).1
    ⟨by decide, rfl, rfl, rfl⟩

/-- C3: no call of `readPage` or `allocPage`, whatever its outcome, evicts or
overwrites a pinned frame: every frame of the pool that is valid with
`pinCnt > 0` before the call is afterwards still valid with the same owner,
dirty flag, bytes and index entry, and a pin count that is not smaller. -/
theorem C3_pinned_frame_kept {D : Type} (L : FileLayer D) (s : BufMgr D) (hs : Reachable L s)
    (file : FilePtr) (PageNo : Int) (i : Nat) (hi : i < s.numBufs)
    (hv : (s.bufTable i).valid = true) (hp : 0 < (s.bufTable i).pinCnt) :
    FrameKept s (s.readPage L file PageNo).2.2 i ∧ FrameKept s (s.allocPage L file).2.2.2 i := by
  have hI := hs.invariant
  have hidx := (hI.index ((s.bufTable i).file, (s.bufTable i).pageNo) i).2 ⟨hi, hv, rfl, rfl⟩
  -- a frame kept by `allocBuf` is kept when the frame returned receives a page
  have fill : ∀ (s0 t : BufMgr D) (a : Status × Nat × BufMgr D) (fl : FilePtr) (pg : Int),
      s0.bufTable = s.bufTable → s0.bufPool = s.bufPool →
      a.2.2.bufTable i = { s0.bufTable i with refbit := (a.2.2.bufTable i).refbit } →
      a.2.2.bufPool = s0.bufPool →
      a.2.2.hashTable.map ((s0.bufTable i).file, (s0.bufTable i).pageNo) = some i →
      i ≠ a.2.1 →
      (t.bufTable = a.2.2.bufTable ∨
        t.bufTable = Function.update a.2.2.bufTable a.2.1 ((a.2.2.bufTable a.2.1).Set fl pg)) →
      (∃ b, t.bufPool = Function.update a.2.2.bufPool a.2.1 b) →
      (t.hashTable = a.2.2.hashTable ∨ (a.2.2.hashTable.map (fl, pg) = none ∧
        t.hashTable.map = Function.update a.2.2.hashTable.map (fl, pg) (some a.2.1))) →
      FrameKept s t i := by
    intro s0 t a fl pg hT0 hP0 h1 h2 h3 h4 hT hP hH
    rw [hT0] at h1 h3
    rw [hP0] at h2
    obtain ⟨b, hP⟩ := hP
    have hti : t.bufTable i = a.2.2.bufTable i := by
      rcases hT with h | h
      · rw [h]
      · rw [h, Function.update_noteq h4]
    have hmap : t.hashTable.map ((s.bufTable i).file, (s.bufTable i).pageNo) = some i := by
      rcases hH with h | h
      · rw [h]
        exact h3
      · rw [h.2, Function.update_noteq]
        · exact h3
        · intro hk
          rw [hk, h.1] at h3
          cases h3
    unfold FrameKept
    rw [hti, h1, hP, Function.update_noteq h4, h2]
    exact ⟨hv, rfl, rfl, rfl, rfl, hmap, le_refl _⟩
  constructor
  · cases hm : s.hashTable.map (file, PageNo) with
    | some g =>
      rw [readPage_hit L s file PageNo g hm]
      unfold FrameKept
      by_cases hig : i = g
      · subst hig
        exact ⟨by simpa using hv, by simp, by simp, by simp, rfl, hidx, by simp⟩
      · exact ⟨by simpa [Function.update_noteq hig] using hv,
          by simp [Function.update_noteq hig], by simp [Function.update_noteq hig],
          by simp [Function.update_noteq hig], rfl, hidx, by simp [Function.update_noteq hig]⟩
    | none =>
      rw [readPage_miss L s file PageNo hm]
      obtain ⟨h1, h2, h3, h4⟩ := allocBuf_pinned L hI 0 i hi hv hp
      split_ifs with c1 c2 c3
      · unfold FrameKept
        rw [h1, h2]
        exact ⟨hv, rfl, rfl, rfl, rfl, h3, le_refl _⟩
      · exact fill s _ (s.allocBuf L 0) file PageNo rfl rfl h1 h2 h3 (h4 (not_not.mp c1))
          (Or.inl rfl) ⟨_, rfl⟩ (Or.inl rfl)
      · refine fill s _ (s.allocBuf L 0) file PageNo rfl rfl h1 h2 h3 (h4 (not_not.mp c1))
          (Or.inl rfl) ⟨_, rfl⟩ (Or.inl ?_)
        show ((s.allocBuf L 0).2.2.hashTable.insert file PageNo (s.allocBuf L 0).2.1).2 = _
        rw [BufHashTbl.insert_failed _ _ _ _ c3]
      · refine fill s _ (s.allocBuf L 0) file PageNo rfl rfl h1 h2 h3 (h4 (not_not.mp c1))
          (Or.inr rfl) ⟨_, rfl⟩ (Or.inr ?_)
        exact BufHashTbl.insert_ok _ _ _ _ (not_not.mp c3)
  · unfold allocPage
    simp only []
    by_cases c0 : (L.allocatePage s.disk file).1 ≠ Status.OK
    · rw [if_pos c0]
      exact ⟨hv, rfl, rfl, rfl, rfl, hidx, le_refl _⟩
    · rw [if_neg c0]
      have hI0 : Inv ({ s with
          disk := (L.allocatePage s.disk file).2.2
          calls := s.calls ++ [FileCall.allocate file] } : BufMgr D) :=
        hI.congr rfl rfl rfl rfl
      obtain ⟨h1, h2, h3, h4⟩ := allocBuf_pinned L hI0 0 i hi hv hp
      split_ifs with c1 c3
      · unfold FrameKept
        rw [h1, h2]
        exact ⟨hv, rfl, rfl, rfl, rfl, h3, le_refl _⟩
      · refine fill _ _ _ file (L.allocatePage s.disk file).2.1 rfl rfl h1 h2 h3
          (h4 (not_not.mp c1)) (Or.inl rfl) ⟨_, (Function.update_eq_self _ _).symm⟩ (Or.inl ?_)
        show (BufHashTbl.insert _ file _ _).2 = _
        rw [BufHashTbl.insert_failed _ _ _ _ c3]
      · refine fill _ _ _ file (L.allocatePage s.disk file).2.1 rfl rfl h1 h2 h3
          (h4 (not_not.mp c1)) (Or.inr rfl) ⟨_, (Function.update_eq_self _ _).symm⟩ (Or.inr ?_)
        exact BufHashTbl.insert_ok _ _ _ _ (not_not.mp c3)

/-- C3 where a fetch evicts: page 1 is pinned in frame 0, page 2 unpinned in
frame 1; fetching page 3 and allocating a page both leave frame 0 as it is. -/
theorem C3_pinned_frame_kept_witness :
    FrameKept pinnedThenDirty (pinnedThenDirty.readPage okFile (some 1) 3).2.2 0 ∧
    FrameKept pinnedThenDirty (pinnedThenDirty.allocPage okFile (some 1)).2.2.2 0 :=
  C3_pinned_frame_kept okFile pinnedThenDirty
    (Reachable.unPinPage _ (some 1) 2 true (Reachable.readPage _ (some 1) 2
      (Reachable.readPage _ (some 1) 1 (Reachable.new 2 emptyDisk (by decide)))))
    (some 1) 3 0 (by decide) rfl (by decide)

/-- C4, the code at the failing input: in the reachable state of a pool of one
frame whose page is unpinned and dirty, over a file whose writes fail,
`allocBuf` returns `UNIXERR`, no frame is pinned, and yet `readPage` of
another page and `allocPage` both return `BUFFEREXCEEDED`. -/
theorem C4_alloc_error_not_propagated :
    Reachable brokenFile (oneDirtyFrame Status.UNIXERR) ∧
    ((oneDirtyFrame Status.UNIXERR).allocBuf brokenFile 0).1 = Status.UNIXERR ∧
    ((oneDirtyFrame Status.UNIXERR).bufTable 0).pinCnt = 0 ∧
    (oneDirtyFrame Status.UNIXERR).hashTable.map (some 1, 2) = none ∧
    ((oneDirtyFrame Status.UNIXERR).readPage brokenFile (some 1) 2).1 = Status.BUFFEREXCEEDED ∧
    ((oneDirtyFrame Status.UNIXERR).allocPage brokenFile (some 1)).1 = Status.BUFFEREXCEEDED := by
  refine ⟨?_, rfl, rfl, rfl, rfl, rfl⟩
  exact Reachable.unPinPage _ (some 1) 1 true
    (Reachable.readPage _ (some 1) 1 (Reachable.new 1 emptyDisk (by decide)))

/-- C5 as stated fails, in both of its clauses. In the reachable state
`cleanThenPinned` page 2 of the file is pinned in frame 1 and page 1 is valid
and unpinned in frame 0; `flushFile` returns `PAGEPINNED`, yet frame 0 has
been invalidated and page 1 has left the index. In the reachable state
`dirtyThenPinned`, where page 1 is moreover dirty, `flushFile` returns
`PAGEPINNED` after having written page 1 of the file and dropped its frame. -/
theorem C5_flushFile_not_all_or_nothing :
    Reachable okFile cleanThenPinned ∧
    (cleanThenPinned.bufTable 1).valid = true ∧ (cleanThenPinned.bufTable 1).file = some 1 ∧
    0 < (cleanThenPinned.bufTable 1).pinCnt ∧
    (cleanThenPinned.bufTable 0).valid = true ∧ (cleanThenPinned.bufTable 0).file = some 1 ∧
    cleanThenPinned.hashTable.map (some 1, 1) = some 0 ∧
    (cleanThenPinned.flushFile okFile (some 1)).1 = Status.PAGEPINNED ∧
    ((cleanThenPinned.flushFile okFile (some 1)).2.bufTable 0).valid = false ∧
    (cleanThenPinned.flushFile okFile (some 1)).2.hashTable.map (some 1, 1) = none ∧
    Reachable okFile dirtyThenPinned ∧
    (dirtyThenPinned.bufTable 1).valid = true ∧ (dirtyThenPinned.bufTable 1).file = some 1 ∧
    0 < (dirtyThenPinned.bufTable 1).pinCnt ∧
    (dirtyThenPinned.bufTable 0).valid = true ∧ (dirtyThenPinned.bufTable 0).file = some 1 ∧
    (dirtyThenPinned.bufTable 0).pageNo = 1 ∧
    (dirtyThenPinned.flushFile okFile (some 1)).1 = Status.PAGEPINNED ∧
    (dirtyThenPinned.flushFile okFile (some 1)).2.calls =
      dirtyThenPinned.calls ++ [FileCall.write (some 1) 1 (dirtyThenPinned.bufPool 0)] ∧
    ((dirtyThenPinned.flushFile okFile (some 1)).2.bufTable 0).valid = false := by
  refine ⟨?_, rfl, rfl, by decide, rfl, rfl, rfl, rfl, rfl, rfl, ?_, rfl, rfl, by decide, rfl,
    rfl, rfl, rfl, rfl, rfl⟩
  · exact Reachable.unPinPage _ (some 1) 1 false (Reachable.readPage _ (some 1) 2
      (Reachable.readPage _ (some 1) 1 (Reachable.new 2 emptyDisk (by decide))))
  · exact Reachable.unPinPage _ (some 1) 1 true (Reachable.readPage _ (some 1) 2
      (Reachable.readPage _ (some 1) 1 (Reachable.new 2 emptyDisk (by decide))))

/-- C5, amended: in a reachable state let `j` be the first frame of the pool
that is valid, owned by the (non-null) file and pinned, and let the writes of
the file succeed. Then `flushFile` returns `PAGEPINNED`. Every descriptor at
index `j` or above is unchanged (same owner, dirty flag and pin count), the
bytes of every frame are unchanged, and every frame of the file at index `j`
or above is still in the index. Every frame of the file below `j` has been
invalidated and its page has left the index. The calls made to the file are
exactly one `writePage` per valid dirty frame of the file below `j`, in frame
order, with the frame's page number and bytes; no other page is written. -/
theorem C5_flushFile_stops_at_first_pin {D : Type} (L : FileLayer D) (s : BufMgr D)
    (hs : Reachable L s) (h j : Nat) (hj : j < s.numBufs)
    (hvj : (s.bufTable j).valid = true) (hfj : (s.bufTable j).file = some h)
    (hpj : 0 < (s.bufTable j).pinCnt)
    (hfirst : ∀ m, m < j → ¬ ((s.bufTable m).valid = true ∧ (s.bufTable m).file = some h ∧
      0 < (s.bufTable m).pinCnt))
    (hw : ∀ d file pageNo bytes, (L.writePage d file pageNo bytes).1 = Status.OK) :
    (s.flushFile L (some h)).1 = Status.PAGEPINNED ∧
    (∀ m, j ≤ m → (s.flushFile L (some h)).2.bufTable m = s.bufTable m) ∧
    (s.flushFile L (some h)).2.bufPool = s.bufPool ∧
    (∀ m, j ≤ m → m < s.numBufs → (s.bufTable m).valid = true →
      (s.bufTable m).file = some h →
      (s.flushFile L (some h)).2.hashTable.map (some h, (s.bufTable m).pageNo) = some m) ∧
    (∀ m, m < j → (s.bufTable m).valid = true → (s.bufTable m).file = some h →
      ((s.flushFile L (some h)).2.bufTable m).valid = false ∧
      (s.flushFile L (some h)).2.hashTable.map (some h, (s.bufTable m).pageNo) = none) ∧
    (s.flushFile L (some h)).2.calls =
      s.calls ++ (List.range j).filterMap (flushWrite s (some h)) ∧
    (∀ c, c ∈ (List.range j).filterMap (flushWrite s (some h)) ↔
      ∃ m, m < j ∧ (s.bufTable m).valid = true ∧ (s.bufTable m).file = some h ∧
        (s.bufTable m).dirty = true ∧
        c = FileCall.write (some h) (s.bufTable m).pageNo (s.bufPool m)) := by
  have hI := hs.invariant
  have hT : Inv (s.flushFile L (some h)).2 := flushFile_inv L hI (some h)
  obtain ⟨r1, r2, r3⟩ := flushFileLoop_pinned L h hw s.numBufs 0 s hI (by omega) j
    (Nat.zero_le _) hj hvj hfj hpj (fun m _ hm => hfirst m hm)
  have rc := flushFileLoop_pinned_calls L h hw s.numBufs 0 s hI (by omega) j
    (Nat.zero_le _) hj hvj hfj hpj (fun m _ hm => hfirst m hm)
  obtain ⟨e1, e2, -, e4, -⟩ := flushFileLoop_effect L (some h) s.numBufs 0 s
  have e1 : (s.flushFile L (some h)).2.numBufs = s.numBufs := e1
  have e2 : (s.flushFile L (some h)).2.bufPool = s.bufPool := e2
  have r2 : ∀ m, j ≤ m → (s.flushFile L (some h)).2.bufTable m = s.bufTable m := r2
  refine ⟨r1, r2, e2, fun m hm hmN hv hf => ?_, fun m hm hv hf => ?_, ?_, fun c => ?_⟩
  · have hidx := (hT.index ((s.bufTable m).file, (s.bufTable m).pageNo) m).2
      ⟨by rw [e1]; exact hmN, by rw [r2 m hm]; exact hv, by rw [r2 m hm], by rw [r2 m hm]⟩
    rw [hf] at hidx
    exact hidx
  · have hinv : ((s.flushFile L (some h)).2.bufTable m).valid = false :=
      r3 m (Nat.zero_le _) hm hv hf
    refine ⟨hinv, ?_⟩
    cases hq : (s.flushFile L (some h)).2.hashTable.map (some h, (s.bufTable m).pageNo) with
    | none => rfl
    | some g =>
      exfalso
      have hg := (hT.index (some h, (s.bufTable m).pageNo) g).1 hq
      have hgs : (s.flushFile L (some h)).2.bufTable g = s.bufTable g := by
        rcases e4 g with e | e
        · exact e
        · have hv2 := hg.2.1
          have e6 : (s.flushFile L (some h)).2.bufTable g = _ := e.2.2.2.2.2
          rw [e6] at hv2
          cases hv2
      have hgm : g = m := by
        refine hI.unique (by rw [← e1]; exact hg.1) (by omega) ?_ hv ?_ ?_
        · rw [← hgs]
          exact hg.2.1
        · rw [← hgs, hf]
          exact hg.2.2.1
        · rw [← hgs]
          exact hg.2.2.2
      rw [hgm] at hg
      rw [hinv] at hg
      cases hg.2.1
  · have : (s.flushFile L (some h)).2.calls = _ := rc
    rw [this, Nat.sub_zero, List.range_eq_range']
  · rw [List.mem_filterMap]
    constructor
    · rintro ⟨m, hm, hc⟩
      unfold flushWrite at hc
      by_cases hcond : (s.bufTable m).valid = true ∧ (s.bufTable m).file = some h ∧
          (s.bufTable m).dirty = true
      · rw [if_pos hcond] at hc
        exact ⟨m, List.mem_range.mp hm, hcond.1, hcond.2.1, hcond.2.2,
          (Option.some.inj hc).symm⟩
      · rw [if_neg hcond] at hc
        cases hc
    · rintro ⟨m, hm, hv, hf, hd, hc⟩
      refine ⟨m, List.mem_range.mpr hm, ?_⟩
      unfold flushWrite
      rw [if_pos ⟨hv, hf, hd⟩, hc]

/-- C5, amended, in `dirtyThenPinned`: the dirty page 1 in frame 0 is written,
with the bytes of frame 0, and dropped; the pinned page 2 in frame 1 stops the
flush with `PAGEPINNED` and keeps its descriptor and its index entry. -/
theorem C5_flushFile_stops_at_first_pin_witness :
    (dirtyThenPinned.flushFile okFile (some 1)).1 = Status.PAGEPINNED ∧
    (dirtyThenPinned.flushFile okFile (some 1)).2.bufTable 1 = dirtyThenPinned.bufTable 1 ∧
    (dirtyThenPinned.flushFile okFile (some 1)).2.hashTable.map (some 1, 2) = some 1 ∧
    ((dirtyThenPinned.flushFile okFile (some 1)).2.bufTable 0).valid = false ∧
    (dirtyThenPinned.flushFile okFile (some 1)).2.calls =
      dirtyThenPinned.calls ++ [FileCall.write (some 1) 1 (dirtyThenPinned.bufPool 0)] :=
  have h := C5_flushFile_stops_at_first_pin okFile dirtyThenPinned
    (Reachable.unPinPage _ (some 1) 1 true (Reachable.readPage _ (some 1) 2
      (Reachable.readPage _ (some 1) 1 (Reachable.new 2 emptyDisk (by decide)))))
    1 1 (by decide) rfl rfl (by decide)
    (fun m hm => by
      have h0 : m = 0 := by omega
      subst h0
      decide)
    (fun _ _ _ _ => rfl)
  ⟨h.1, h.2.1 1 (le_refl _), h.2.2.2.1 1 (le_refl _) (by decide) rfl rfl,
    (h.2.2.2.2.1 0 (by decide) rfl rfl).1, h.2.2.2.2.2.1⟩

/-- C6: over a file that is a map whose reads and writes succeed, from a
reachable state: fetch page `p` of `F` with `readPage`, overwrite its frame
with bytes `b`, unpin it with `unPinPage(F, p, true)` so that its `pinCnt` is
0, and let `flushFile(F)` return `OK`; then `readPage(F, p)` returns `OK` with
a frame whose bytes are `b`. -/
theorem C6_flush_reload_roundtrip {D : Type} (L : FileLayer D)
    (view : D → FilePtr × Int → Page) (hL : MapFile L view) (s : BufMgr D)
    (hs : Reachable L s) (F : FilePtr) (p : Int) (b : Page) (f : Nat) (s1 s3 s4 : BufMgr D)
    (h1 : s.readPage L F p = (Status.OK, some f, s1))
    (h2 : (s1.pokeFrame f b).unPinPage F p true = (Status.OK, s3))
    (hpin : (s3.bufTable f).pinCnt = 0)
    (h3 : s3.flushFile L F = (Status.OK, s4)) :
    ∃ g s5, s4.readPage L F p = (Status.OK, some g, s5) ∧ s5.bufPool g = b := by
  -- after the first fetch the page is resident in `f`
  have hI1 : Inv s1 := by
    have := readPage_inv L hs.invariant F p
    rw [h1] at this
    exact this
  have hR1 : s1.hashTable.map (F, p) = some f := by
    cases hm : s.hashTable.map (F, p) with
    | some g =>
      rw [readPage_hit L s F p g hm] at h1
      simp only [Prod.mk.injEq, Option.some.injEq, true_and] at h1
      obtain ⟨hg, ht⟩ := h1
      subst hg
      subst ht
      exact hm
    | none =>
      rw [readPage_miss L s F p hm] at h1
      split_ifs at h1 with c1 c2 c3
      · exact Status.noConfusion (congrArg Prod.fst h1)
      · exact Status.noConfusion (congrArg Prod.fst h1)
      · exact Status.noConfusion (congrArg Prod.fst h1)
      simp only [Prod.mk.injEq, Option.some.injEq, true_and] at h1
      obtain ⟨hg, ht⟩ := h1
      subst hg
      subst ht
      show ((s.allocBuf L 0).2.2.hashTable.insert F p (s.allocBuf L 0).2.1).2.map _ = _
      rw [(BufHashTbl.insert_ok _ _ _ _ (not_not.mp c3)).2, Function.update_same]
  have hf1 := (hI1.index (F, p) f).1 hR1
  -- after the write into the frame and the unpin
  have hI2 : Inv (s1.pokeFrame f b) := hI1.congr rfl rfl rfl rfl
  have hI3 : Inv s3 := by
    have := unPinPage_inv hI2 F p true
    rw [h2] at this
    exact this
  have hs3 : s3 = { s1.pokeFrame f b with bufTable := (Function.update s1.bufTable f
      { s1.bufTable f with pinCnt := (s1.bufTable f).pinCnt - 1, dirty := true }) } := by
    have hR2 : (s1.pokeFrame f b).hashTable.map (F, p) = some f := hR1
    unfold unPinPage at h2
    rw [BufHashTbl.lookup_present _ _ _ _ f hR2] at h2
    by_cases h0 : (s1.bufTable f).pinCnt = 0
    · simp [pokeFrame, h0] at h2
    · simp [pokeFrame, h0] at h2
      exact h2.symm
  have hN3 : s3.numBufs = s1.numBufs := by rw [hs3]; rfl
  have hv3 : (s3.bufTable f).valid = true := by
    rw [hs3]
    simpa using hf1.2.1
  have hF3 : (s3.bufTable f).file = F := by
    rw [hs3]
    simpa using hf1.2.2.1
  have hp3 : (s3.bufTable f).pageNo = p := by
    rw [hs3]
    simpa using hf1.2.2.2
  have hd3 : (s3.bufTable f).dirty = true := by
    rw [hs3]
    simp
  have hb3 : s3.bufPool f = b := by
    rw [hs3]
    simp [pokeFrame]
  -- after the flush
  have hI4 : Inv s4 := by
    have := flushFile_inv L hI3 F
    rw [h3] at this
    exact this
  have hfl := flushFileLoop_ok_written L view hL F s3.numBufs 0 s3 hI3 (by omega)
    (by rw [show flushFileLoop L F s3.numBufs 0 s3 = (Status.OK, s4) from h3])
  have hef := flushFileLoop_effect L F s3.numBufs 0 s3
  rw [show flushFileLoop L F s3.numBufs 0 s3 = (Status.OK, s4) from h3] at hfl hef
  obtain ⟨fa, fb, -⟩ := hfl
  have hN4 : s4.numBufs = s3.numBufs := hef.1
  have hv4 : (s4.bufTable f).valid = false :=
    fa f (Nat.zero_le _) (by rw [hN3]; exact hf1.1) hv3 hF3
  have hdisk4 : view s4.disk (F, p) = b := by
    have := fb f (Nat.zero_le _) (by rw [hN3]; exact hf1.1) hv3 hF3 hd3
    rw [hp3, hb3] at this
    exact this
  have habs4 : s4.hashTable.map (F, p) = none := by
    cases hq : s4.hashTable.map (F, p) with
    | none => rfl
    | some g =>
      exfalso
      have hg := (hI4.index (F, p) g).1 hq
      have hgs : s4.bufTable g = s3.bufTable g := by
        rcases hef.2.2.2.1 g with e | e
        · exact e
        · have hv2 := hg.2.1
          rw [e.2.2.2.2.2] at hv2
          cases hv2
      have := fa g (Nat.zero_le _) (by rw [← hN4]; exact hg.1) (by rw [← hgs]; exact hg.2.1)
        (by rw [← hgs]; exact hg.2.2.1)
      rw [hg.2.1] at this
      cases this
  -- the second fetch
  have hok : (s4.allocBuf L 0).1 = Status.OK :=
    allocBuf_ok_of_invalid L hI4 0 f (by rw [hN4, hN3]; exact hf1.1) hv4 hL.write_ok
  have he := allocBufLoop_effect L (s4.numBufs * 2) s4 0
  have habs5 : (s4.allocBuf L 0).2.2.hashTable.map (F, p) = none := by
    rcases he.2.2.2 (F, p) with h | h
    · exact h.trans habs4
    · exact h.2.2.2.2
  have hdisk5 : view (s4.allocBuf L 0).2.2.disk (F, p) = b := by
    rcases allocBufLoop_io L (s4.numBufs * 2) s4 0 with hio | ⟨i, hi, hvi, -, -, hio, -⟩
    · show view (allocBufLoop L (s4.numBufs * 2) s4 0).2.2.disk (F, p) = b
      rw [hio.1]
      exact hdisk4
    · show view (allocBufLoop L (s4.numBufs * 2) s4 0).2.2.disk (F, p) = b
      rw [hio, hL.write_view, Function.update_noteq]
      · exact hdisk4
      · intro hk
        have := (hI4.index ((s4.bufTable i).file, (s4.bufTable i).pageNo) i).2
          ⟨hi hI4.hand, hvi, rfl, rfl⟩
        rw [← hk, habs4] at this
        cases this
  have c1 : ¬ (s4.allocBuf L 0).1 ≠ Status.OK := fun h => h hok
  have c2 : ¬ (L.readPage (s4.allocBuf L 0).2.2.disk F p
      ((s4.allocBuf L 0).2.2.bufPool (s4.allocBuf L 0).2.1)).1 ≠ Status.OK := by
    rw [hL.read]
    exact fun h => h rfl
  -- the index refuses no more after the cycle than in the reachable state `s`
  have hrf5 : (s4.allocBuf L 0).2.2.hashTable.refuses (F, p) = false := by
    have e1 : s1.hashTable.refuses = s.hashTable.refuses := by
      have := readPage_refuses L s F p
      rw [h1] at this
      exact this
    have e3 : s3.hashTable.refuses = s1.hashTable.refuses := by
      have := unPinPage_refuses (s1.pokeFrame f b) F p true
      rw [h2] at this
      exact this
    have e4 : s4.hashTable.refuses = s3.hashTable.refuses := by
      have := flushFileLoop_refuses L F s3.numBufs 0 s3
      rw [show flushFileLoop L F s3.numBufs 0 s3 = (Status.OK, s4) from h3] at this
      exact this
    have e5 : (s4.allocBuf L 0).2.2.hashTable.refuses = s4.hashTable.refuses :=
      allocBufLoop_refuses L (s4.numBufs * 2) s4 0
    rw [e5, e4, e3, e1]
    exact hs.roomy (F, p)
  have c3 : ¬ ((s4.allocBuf L 0).2.2.hashTable.insert F p (s4.allocBuf L 0).2.1).1
      ≠ Status.OK := by
    rw [BufHashTbl.insert_absent _ _ _ _ habs5 hrf5]
    exact fun h => h rfl
  rw [readPage_miss L s4 F p habs4, if_neg c1, if_neg c2, if_neg c3]
  refine ⟨(s4.allocBuf L 0).2.1, _, rfl, ?_⟩
  show Function.update (s4.allocBuf L 0).2.2.bufPool (s4.allocBuf L 0).2.1
    (L.readPage _ F p _).2.1 (s4.allocBuf L 0).2.1 = b
  rw [Function.update_same, hL.read]
  exact hdisk5

/-- C6 on a fresh pool of two frames over the in-memory file: page 1 is
fetched, overwritten with 42, unpinned dirty, flushed and fetched again. -/
theorem C6_flush_reload_roundtrip_witness :
    ∃ g s5,
      (((((BufMgr.new 2 emptyDisk).readPage okFile (some 1) 1).2.2.pokeFrame 0 42).unPinPage
        (some 1) 1 true).2.flushFile okFile (some 1)).2.readPage okFile (some 1) 1
        = (Status.OK, some g, s5) ∧ s5.bufPool g = 42 :=
  C6_flush_reload_roundtrip okFile (fun d => d.pages) okFile_mapFile (BufMgr.new 2 emptyDisk)
    (Reachable.new 2 emptyDisk (by decide)) (some 1) 1 42 0 _ _ _ rfl rfl rfl rfl

/-- C7: for a page resident in frame `f` with `pinCnt > 0`, `unPinPage` returns
`OK`; the new state is the old one with, in descriptor `f` only, `pinCnt`
decreased by one (it stays non-negative) and `dirty` replaced by
`dirty OR markDirty`; every other field, frame, the index, the hand, the pool
and stable storage are unchanged. -/
theorem C7_unPinPage_decrements {D : Type} (s : BufMgr D) (file : FilePtr) (PageNo : Int)
    (markDirty : Bool) (f : Nat) (hres : s.hashTable.map (file, PageNo) = some f)
    (hpin : 0 < (s.bufTable f).pinCnt) :
    s.unPinPage file PageNo markDirty = (Status.OK,
      { s with bufTable := (Function.update s.bufTable f
          { s.bufTable f with
            pinCnt := (s.bufTable f).pinCnt - 1
            dirty := ((s.bufTable f).dirty || markDirty) }) }) ∧
    0 ≤ (s.bufTable f).pinCnt - 1 := by
  refine ⟨?_, by omega⟩
  unfold unPinPage
  rw [BufHashTbl.lookup_present _ _ _ _ f hres]
  have h0 : ¬ (s.bufTable f).pinCnt = 0 := by omega
  cases markDirty <;> simp [h0]

/-- C7 on the second page of `twoPinnedFrames`, unpinned with `markDirty`. -/
theorem C7_unPinPage_decrements_witness :
    (twoPinnedFrames.unPinPage (some 1) 2 true).1 = Status.OK ∧
    (0 : Int) ≤ (twoPinnedFrames.bufTable 1).pinCnt - 1 :=
  have h := C7_unPinPage_decrements twoPinnedFrames (some 1) 2 true 1 rfl (by decide)
  ⟨congrArg Prod.fst h.1, h.2⟩

/-- C8: `unPinPage` returns `HASHNOTFOUND` exactly when the identity is absent
from the index and `PAGENOTPINNED` exactly when the page is resident with
`pinCnt = 0`; it has no other failure, and when it fails the whole state is
the one before the call. -/
theorem C8_unPinPage_failures {D : Type} (s : BufMgr D) (file : FilePtr) (PageNo : Int)
    (markDirty : Bool) :
    ((s.unPinPage file PageNo markDirty).1 = Status.HASHNOTFOUND ↔
      s.hashTable.map (file, PageNo) = none) ∧
    ((s.unPinPage file PageNo markDirty).1 = Status.PAGENOTPINNED ↔
      ∃ f, s.hashTable.map (file, PageNo) = some f ∧ (s.bufTable f).pinCnt = 0) ∧
    ((s.unPinPage file PageNo markDirty).1 = Status.OK ∨
      (s.unPinPage file PageNo markDirty).1 = Status.HASHNOTFOUND ∨
      (s.unPinPage file PageNo markDirty).1 = Status.PAGENOTPINNED) ∧
    ((s.unPinPage file PageNo markDirty).1 ≠ Status.OK →
      (s.unPinPage file PageNo markDirty).2 = s) := by
  unfold unPinPage
  cases hm : s.hashTable.map (file, PageNo) with
  | none =>
    rw [BufHashTbl.lookup_absent _ _ _ _ hm]
    simp
  | some g =>
    rw [BufHashTbl.lookup_present _ _ _ _ g hm]
    by_cases h0 : (s.bufTable g).pinCnt = 0
    · simp [h0]
    · simp [h0]

/-- C9: for a page resident in frame `f`, `readPage` returns `OK` with the
pointer to frame `f`; the new state is the old one with, in descriptor `f`
only, `refbit` set and `pinCnt` increased by one: `dirty`, owner and `valid` of
`f`, every other frame, the index, the hand, the pool bytes, stable storage
and the list of file calls (no read, no write) are unchanged. -/
theorem C9_readPage_hit_pins {D : Type} (L : FileLayer D) (s : BufMgr D) (file : FilePtr)
    (PageNo : Int) (f : Nat) (hres : s.hashTable.map (file, PageNo) = some f) :
    s.readPage L file PageNo = (Status.OK, some f,
      { s with bufTable := (Function.update s.bufTable f
          { s.bufTable f with refbit := true, pinCnt := (s.bufTable f).pinCnt + 1 }) }) ∧
    (s.readPage L file PageNo).2.2.calls = s.calls ∧
    (s.readPage L file PageNo).2.2.disk = s.disk := by
  have h : s.readPage L file PageNo = (Status.OK, some f,
      { s with bufTable := (Function.update s.bufTable f
          { s.bufTable f with refbit := true, pinCnt := (s.bufTable f).pinCnt + 1 }) }) := by
    unfold readPage
    rw [BufHashTbl.lookup_present _ _ _ _ f hres]
    simp
  refine ⟨h, ?_, ?_⟩
  · rw [h]
  · rw [h]

/-- C9 on page 1 of `twoPinnedFrames`, fetched a second time. -/
theorem C9_readPage_hit_pins_witness :
    (twoPinnedFrames.readPage okFile (some 1) 1).1 = Status.OK ∧
    ((twoPinnedFrames.readPage okFile (some 1) 1).2.2.bufTable 0).pinCnt = 2 ∧
    (twoPinnedFrames.readPage okFile (some 1) 1).2.2.calls = twoPinnedFrames.calls :=
  have h := C9_readPage_hit_pins okFile twoPinnedFrames (some 1) 1 0 rfl
  ⟨congrArg Prod.fst h.1, by rw [h.1]; rfl, h.2.1⟩

/-- C10: a `readPage` that succeeds after an index miss, and an `allocPage` that
succeeds, leave the returned frame `f` with owner `(file, pageNo)`, valid,
clean, reference bit set and `pinCnt = 1`, and the index maps the identity to
`f`. For `readPage` the bytes of `f` are those the file's `readPage` delivered
for `pageNo` (the stored bytes, for a file that is a map); for `allocPage` the
page number returned is the one the file's `allocatePage` produced, and the
calls made to the file are that `allocatePage` followed by writes only. -/
theorem C10_new_frame_initialised {D : Type} (L : FileLayer D) (s : BufMgr D)
    (file : FilePtr) (PageNo : Int) :
    (∀ (f : Nat) (t : BufMgr D), s.hashTable.map (file, PageNo) = none →
      s.readPage L file PageNo = (Status.OK, some f, t) →
      (t.bufTable f).file = file ∧ (t.bufTable f).pageNo = PageNo ∧
      (t.bufTable f).valid = true ∧ (t.bufTable f).dirty = false ∧
      (t.bufTable f).refbit = true ∧ (t.bufTable f).pinCnt = 1 ∧
      t.hashTable.map (file, PageNo) = some f ∧
      t.bufPool f = (L.readPage (s.allocBuf L 0).2.2.disk file PageNo
        ((s.allocBuf L 0).2.2.bufPool f)).2.1 ∧
      (∀ view, MapFile L view → t.bufPool f = view t.disk (file, PageNo))) ∧
    (∀ (pg : Int) (f : Nat) (t : BufMgr D),
      s.allocPage L file = (Status.OK, pg, some f, t) →
      pg = (L.allocatePage s.disk file).2.1 ∧
      (t.bufTable f).file = file ∧ (t.bufTable f).pageNo = pg ∧
      (t.bufTable f).valid = true ∧ (t.bufTable f).dirty = false ∧
      (t.bufTable f).refbit = true ∧ (t.bufTable f).pinCnt = 1 ∧
      t.hashTable.map (file, pg) = some f ∧
      ∃ ws, t.calls = s.calls ++ FileCall.allocate file :: ws ∧
        ∀ c ∈ ws, ∃ fl p b, c = FileCall.write fl p b) := by
  constructor
  · intro f t hm h
    rw [readPage_miss L s file PageNo hm] at h
    split_ifs at h with c1 c2 c3
    · exact Status.noConfusion (congrArg Prod.fst h)
    · exact Status.noConfusion (congrArg Prod.fst h)
    · exact Status.noConfusion (congrArg Prod.fst h)
    simp only [Prod.mk.injEq, Option.some.injEq, true_and] at h
    obtain ⟨hf, ht⟩ := h
    subst hf
    subst ht
    have hins := BufHashTbl.insert_ok _ _ _ _ (not_not.mp c3)
    refine ⟨?_, ?_, ?_, ?_, ?_, ?_, ?_, ?_, ?_⟩
    · simp [BufDesc.Set]
    · simp [BufDesc.Set]
    · simp [BufDesc.Set]
    · simp [BufDesc.Set]
    · simp [BufDesc.Set]
    · simp [BufDesc.Set]
    · show ((s.allocBuf L 0).2.2.hashTable.insert file PageNo (s.allocBuf L 0).2.1).2.map _ = _
      rw [hins.2, Function.update_same]
    · simp [readPageFill]
    · intro view hv
      simp [readPageFill, hv.read]
  · intro pg f t h
    unfold allocPage at h
    simp only [] at h
    split_ifs at h with c0 c1 c3
    · exact Status.noConfusion (congrArg Prod.fst h)
    · exact Status.noConfusion (congrArg Prod.fst h)
    · exact Status.noConfusion (congrArg Prod.fst h)
    simp only [Prod.mk.injEq, Option.some.injEq, true_and] at h
    obtain ⟨hpg, hf, ht⟩ := h
    subst hpg
    subst hf
    subst ht
    have hins := BufHashTbl.insert_ok _ _ _ _ (not_not.mp c3)
    refine ⟨rfl, ?_, ?_, ?_, ?_, ?_, ?_, ?_, ?_⟩
    · simp [BufDesc.Set]
    · simp [BufDesc.Set]
    · simp [BufDesc.Set]
    · simp [BufDesc.Set]
    · simp [BufDesc.Set]
    · simp [BufDesc.Set]
    · show (BufHashTbl.insert _ file _ _).2.map _ = _
      rw [hins.2, Function.update_same]
    · rcases allocBufLoop_io L (s.numBufs * 2)
        ({ s with
            disk := (L.allocatePage s.disk file).2.2
            calls := s.calls ++ [FileCall.allocate file] } : BufMgr D) 0 with hio | ⟨i, hio⟩
      · refine ⟨[], ?_, ?_⟩
        · show (allocBufLoop L (s.numBufs * 2) _ 0).2.2.calls = _
          rw [hio.2.1]
        · intro c hc
          cases hc
      · refine ⟨[FileCall.write (s.bufTable i).file (s.bufTable i).pageNo (s.bufPool i)], ?_, ?_⟩
        · show (allocBufLoop L (s.numBufs * 2) _ 0).2.2.calls = _
          rw [hio.2.2.2.2.2.1]
          simp
        · intro c hc
          rw [List.mem_singleton] at hc
          exact ⟨_, _, _, hc⟩

/-- C10 on a fresh pool of two frames: the first fetch and the first allocation
each return frame 0 pinned once. -/
theorem C10_new_frame_initialised_witness :
    (((BufMgr.new 2 emptyDisk).readPage okFile (some 1) 1).2.2.bufTable 0).pinCnt = 1 ∧
    ((BufMgr.new 2 emptyDisk).readPage okFile (some 1) 1).2.2.hashTable.map (some 1, 1)
      = some 0 ∧
    (((BufMgr.new 2 emptyDisk).allocPage okFile (some 1)).2.2.2.bufTable 0).pinCnt = 1 :=
  have h := C10_new_frame_initialised okFile (BufMgr.new 2 emptyDisk) (some 1) 1
  ⟨(h.1 0 _ rfl rfl).2.2.2.2.2.1, (h.1 0 _ rfl rfl).2.2.2.2.2.2.1,
    (h.2 0 0 _ rfl).2.2.2.2.2.2.1⟩

/-- C11: for a page resident in frame `f`, whatever its pin count and dirty
flag, `disposePage` makes exactly one call to the file, the file's
`disposePage(pageNo)` (so no `writePage`), clears descriptor `f` to the invalid
state, removes the identity from the index and returns the status of that
call. For a page that is not resident the descriptors and the index are
unchanged, the file's `disposePage` is still called and its status returned. -/
theorem C11_disposePage_discards {D : Type} (L : FileLayer D) (s : BufMgr D) (file : FilePtr)
    (pageNo : Int) :
    (∀ f, s.hashTable.map (file, pageNo) = some f →
      s.disposePage L file pageNo = ((L.disposePage s.disk file pageNo).1,
        { s with
          bufTable := Function.update s.bufTable f (s.bufTable f).Clear
          hashTable :=
            { s.hashTable with map := Function.update s.hashTable.map (file, pageNo) none }
          disk := (L.disposePage s.disk file pageNo).2
          calls := s.calls ++ [FileCall.dispose file pageNo] }) ∧
      ((s.disposePage L file pageNo).2.bufTable f).valid = false ∧
      (s.disposePage L file pageNo).2.hashTable.map (file, pageNo) = none) ∧
    (s.hashTable.map (file, pageNo) = none →
      s.disposePage L file pageNo = ((L.disposePage s.disk file pageNo).1,
        { s with
          disk := (L.disposePage s.disk file pageNo).2
          calls := s.calls ++ [FileCall.dispose file pageNo] })) := by
  constructor
  · intro f hm
    have h : s.disposePage L file pageNo = ((L.disposePage s.disk file pageNo).1,
        { s with
          bufTable := Function.update s.bufTable f (s.bufTable f).Clear
          hashTable :=
            { s.hashTable with map := Function.update s.hashTable.map (file, pageNo) none }
          disk := (L.disposePage s.disk file pageNo).2
          calls := s.calls ++ [FileCall.dispose file pageNo] }) := by
      unfold disposePage
      rw [BufHashTbl.lookup_present _ _ _ _ f hm]
      simp [BufHashTbl.remove, hm]
    refine ⟨h, ?_, ?_⟩
    · rw [h]
      simp [BufDesc.Clear]
    · rw [h]
      simp
  · intro hm
    unfold disposePage
    rw [BufHashTbl.lookup_absent _ _ _ _ hm]
    simp [BufHashTbl.remove, hm]

/-- C11 in `pinnedThenDirty`: disposing the dirty page 2 clears frame 1 with the
single file call `disposePage(2)`; disposing the absent page 7 leaves the
descriptors alone. -/
theorem C11_disposePage_discards_witness :
    (pinnedThenDirty.disposePage okFile (some 1) 2).1 = Status.OK ∧
    ((pinnedThenDirty.disposePage okFile (some 1) 2).2.bufTable 1).valid = false ∧
    (pinnedThenDirty.disposePage okFile (some 1) 2).2.calls =
      pinnedThenDirty.calls ++ [FileCall.dispose (some 1) 2] ∧
    (pinnedThenDirty.disposePage okFile (some 1) 7).2.bufTable = pinnedThenDirty.bufTable :=
  have h := C11_disposePage_discards okFile pinnedThenDirty (some 1) 2
  have g := C11_disposePage_discards okFile pinnedThenDirty (some 1) 7
  ⟨congrArg Prod.fst (h.1 1 rfl).1, (h.1 1 rfl).2.1, by rw [(h.1 1 rfl).1],
    by rw [g.2 rfl]⟩

/-- C12: in a reachable state, for a page that is not resident and a file whose
writes succeed, `readPage` returns `BUFFEREXCEEDED` exactly when every frame
of the pool is valid with `pinCnt > 0`. In particular, once `bufs` distinct
pages have been fetched from a fresh manager of `bufs` frames and none was
unpinned, every frame is valid and pinned and the fetch of one more distinct
page returns `BUFFEREXCEEDED`. -/
theorem C12_exhausted_iff_all_pinned {D : Type} (L : FileLayer D) :
    (∀ (s : BufMgr D) (file : FilePtr) (PageNo : Int), Reachable L s →
      s.hashTable.map (file, PageNo) = none →
      (∀ d fl pg bytes, (L.writePage d fl pg bytes).1 = Status.OK) →
      ((s.readPage L file PageNo).1 = Status.BUFFEREXCEEDED ↔
        ∀ i, i < s.numBufs → (s.bufTable i).valid = true ∧ 0 < (s.bufTable i).pinCnt)) ∧
    (∀ (bufs : Nat) (d : D) (ps : List (FilePtr × Int)) (q : FilePtr × Int) (t : BufMgr D),
      1 ≤ bufs → ps.length = bufs → ps.Nodup → q ∉ ps →
      fetchAll L (BufMgr.new bufs d) ps = some t →
      (∀ i, i < bufs → (t.bufTable i).valid = true ∧ 0 < (t.bufTable i).pinCnt) ∧
      (t.readPage L q.1 q.2).1 = Status.BUFFEREXCEEDED) := by
  constructor
  · intro s file PageNo hs hm hw
    have hI := hs.invariant
    rw [readPage_miss_exceeded L s file PageNo hm]
    constructor
    · intro h
      rcases allocBufLoop_status L (s.numBufs * 2) s 0 with h1 | h1 | h1
      · exact absurd h1 h
      · exact allocBuf_exhausted_all_pinned L s 0 hI.hand h1
      · exact absurd h1 (allocBuf_not_unixerr L s 0 hw)
    · intro hall hok
      have := allocBufLoop_all_pinned L (s.numBufs * 2) s 0
        (Nat.lt_of_le_of_lt (Nat.zero_le _) hI.hand) hall
      have hok2 : (allocBufLoop L (s.numBufs * 2) s 0).1 = Status.OK := hok
      rw [hok2] at this
      cases this
  · intro bufs d ps q t hN hlen hnd hq hfa
    obtain ⟨f1, f2, -, f4⟩ := Filled.fetchAll L ps (BufMgr.new bufs d) t 0 []
      (Filled.fresh bufs d hN 0)
      (by
        show 0 + ps.length ≤ bufs
        omega) hnd (fun p _ hc => by cases hc) hfa
    have f2 : t.numBufs = bufs := f2
    have hR : Reachable L t := f4 (Reachable.new bufs d hN)
    have hall : ∀ i, i < t.numBufs →
        (t.bufTable i).valid = true ∧ 0 < (t.bufTable i).pinCnt := by
      intro i hi
      exact ⟨f1.valid_lt i (by omega), f1.pinned i (Nat.zero_le _) (by omega)⟩
    have hm : t.hashTable.map (q.1, q.2) = none := by
      cases hc : t.hashTable.map (q.1, q.2) with
      | none => rfl
      | some g =>
        have := f1.resident _ g hc
        simp only [List.nil_append] at this
        exact absurd this hq
    refine ⟨fun i hi => hall i (by rw [f2]; exact hi), ?_⟩
    rw [readPage_miss_exceeded L t q.1 q.2 hm]
    intro hok
    have := allocBufLoop_all_pinned L (t.numBufs * 2) t 0 (by omega) hall
    have hok2 : (allocBufLoop L (t.numBufs * 2) t 0).1 = Status.OK := hok
    rw [hok2] at this
    cases this

/-- C12 on Scenario A: a pool of 2 frames, pages 1 and 2 fetched and pinned; the
fetch of page 3 returns `BUFFEREXCEEDED`. And the equivalence in
`pinnedThenDirty`, where page 2 is unpinned. -/
theorem C12_exhausted_iff_all_pinned_witness :
    (twoPinnedFrames.readPage okFile (some 1) 3).1 = Status.BUFFEREXCEEDED ∧
    ((pinnedThenDirty.readPage okFile (some 1) 3).1 = Status.BUFFEREXCEEDED ↔
      ∀ i, i < pinnedThenDirty.numBufs →
        (pinnedThenDirty.bufTable i).valid = true ∧ 0 < (pinnedThenDirty.bufTable i).pinCnt) :=
  have h := C12_exhausted_iff_all_pinned okFile
  ⟨(h.2 2 emptyDisk [(some 1, 1), (some 1, 2)] (some 1, 3) twoPinnedFrames (by decide) rfl
      (by decide) (by decide) rfl).2,
    h.1 pinnedThenDirty (some 1) 3
      (Reachable.unPinPage _ (some 1) 2 true (Reachable.readPage _ (some 1) 2
        (Reachable.readPage _ (some 1) 1 (Reachable.new 2 emptyDisk (by decide)))))
      rfl (fun _ _ _ _ => rfl)⟩

/-- C13: on a fresh manager of `bufs ≥ 1` frames over a file whose reads and
writes succeed, `readPage(F, p1)`, `unPinPage(F, p1, true)` and the fetches of
`bufs - 1` further distinct pages all return `OK`. The fetch of one more
distinct page `q` then returns `OK` with the frame `f` that held `p1`; the
calls it makes to the file are exactly the `writePage` of `p1` with the bytes
of `f`, followed by the `readPage` of `q`; afterwards `p1` is absent from the
index and `q` is resident in `f` with `pinCnt = 1`. -/
theorem C13_clock_evicts_dirty_page {D : Type} (L : FileLayer D)
    (hr : ∀ d file pageNo old, (L.readPage d file pageNo old).1 = Status.OK)
    (hw : ∀ d file pageNo bytes, (L.writePage d file pageNo bytes).1 = Status.OK)
    (bufs : Nat) (d : D) (F : FilePtr) (p1 : Int) (ps : List (FilePtr × Int))
    (q : FilePtr × Int) (hN : 1 ≤ bufs) (hlen : ps.length + 1 = bufs)
    (hnd : ((F, p1) :: ps).Nodup) (hq : q ∉ (F, p1) :: ps) :
    ∃ (s3 : BufMgr D) (f : Nat), dirtyThenFill L bufs d F p1 ps = some s3 ∧
      s3.hashTable.map (F, p1) = some f ∧
      (s3.readPage L q.1 q.2).1 = Status.OK ∧ (s3.readPage L q.1 q.2).2.1 = some f ∧
      (s3.readPage L q.1 q.2).2.2.calls = s3.calls ++
        [FileCall.write F p1 (s3.bufPool f), FileCall.read q.1 q.2] ∧
      (s3.readPage L q.1 q.2).2.2.hashTable.map (F, p1) = none ∧
      (s3.readPage L q.1 q.2).2.2.hashTable.map q = some f ∧
      ((s3.readPage L q.1 q.2).2.2.bufTable f).valid = true ∧
      ((s3.readPage L q.1 q.2).2.2.bufTable f).pinCnt = 1 := by
  have hnd2 := List.nodup_cons.mp hnd
  unfold dirtyThenFill
  -- the first fetch fills frame 0
  have hF0 : Filled (BufMgr.new bufs d) 0 0 [] := Filled.fresh bufs d hN 0
  have hm0 : (BufMgr.new bufs d).hashTable.map (F, p1) = none := rfl
  have hx0 : ((BufMgr.new bufs d).clockHand + 1) % (BufMgr.new bufs d).numBufs = 0 := by
    show (bufs - 1 + 1) % bufs = 0
    rw [show bufs - 1 + 1 = bufs by omega, Nat.mod_self]
  have hv0 : ((BufMgr.new bufs d).bufTable
      (((BufMgr.new bufs d).clockHand + 1) % (BufMgr.new bufs d).numBufs)).valid = false := rfl
  have heq1 := readPage_next_invalid L (BufMgr.new bufs d) F p1 hN hm0 rfl hv0
  rw [if_neg (fun h => h (hr _ _ _ _)), hx0] at heq1
  have hok1 : ((BufMgr.new bufs d).readPage L F p1).1 = Status.OK := by rw [heq1]
  obtain ⟨a1, a2, a3⟩ := hF0.fetch L (show 0 < bufs by omega) (F, p1) (by simp) hok1
  have hR1 : Reachable L ((BufMgr.new bufs d).readPage L F p1).2.2 :=
    Reachable.readPage _ F p1 (Reachable.new bufs d hN)
  generalize ((BufMgr.new bufs d).readPage L F p1) = r1 at heq1 hok1 a1 a2 a3 hR1 ⊢
  have hmap1 : r1.2.2.hashTable.map (F, p1) = some 0 := by
    rw [heq1]
    exact Function.update_same _ _ _
  have hd1 : r1.2.2.bufTable 0 = ((BufMgr.new bufs d).bufTable 0).Set F p1 := by
    rw [heq1]
    simp
  -- the unpin leaves page `p1` unpinned and dirty in frame 0
  have hun : r1.2.2.unPinPage F p1 true = (Status.OK,
      { r1.2.2 with bufTable := (Function.update r1.2.2.bufTable 0
          { r1.2.2.bufTable 0 with pinCnt := 0, dirty := true }) }) := by
    unfold unPinPage
    rw [BufHashTbl.lookup_present _ _ _ _ 0 hmap1]
    simp [hd1, BufDesc.Set]
  have hR2 : Reachable L (r1.2.2.unPinPage F p1 true).2 := Reachable.unPinPage _ F p1 true hR1
  have hok2 : (r1.2.2.unPinPage F p1 true).1 = Status.OK := by rw [hun]
  generalize r1.2.2.unPinPage F p1 true = u at hun hR2 hok2 ⊢
  have hF2 : Filled u.2 1 1 ([] ++ [(F, p1)]) := by
    rw [hun]
    refine ⟨a1.next, fun i hi => ?_, fun i h1 h2 => by omega, fun i hi => ?_, a1.resident,
      a1.roomy⟩
    · have : i = 0 := by omega
      subst this
      show (Function.update r1.2.2.bufTable 0 _ 0).valid = true
      rw [Function.update_same]
      show (r1.2.2.bufTable 0).valid = true
      rw [hd1]
      rfl
    · show (Function.update r1.2.2.bufTable 0 _ i).valid = false
      rw [Function.update_noteq (by omega)]
      exact a1.invalid_ge i hi
  have hu0 : u.2.bufTable 0 = { r1.2.2.bufTable 0 with pinCnt := 0, dirty := true } := by
    rw [hun]
    simp
  have hN2 : u.2.numBufs = bufs := by
    rw [hun]
    exact a2
  have hmap2 : u.2.hashTable.map (F, p1) = some 0 := by
    rw [hun]
    exact hmap1
  -- the further fetches fill the other frames
  have hnot : ∀ p ∈ ps, p ∉ ([] ++ [(F, p1)] : List (FilePtr × Int)) := by
    intro p hp hc
    simp only [List.nil_append, List.mem_singleton] at hc
    subst hc
    exact hnd2.1 hp
  obtain ⟨s3, hs3⟩ := Filled.fetchAll_some L hr ps u.2 1 _ hF2 (by rw [hN2]; omega) hnd2.2 hnot
  obtain ⟨b1, b2, b3, b4⟩ := Filled.fetchAll L ps u.2 s3 1 _ hF2 (by rw [hN2]; omega) hnd2.2
    hnot hs3
  have hR3 : Reachable L s3 := b4 hR2
  have hI3 := hR3.invariant
  have hN3 : s3.numBufs = bufs := b2.trans hN2
  have hs30 : s3.bufTable 0 = { r1.2.2.bufTable 0 with pinCnt := 0, dirty := true } := by
    rw [b3 0 (by omega), hu0]
  have hv30 : (s3.bufTable 0).valid = true := by
    rw [hs30]
    show (r1.2.2.bufTable 0).valid = true
    rw [hd1]
    rfl
  have hf30 : (s3.bufTable 0).file = F := by
    rw [hs30]
    show (r1.2.2.bufTable 0).file = F
    rw [hd1]
    rfl
  have hp30 : (s3.bufTable 0).pageNo = p1 := by
    rw [hs30]
    show (r1.2.2.bufTable 0).pageNo = p1
    rw [hd1]
    rfl
  have hpin30 : (s3.bufTable 0).pinCnt = 0 := by rw [hs30]
  have hdirty30 : (s3.bufTable 0).dirty = true := by rw [hs30]
  have hmap3 : s3.hashTable.map (F, p1) = some 0 :=
    (hI3.index (F, p1) 0).2 ⟨by omega, hv30, hf30, hp30⟩
  have hvalid3 : ∀ i, i < s3.numBufs → (s3.bufTable i).valid = true := by
    intro i hi
    exact b1.valid_lt i (by omega)
  have hpinned3 : ∀ i, 1 ≤ i → i < s3.numBufs → 0 < (s3.bufTable i).pinCnt := by
    intro i h1 hi
    exact b1.pinned i h1 (by omega)
  have hmq : s3.hashTable.map (q.1, q.2) = none := by
    cases hc : s3.hashTable.map (q.1, q.2) with
    | none => rfl
    | some g =>
      have := b1.resident _ g hc
      simp only [List.nil_append, List.singleton_append] at this
      exact absurd this hq
  -- the last fetch: `allocBuf` returns `OK`
  have hok : (s3.allocBuf L 0).1 = Status.OK := by
    rcases allocBufLoop_status L (s3.numBufs * 2) s3 0 with h | h | h
    · exact h
    · exfalso
      have := (allocBuf_exhausted_all_pinned L s3 0 hI3.hand h 0 (by omega)).2
      rw [hpin30] at this
      exact absurd this (by decide)
    · exfalso
      rcases allocBufLoop_io L (s3.numBufs * 2) s3 0 with hio | ⟨i, hio⟩
      · exact hio.2.2 h
      · rcases hio.2.2.2.2.2.2 with h2 | h2
        · rw [h2.2.1] at h
          cases h
        · exact h2.1 (hw _ _ _ _)
  have hfr := allocBufLoop_ok L (s3.numBufs * 2) s3 0 hI3.hand hok
  have hcase := allocBufLoop_ok_frame L (s3.numBufs * 2) s3 0 hok
  have he := allocBufLoop_effect L (s3.numBufs * 2) s3 0
  have ha : Inv (s3.allocBuf L 0).2.2 := allocBufLoop_inv L _ hI3 0
  -- the frame returned is frame 0, written back
  have hzero : ∀ g, g < s3.numBufs → (s3.bufTable g).pinCnt ≤ 0 → g = 0 := by
    intro g hg hle
    by_contra hne
    have := hpinned3 g (by omega) hg
    omega
  have hwb : (s3.allocBuf L 0).2.1 = 0 ∧ (s3.allocBuf L 0).2.2.calls =
      s3.calls ++ [FileCall.write F p1 (s3.bufPool 0)] := by
    rcases hcase with h | h | h
    · have := hvalid3 _ hfr.1
      rw [h.1] at this
      cases this
    · have h0 := hzero _ hfr.1 h.2.1
      have h3 := h.2.2.1
      rw [h0, hdirty30] at h3
      cases h3
    · have h0 : (allocBufLoop L (s3.numBufs * 2) s3 0).2.1 = 0 := hzero _ hfr.1 h.2.1
      refine ⟨h0, ?_⟩
      have h4 := h.2.2.2.1
      rw [h0, hf30, hp30] at h4
      exact h4
  have hf0 : (s3.allocBuf L 0).2.1 = 0 := hwb.1
  have hinv0 : ((s3.allocBuf L 0).2.2.bufTable 0).valid = false := by
    have := hfr.2
    rw [show (allocBufLoop L (s3.numBufs * 2) s3 0).2.1 = 0 from hf0] at this
    exact this
  have habsq : (s3.allocBuf L 0).2.2.hashTable.map (q.1, q.2) = none := by
    rcases he.2.2.2 (q.1, q.2) with h | h
    · exact h.trans hmq
    · exact h.2.2.2.2
  have habs1 : (s3.allocBuf L 0).2.2.hashTable.map (F, p1) = none := by
    cases hc : (s3.allocBuf L 0).2.2.hashTable.map (F, p1) with
    | none => rfl
    | some g =>
      exfalso
      have hg := (ha.index (F, p1) g).1 hc
      have hgN : g < s3.numBufs := by
        rw [← he.1]
        exact hg.1
      rcases he.2.2.1 g with e | e
      · have e2 : (s3.allocBuf L 0).2.2.bufTable g = _ := e
        have hv := hg.2.1
        have hfl := hg.2.2.1
        have hpg := hg.2.2.2
        rw [e2] at hv hfl hpg
        have hg0 : g = 0 := hI3.unique hgN (by omega) hv hv30 (hfl.trans hf30.symm)
          (hpg.trans hp30.symm)
        rw [hg0, hinv0] at hg
        cases hg.2.1
      · have hv := hg.2.1
        have e2 : (s3.allocBuf L 0).2.2.bufTable g = _ := e.2.2.2.2
        rw [e2] at hv
        cases hv
  have hqne : (q.1, q.2) ≠ (F, p1) := by
    intro hc
    apply hq
    rw [show q = (q.1, q.2) from rfl, hc]
    exact List.mem_cons_self _ _
  have c1 : ¬ (s3.allocBuf L 0).1 ≠ Status.OK := fun h => h hok
  have c2 : ¬ (L.readPage (s3.allocBuf L 0).2.2.disk q.1 q.2
      ((s3.allocBuf L 0).2.2.bufPool (s3.allocBuf L 0).2.1)).1 ≠ Status.OK :=
    fun h => h (hr _ _ _ _)
  have hrfq : (s3.allocBuf L 0).2.2.hashTable.refuses (q.1, q.2) = false := by
    have e : (s3.allocBuf L 0).2.2.hashTable.refuses = s3.hashTable.refuses :=
      allocBufLoop_refuses L (s3.numBufs * 2) s3 0
    rw [e]
    exact hR3.roomy _
  have c3 : ¬ ((s3.allocBuf L 0).2.2.hashTable.insert q.1 q.2 (s3.allocBuf L 0).2.1).1
      ≠ Status.OK := by
    rw [BufHashTbl.insert_absent _ _ _ _ habsq hrfq]
    exact fun h => h rfl
  have hres := readPage_miss L s3 q.1 q.2 hmq
  rw [if_neg c1, if_neg c2, if_neg c3, BufHashTbl.insert_absent _ _ _ _ habsq hrfq, hf0] at hres
  refine ⟨s3, 0, ?_, hmap3, ?_, ?_, ?_, ?_, ?_, ?_, ?_⟩
  · rw [if_pos hok1, if_pos hok2]
    exact hs3
  · rw [hres]
  · rw [hres]
  · rw [hres]
    show (s3.allocBuf L 0).2.2.calls ++ [FileCall.read q.1 q.2] = _
    rw [hwb.2]
    simp
  · rw [hres]
    show Function.update (s3.allocBuf L 0).2.2.hashTable.map (q.1, q.2) (some 0) (F, p1) = none
    rw [Function.update_noteq hqne.symm]
    exact habs1
  · rw [hres]
    show Function.update (s3.allocBuf L 0).2.2.hashTable.map (q.1, q.2) (some 0) q = some 0
    rw [show q = (q.1, q.2) from rfl, Function.update_same]
  · rw [hres]
    show (Function.update (s3.allocBuf L 0).2.2.bufTable 0 _ 0).valid = true
    rw [Function.update_same]
    rfl
  · rw [hres]
    show (Function.update (s3.allocBuf L 0).2.2.bufTable 0 _ 0).pinCnt = 1
    rw [Function.update_same]
    rfl

/-- C13 on Scenario B: a pool of 3 frames, page 1 fetched and unpinned dirty,
pages 2 and 3 fetched, then page 4 fetched. -/
theorem C13_clock_evicts_dirty_page_witness :
    ∃ (s3 : BufMgr MemDisk) (f : Nat),
      dirtyThenFill okFile 3 emptyDisk (some 1) 1 [(some 1, 2), (some 1, 3)] = some s3 ∧
      s3.hashTable.map (some 1, 1) = some f ∧
      (s3.readPage okFile (some 1) 4).1 = Status.OK ∧
      (s3.readPage okFile (some 1) 4).2.1 = some f ∧
      (s3.readPage okFile (some 1) 4).2.2.calls = s3.calls ++
        [FileCall.write (some 1) 1 (s3.bufPool f), FileCall.read (some 1) 4] ∧
      (s3.readPage okFile (some 1) 4).2.2.hashTable.map (some 1, 1) = none ∧
      (s3.readPage okFile (some 1) 4).2.2.hashTable.map (some 1, 4) = some f ∧
      ((s3.readPage okFile (some 1) 4).2.2.bufTable f).valid = true ∧
      ((s3.readPage okFile (some 1) 4).2.2.bufTable f).pinCnt = 1 :=
  C13_clock_evicts_dirty_page okFile (fun _ _ _ _ => rfl) (fun _ _ _ _ => rfl) 3 emptyDisk
    (some 1) 1 [(some 1, 2), (some 1, 3)] (some 1, 4) (by decide) rfl (by decide) (by decide)

/-- C14: in a reachable state, when `flushFile(F)` returns `OK`: no frame of the
pool is valid and owned by `F` and the index has no entry for a page of `F`;
the calls made to the file are exactly `flushWrites s F`, one `writePage` per
frame that was valid, dirty and owned by `F`, with its page number and bytes,
in frame order, so that no clean page is written; the descriptors of the
frames not owned by `F`, the index entries of the pages of other files and
the pool bytes are unchanged. -/
theorem C14_flushFile_ok_postcondition {D : Type} (L : FileLayer D) (s : BufMgr D)
    (hs : Reachable L s) (F : FilePtr) (hok : (s.flushFile L F).1 = Status.OK) :
    (∀ i, i < s.numBufs →
      ¬ (((s.flushFile L F).2.bufTable i).valid = true ∧
        ((s.flushFile L F).2.bufTable i).file = F)) ∧
    (∀ p, (s.flushFile L F).2.hashTable.map (F, p) = none) ∧
    (s.flushFile L F).2.calls = s.calls ++ flushWrites s F ∧
    (∀ c, c ∈ flushWrites s F ↔ ∃ i, i < s.numBufs ∧ (s.bufTable i).valid = true ∧
      (s.bufTable i).file = F ∧ (s.bufTable i).dirty = true ∧
      c = FileCall.write F (s.bufTable i).pageNo (s.bufPool i)) ∧
    (flushWrites s F).length = ((List.range s.numBufs).filter (fun i =>
      (s.bufTable i).valid && decide ((s.bufTable i).file = F) && (s.bufTable i).dirty)).length ∧
    (∀ i, (s.bufTable i).file ≠ F → (s.flushFile L F).2.bufTable i = s.bufTable i) ∧
    (∀ (G : FilePtr) (p : Int), G ≠ F →
      (s.flushFile L F).2.hashTable.map (G, p) = s.hashTable.map (G, p)) ∧
    (s.flushFile L F).2.bufPool = s.bufPool := by
  have hI := hs.invariant
  have hT : Inv (s.flushFile L F).2 := flushFile_inv L hI F
  obtain ⟨c1, c2⟩ := flushFileLoop_ok_calls L F s.numBufs 0 s hok
  obtain ⟨e1, e2, -, e4, -⟩ := flushFileLoop_effect L F s.numBufs 0 s
  have e1 : (s.flushFile L F).2.numBufs = s.numBufs := e1
  have e4 : ∀ m, (s.flushFile L F).2.bufTable m = s.bufTable m ∨
      (0 ≤ m ∧ m < 0 + s.numBufs ∧ (s.bufTable m).valid = true ∧ (s.bufTable m).file = F ∧
        (s.bufTable m).pinCnt ≤ 0 ∧ (s.flushFile L F).2.bufTable m =
          { s.bufTable m with file := none, pageNo := -1, valid := false, dirty := false }) := e4
  have c2 : ∀ m, 0 ≤ m → m < 0 + s.numBufs → (s.bufTable m).valid = true →
      (s.bufTable m).file = F → ((s.flushFile L F).2.bufTable m).valid = false := c2
  have novalid : ∀ i, i < s.numBufs → ¬ (((s.flushFile L F).2.bufTable i).valid = true ∧
      ((s.flushFile L F).2.bufTable i).file = F) := by
    rintro i hi ⟨hv, hf⟩
    rcases e4 i with e | e
    · rw [e] at hv hf
      have := c2 i (Nat.zero_le _) (by omega) hv hf
      rw [e, hv] at this
      cases this
    · rw [e.2.2.2.2.2] at hv
      cases hv
  refine ⟨novalid, fun p => ?_, ?_, fun c => ?_, ?_, fun i hf => ?_, fun G p hG => ?_, e2⟩
  · cases hq : (s.flushFile L F).2.hashTable.map (F, p) with
    | none => rfl
    | some g =>
      exfalso
      have hg := (hT.index (F, p) g).1 hq
      exact novalid g (by rw [← e1]; exact hg.1) ⟨hg.2.1, hg.2.2.1⟩
  · show (flushFileLoop L F s.numBufs 0 s).2.calls = _
    rw [c1]
    unfold flushWrites
    rw [List.range_eq_range']
  · unfold flushWrites
    rw [List.mem_filterMap]
    constructor
    · rintro ⟨i, hi, hc⟩
      unfold flushWrite at hc
      split_ifs at hc with h
      exact ⟨i, List.mem_range.mp hi, h.1, h.2.1, h.2.2, (Option.some.inj hc).symm⟩
    · rintro ⟨i, hi, hv, hf, hd, hc⟩
      refine ⟨i, List.mem_range.mpr hi, ?_⟩
      unfold flushWrite
      rw [if_pos ⟨hv, hf, hd⟩, hc]
  · unfold flushWrites
    induction (List.range s.numBufs) with
    | nil => rfl
    | cons a l ih =>
      rw [List.filterMap_cons, List.filter_cons]
      unfold flushWrite
      by_cases h : (s.bufTable a).valid = true ∧ (s.bufTable a).file = F ∧
          (s.bufTable a).dirty = true
      · rw [if_pos h]
        simp [h.1, h.2.1, h.2.2]
        exact ih
      · rw [if_neg h]
        have : ((s.bufTable a).valid && decide ((s.bufTable a).file = F) &&
            (s.bufTable a).dirty) = false := by
          simpa [and_assoc] using h
        simp [this]
        exact ih
  · rcases e4 i with e | e
    · exact e
    · exact absurd e.2.2.2.1 hf
  · exact flushFileLoop_map_other L F s.numBufs 0 s (G, p) hG

/-- C14 in `pinnedThenDirty` after page 1 was disposed: the flush writes the
dirty page 2 once. -/
theorem C14_flushFile_ok_postcondition_witness :
    ((pinnedThenDirty.disposePage okFile (some 1) 1).2.flushFile okFile (some 1)).2.calls =
      (pinnedThenDirty.disposePage okFile (some 1) 1).2.calls ++ [FileCall.write (some 1) 2 0] :=
  (C14_flushFile_ok_postcondition okFile (pinnedThenDirty.disposePage okFile (some 1) 1).2
    (Reachable.disposePage _ (some 1) 1 (Reachable.unPinPage _ (some 1) 2 true
      (Reachable.readPage _ (some 1) 2 (Reachable.readPage _ (some 1) 1
        (Reachable.new 2 emptyDisk (by decide))))))
    (some 1) rfl).2.2.1

/-- C15: whenever the scan of `allocBuf` comes to a frame that is valid,
unpinned, dirty and has its reference bit clear, and the file's `writePage`
for it fails, it returns `UNIXERR` at once with the hand on that frame. And
for a call made in a reachable state (up to storage and call list, as in C1)
that returns `UNIXERR`: the frame `v` under the hand was valid, dirty and
unpinned and its write failed; `v` is still valid and dirty with the same
owner and pin count; the pool bytes and the index are unchanged and the index
maps the owner of `v` to `v`; every descriptor is as before except for
reference bits that were cleared; the one call made to the file is that
write. -/
theorem C15_failed_writeback_no_eviction {D : Type} (L : FileLayer D) (s : BufMgr D)
    (hs : Reachable L s) (d : D) (tr : List FileCall) (frame : Nat) :
    (∀ (n : Nat) (t : BufMgr D),
      (t.bufTable t.advanceClock.clockHand).valid = true →
      (t.bufTable t.advanceClock.clockHand).refbit = false →
      (t.bufTable t.advanceClock.clockHand).pinCnt ≤ 0 →
      (t.bufTable t.advanceClock.clockHand).dirty = true →
      (L.writePage t.disk (t.bufTable t.advanceClock.clockHand).file
        (t.bufTable t.advanceClock.clockHand).pageNo (t.bufPool t.advanceClock.clockHand)).1
          ≠ Status.OK →
      allocBufLoop L (n + 1) t frame = (Status.UNIXERR, frame, wroteBack L t.advanceClock)) ∧
    (∀ (fr : Nat) (t : BufMgr D),
      ({ s with disk := d, calls := tr } : BufMgr D).allocBuf L frame = (Status.UNIXERR, fr, t) →
      t.clockHand < s.numBufs ∧
      (s.bufTable t.clockHand).valid = true ∧ (s.bufTable t.clockHand).dirty = true ∧
      (s.bufTable t.clockHand).pinCnt = 0 ∧
      (L.writePage d (s.bufTable t.clockHand).file (s.bufTable t.clockHand).pageNo
        (s.bufPool t.clockHand)).1 ≠ Status.OK ∧
      (t.bufTable t.clockHand).valid = true ∧ (t.bufTable t.clockHand).dirty = true ∧
      (t.bufTable t.clockHand).file = (s.bufTable t.clockHand).file ∧
      (t.bufTable t.clockHand).pageNo = (s.bufTable t.clockHand).pageNo ∧
      (t.bufTable t.clockHand).pinCnt = (s.bufTable t.clockHand).pinCnt ∧
      t.bufPool = s.bufPool ∧ t.hashTable = s.hashTable ∧ t.numBufs = s.numBufs ∧
      t.hashTable.map ((s.bufTable t.clockHand).file, (s.bufTable t.clockHand).pageNo)
        = some t.clockHand ∧
      (∀ i, t.bufTable i = { s.bufTable i with refbit := (t.bufTable i).refbit } ∧
        ((t.bufTable i).refbit = true → (s.bufTable i).refbit = true)) ∧
      t.calls = tr ++ [FileCall.write (s.bufTable t.clockHand).file
        (s.bufTable t.clockHand).pageNo (s.bufPool t.clockHand)]) := by
  refine ⟨fun n t hv hr hp hd hw => allocBufLoop_write_failed L n t frame hv hr hp hd hw, ?_⟩
  intro fr t h
  have hI := hs.invariant
  have h0 : Inv ({ s with disk := d, calls := tr } : BufMgr D) := hI.congr rfl rfl rfl rfl
  have hu := allocBufLoop_unixerr L (s.numBufs * 2) ({ s with disk := d, calls := tr } : BufMgr D)
    frame (by rw [show allocBufLoop L (s.numBufs * 2) _ frame = (Status.UNIXERR, fr, t) from h])
  rw [show allocBufLoop L (s.numBufs * 2) _ frame = (Status.UNIXERR, fr, t) from h] at hu
  obtain ⟨u1, u2, u3, u4, u5, u6, u7, u8⟩ := hu
  have hlt : t.clockHand < s.numBufs := u1 hI.hand
  have hd := u2.desc
  have hpin0 : (s.bufTable t.clockHand).pinCnt = 0 :=
    le_antisymm u5 (hI.pin_nonneg _)
  have hT : t.hashTable = s.hashTable := u2.hashTable
  refine ⟨hlt, u3, u4, hpin0, u7, ?_, ?_, ?_, ?_, ?_, u2.bufPool, hT, u2.numBufs, ?_,
    fun i => ⟨hd i, u2.refbit i⟩, u8⟩
  · rw [hd]
    exact u3
  · rw [hd]
    exact u4
  · rw [hd]
  · rw [hd]
  · rw [hd]
  · rw [hT]
    exact (hI.index _ _).2 ⟨hlt, u3, rfl, rfl⟩

/-- C15 in a pool of one frame whose page is unpinned and dirty, over a file
whose writes fail: the call stops on frame 0, still dirty, and a further scan
from there fails at once in the same way. -/
theorem C15_failed_writeback_no_eviction_witness :
    ((oneDirtyFrame Status.UNIXERR).allocBuf brokenFile 0).2.2.clockHand = 0 ∧
    (((oneDirtyFrame Status.UNIXERR).allocBuf brokenFile 0).2.2.bufTable 0).dirty = true ∧
    allocBufLoop brokenFile 2 ((oneDirtyFrame Status.UNIXERR).allocBuf brokenFile 0).2.2 0 =
      (Status.UNIXERR, 0,
        wroteBack brokenFile
          ((oneDirtyFrame Status.UNIXERR).allocBuf brokenFile 0).2.2.advanceClock) :=
  have h := C15_failed_writeback_no_eviction brokenFile (oneDirtyFrame Status.UNIXERR)
    (Reachable.unPinPage _ (some 1) 1 true
      (Reachable.readPage _ (some 1) 1 (Reachable.new 1 emptyDisk (by decide))))
    (oneDirtyFrame Status.UNIXERR).disk (oneDirtyFrame Status.UNIXERR).calls 0
  have g := h.2 0 _ rfl
  ⟨Nat.lt_one_iff.mp g.1, g.2.2.2.2.2.2.1,
    h.1 1 _ rfl rfl (by decide) rfl (fun hc => Status.noConfusion hc)⟩

/-- C16: let the index of a reachable state `s` have come to refuse the
identities of `g` (with `g := fun _ => false` this is `s` itself), and let
`readPage` miss the index and `allocBuf` return `OK` with frame `f`. If
the file's `readPage` fails, `readPage` returns `UNIXERR`, frame `f` is invalid
with `pinCnt = 0` and the identity is not in the index. If the read succeeds,
the index insert fails exactly when the index refuses the identity, and when
it fails `readPage` returns `HASHTBLERROR` without a frame, frame `f` is
invalid with `pinCnt = 0` and the identity is not in the index. -/
theorem C16_readPage_failure_leaves_frame_invalid {D : Type} (L : FileLayer D) (s : BufMgr D)
    (hs : Reachable L s) (g : FilePtr × Int → Bool) (file : FilePtr) (PageNo : Int)
    (f : Nat) (s1 : BufMgr D)
    (hm : s.hashTable.map (file, PageNo) = none)
    (ha : (s.refusing g).allocBuf L 0 = (Status.OK, f, s1)) :
    s.refusing (fun _ => false) = s ∧
    ((L.readPage s1.disk file PageNo (s1.bufPool f)).1 ≠ Status.OK →
      ((s.refusing g).readPage L file PageNo).1 = Status.UNIXERR ∧
      (((s.refusing g).readPage L file PageNo).2.2.bufTable f).valid = false ∧
      (((s.refusing g).readPage L file PageNo).2.2.bufTable f).pinCnt = 0 ∧
      ((s.refusing g).readPage L file PageNo).2.2.hashTable.map (file, PageNo) = none) ∧
    ((L.readPage s1.disk file PageNo (s1.bufPool f)).1 = Status.OK →
      ((s1.hashTable.insert file PageNo f).1 ≠ Status.OK ↔ g (file, PageNo) = true) ∧
      ((s1.hashTable.insert file PageNo f).1 ≠ Status.OK →
        ((s.refusing g).readPage L file PageNo).1 = Status.HASHTBLERROR ∧
        ((s.refusing g).readPage L file PageNo).2.1 = none ∧
        (((s.refusing g).readPage L file PageNo).2.2.bufTable f).valid = false ∧
        (((s.refusing g).readPage L file PageNo).2.2.bufTable f).pinCnt = 0 ∧
        ((s.refusing g).readPage L file PageNo).2.2.hashTable.map (file, PageNo) = none)) := by
  have hI : Inv (s.refusing g) := hs.invariant.refusing g
  have hm2 : (s.refusing g).hashTable.map (file, PageNo) = none := hm
  have hok : ((s.refusing g).allocBuf L 0).1 = Status.OK := by rw [ha]
  have ha1 : Inv ((s.refusing g).allocBuf L 0).2.2 := allocBufLoop_inv L _ hI 0
  have hv : (((s.refusing g).allocBuf L 0).2.2.bufTable
      ((s.refusing g).allocBuf L 0).2.1).valid = false :=
    (allocBufLoop_ok L ((s.refusing g).numBufs * 2) (s.refusing g) 0 hI.hand hok).2
  have habs : ((s.refusing g).allocBuf L 0).2.2.hashTable.map (file, PageNo) = none := by
    rcases (allocBufLoop_effect L ((s.refusing g).numBufs * 2) (s.refusing g) 0).2.2.2
      (file, PageNo) with h | h
    · exact h.trans hm
    · exact h.2.2.2.2
  have hrf : ((s.refusing g).allocBuf L 0).2.2.hashTable.refuses = g :=
    allocBufLoop_refuses L ((s.refusing g).numBufs * 2) (s.refusing g) 0
  have hres := readPage_miss L (s.refusing g) file PageNo hm2
  rw [ha] at ha1 hv habs hrf hres
  have hp : (s1.bufTable f).pinCnt = 0 := (ha1.invalid_clear f hv).2
  rw [if_neg (fun h => h rfl)] at hres
  have hiff : (s1.hashTable.insert file PageNo f).1 ≠ Status.OK ↔ g (file, PageNo) = true := by
    constructor
    · intro hno
      cases hg : g (file, PageNo) with
      | true => rfl
      | false =>
        exfalso
        apply hno
        rw [BufHashTbl.insert_absent _ _ _ _ habs (by rw [hrf]; exact hg)]
    · intro hg
      rw [BufHashTbl.insert_refused _ _ _ _ (by rw [hrf]; exact hg)]
      exact fun h => Status.noConfusion h
  refine ⟨?_, ?_, ?_⟩
  · have hroomy : s.hashTable.refuses = fun _ => false := funext hs.roomy
    unfold refusing
    rw [← hroomy]
  · intro hr
    rw [hres, if_pos hr]
    exact ⟨rfl, hv, hp, habs⟩
  · intro hr
    refine ⟨hiff, fun hno => ?_⟩
    rw [hres, if_neg (fun h => h hr), if_pos hno]
    refine ⟨rfl, rfl, hv, hp, ?_⟩
    show (s1.hashTable.insert file PageNo f).2.map (file, PageNo) = none
    rw [BufHashTbl.insert_failed _ _ _ _ hno]
    exact habs

/-- C16 on a fresh pool of two frames: over a file whose reads fail the fetch
of page 1 returns `UNIXERR` and frame 0 stays invalid; over the in-memory file,
with an index that refuses every identity, the fetch returns `HASHTBLERROR`
and frame 0 stays invalid and unpinned. -/
theorem C16_readPage_failure_leaves_frame_invalid_witness :
    ((BufMgr.new 2 emptyDisk).readPage unreadableFile (some 1) 1).1 = Status.UNIXERR ∧
    (((BufMgr.new 2 emptyDisk).readPage unreadableFile (some 1) 1).2.2.bufTable 0).valid
      = false ∧
    (((BufMgr.new 2 emptyDisk).refusing (fun _ => true)).readPage okFile (some 1) 1).1
      = Status.HASHTBLERROR ∧
    ((((BufMgr.new 2 emptyDisk).refusing (fun _ => true)).readPage okFile
      (some 1) 1).2.2.bufTable 0).valid = false ∧
    ((((BufMgr.new 2 emptyDisk).refusing (fun _ => true)).readPage okFile
      (some 1) 1).2.2.bufTable 0).pinCnt = 0 :=
  have h := C16_readPage_failure_leaves_frame_invalid unreadableFile (BufMgr.new 2 emptyDisk)
    (Reachable.new 2 emptyDisk (by decide)) (fun _ => false) (some 1) 1 0 _ rfl rfl
  have g := C16_readPage_failure_leaves_frame_invalid okFile (BufMgr.new 2 emptyDisk)
    (Reachable.new 2 emptyDisk (by decide)) (fun _ => true) (some 1) 1 0 _ rfl rfl
  ⟨(h.2.1 (fun hc => Status.noConfusion hc)).1, (h.2.1 (fun hc => Status.noConfusion hc)).2.1,
    ((g.2.2 rfl).2 ((g.2.2 rfl).1.2 rfl)).1, ((g.2.2 rfl).2 ((g.2.2 rfl).1.2 rfl)).2.2.1,
    ((g.2.2 rfl).2 ((g.2.2 rfl).1.2 rfl)).2.2.2.1⟩

/-- C17: the calls the destructor makes to the files are exactly
`dirtyFrameWrites s`: one `writePage` per frame of the pool that is valid and
dirty, to its owning file, with its owner page number and its bytes, in frame
order, and none for a frame that is invalid or clean. This holds in every
state, reachable or not. -/
theorem C17_destroy_writes_dirty_frames {D : Type} (L : FileLayer D) (s : BufMgr D) :
    (destroy L s).2 = s.calls ++ dirtyFrameWrites s ∧
    (∀ c, c ∈ dirtyFrameWrites s ↔ ∃ i, i < s.numBufs ∧ (s.bufTable i).valid = true ∧
      (s.bufTable i).dirty = true ∧
      c = FileCall.write (s.bufTable i).file (s.bufTable i).pageNo (s.bufPool i)) ∧
    (dirtyFrameWrites s).length =
      ((List.range s.numBufs).filter
        (fun i => (s.bufTable i).valid && (s.bufTable i).dirty)).length := by
  refine ⟨?_, ?_, ?_⟩
  · unfold destroy dirtyFrameWrites
    simp only []
    rw [destroyLoop_calls, List.range_eq_range']
  · intro c
    unfold dirtyFrameWrites
    rw [List.mem_filterMap]
    constructor
    · rintro ⟨i, hi, hc⟩
      unfold frameWrite at hc
      split_ifs at hc with h
      exact ⟨i, List.mem_range.mp hi, h.1, h.2, (Option.some.inj hc).symm⟩
    · rintro ⟨i, hi, hv, hd, hc⟩
      refine ⟨i, List.mem_range.mpr hi, ?_⟩
      unfold frameWrite
      rw [if_pos ⟨hv, hd⟩, hc]
  · unfold dirtyFrameWrites
    induction (List.range s.numBufs) with
    | nil => rfl
    | cons a l ih =>
      rw [List.filterMap_cons, List.filter_cons]
      unfold frameWrite
      by_cases h : (s.bufTable a).valid = true ∧ (s.bufTable a).dirty = true
      · rw [if_pos h]
        simp [h.1, h.2]
        exact ih
      · rw [if_neg h]
        have : ((s.bufTable a).valid && (s.bufTable a).dirty) = false := by
          simpa using h
        simp [this]
        exact ih

/-- C18 as stated fails: in the reachable state `oneDirtyFrame` frame 0 is valid
and dirty and its write is reported as failed by the file `storesButFails`,
yet the destructor makes the same calls and ends in the same storage as over
the file whose writes succeed: its outcome does not tell the failure. Over
`brokenFile`, whose failed writes store nothing, the calls made are again the
same. -/
theorem C18_destroy_swallows_write_failure :
    Reachable storesButFails (oneDirtyFrame Status.OK) ∧
    ((oneDirtyFrame Status.OK).bufTable 0).valid = true ∧
    ((oneDirtyFrame Status.OK).bufTable 0).dirty = true ∧
    (storesButFails.writePage (oneDirtyFrame Status.OK).disk (some 1) 1
      ((oneDirtyFrame Status.OK).bufPool 0)).1 = Status.UNIXERR ∧
    (destroy storesButFails (oneDirtyFrame Status.OK)).2 =
      [FileCall.read (some 1) 1, FileCall.write (some 1) 1 0] ∧
    destroy storesButFails (oneDirtyFrame Status.OK) =
      destroy okFile (oneDirtyFrame Status.OK) ∧
    (destroy brokenFile (oneDirtyFrame Status.OK)).2 =
      (destroy okFile (oneDirtyFrame Status.OK)).2 := by
  refine ⟨?_, rfl, rfl, rfl, rfl, rfl, rfl⟩
  exact Reachable.unPinPage _ (some 1) 1 true
    (Reachable.readPage _ (some 1) 1 (Reachable.new 1 emptyDisk (by decide)))

/-- C18, amended: the destructor discards the status of `writePage`. Over two
files whose writes have the same effect on storage, whatever statuses they
return, it ends with the same storage and the same calls, namely the writes
of the valid dirty frames; a failed write is neither reported nor raised. -/
theorem C18_destroy_ignores_write_status {D : Type} (L1 L2 : FileLayer D) (s : BufMgr D)
    (heff : ∀ d file pageNo bytes,
      (L1.writePage d file pageNo bytes).2 = (L2.writePage d file pageNo bytes).2) :
    destroy L1 s = destroy L2 s ∧ (destroy L1 s).2 = s.calls ++ dirtyFrameWrites s := by
  constructor
  · unfold destroy
    simp only []
    rw [destroyLoop_status_blind L1 L2 heff]
  · unfold destroy dirtyFrameWrites
    simp only []
    rw [destroyLoop_calls, List.range_eq_range']

/-- C18, amended, in `pinnedThenDirty`: the same outcome over `storesButFails`
and over the file whose writes succeed. -/
theorem C18_destroy_ignores_write_status_witness :
    destroy storesButFails pinnedThenDirty = destroy okFile pinnedThenDirty :=
  (C18_destroy_ignores_write_status storesButFails okFile pinnedThenDirty
    (fun _ _ _ _ => rfl)).1

/-- C19: in a pool of `N ≥ 1` frames with the hand in the pool, whatever the
descriptors, a call of `allocBuf` returns after `k` calls of `advanceClock`
with `1 ≤ k ≤ 2N`: the positions it adds to `advances`, which are the frames
it examines, are `(hand + 1) mod N, …, (hand + k) mod N`, each below `N`; the
hand ends at `(hand + k) mod N`, below `N`; and when the call returns
`BUFFEREXCEEDED`, `k = 2N` and the hand is back where it started. -/
theorem C19_bounded_circular_scan {D : Type} (L : FileLayer D) (s : BufMgr D) (frame : Nat)
    (hN : 1 ≤ s.numBufs) (hh : s.clockHand < s.numBufs) :
    ∃ k, 1 ≤ k ∧ k ≤ 2 * s.numBufs ∧
      (s.allocBuf L frame).2.2.advances =
        s.advances ++ (List.range k).map (fun j => (s.clockHand + (j + 1)) % s.numBufs) ∧
      (∀ v ∈ (List.range k).map (fun j => (s.clockHand + (j + 1)) % s.numBufs),
        v < s.numBufs) ∧
      (s.allocBuf L frame).2.2.clockHand = (s.clockHand + k) % s.numBufs ∧
      (s.allocBuf L frame).2.2.clockHand < s.numBufs ∧
      ((s.allocBuf L frame).1 = Status.BUFFEREXCEEDED →
        k = 2 * s.numBufs ∧ (s.allocBuf L frame).2.2.clockHand = s.clockHand) := by
  obtain ⟨k, a, b, c, d, e⟩ := allocBufLoop_advances L (s.numBufs * 2) s frame
  have hpos : 0 < s.numBufs * 2 := by omega
  have e2 : (s.allocBuf L frame).2.2.clockHand = (s.clockHand + k) % s.numBufs := e hpos
  refine ⟨k, b hpos, by omega, c, ?_, e2, ?_, fun hx => ?_⟩
  · intro v hv
    rw [List.mem_map] at hv
    obtain ⟨j, -, hj⟩ := hv
    rw [← hj]
    exact Nat.mod_lt _ (by omega)
  · rw [e2]
    exact Nat.mod_lt _ (by omega)
  · have hk := d hx
    refine ⟨by omega, ?_⟩
    rw [e2, hk, Nat.add_mul_mod_self_left, Nat.mod_eq_of_lt hh]

/-- C19 in `twoPinnedFrames` (hand on frame 1): the scan examines frames 0, 1,
0, 1, gives up, and the hand is back on frame 1. -/
theorem C19_bounded_circular_scan_witness :
    (twoPinnedFrames.allocBuf okFile 0).2.2.advances = twoPinnedFrames.advances ++ [0, 1, 0, 1] ∧
    (twoPinnedFrames.allocBuf okFile 0).2.2.clockHand = twoPinnedFrames.clockHand := by
  obtain ⟨k, -, -, h3, -, -, -, h7⟩ :=
    C19_bounded_circular_scan okFile twoPinnedFrames 0 (by decide) (by decide)
  obtain ⟨hk, hhand⟩ := h7 rfl
  subst hk
  exact ⟨h3, hhand⟩

/-- C20: in every reachable state an invalid descriptor has a null file and
`pinCnt = 0`; hence `flushFile` on a non-null file never returns `BADBUFFER`
(the status of a failed `writePage`, which `flushFile` passes on, is a storage
status of the file and not `BADBUFFER`). -/
theorem C20_invalid_descriptors_clear {D : Type} (L : FileLayer D) (s : BufMgr D)
    (hs : Reachable L s) :
    (∀ i, (s.bufTable i).valid = false → (s.bufTable i).file = none ∧
      (s.bufTable i).pinCnt = 0) ∧
    (∀ h : Nat,
      (∀ d file pageNo bytes, (L.writePage d file pageNo bytes).1 ≠ Status.BADBUFFER) →
      (s.flushFile L (some h)).1 ≠ Status.BADBUFFER) :=
  ⟨hs.invariant.invalid_clear,
    fun h hw => flushFileLoop_no_badbuffer L h hw s.numBufs 0 s hs.invariant (by omega)⟩

/-- C20 after a flush that stopped on a pinned page: frame 0, invalidated by
it, has a null file, and a second flush does not return `BADBUFFER`. -/
theorem C20_invalid_descriptors_clear_witness :
    ((cleanThenPinned.flushFile okFile (some 1)).2.bufTable 0).file = none ∧
    ((cleanThenPinned.flushFile okFile (some 1)).2.flushFile okFile (some 1)).1
      ≠ Status.BADBUFFER :=
  have h := C20_invalid_descriptors_clear okFile (cleanThenPinned.flushFile okFile (some 1)).2
    (Reachable.flushFile _ (some 1) (Reachable.unPinPage _ (some 1) 1 false
      (Reachable.readPage _ (some 1) 2 (Reachable.readPage _ (some 1) 1
        (Reachable.new 2 emptyDisk (by decide))))))
  ⟨(h.1 0 rfl).1, h.2 1 (fun _ _ _ _ hc => Status.noConfusion hc)⟩
